import Mathlib

/-!
GarnetNetwork (garnet2.0 task-graph extension): ratio tokens, VC classes,
completion tracking, the tick step and the two loaders.

A shallow embedding of these parts of
`src/mem/ruby/network/garnet2.0/GarnetNetwork.cc`:

* `GarnetNetwork::get_ratio_token` (lines 605-623), the reduction of the
  per-application iteration counts to interleave weights;
* the `vc_choice` computation inside `GarnetNetwork::loadTraffic`
  (lines 800-823), the virtual-channel class of an edge;
* `checkApplicationFinish` (lines 966-1043), `output_ete_delay` (lines
  1323-1337), `PrintAppDelay` (lines 1136-1201), `PrintTaskWaitingInfo` (lines
  1203-1320) and `wakeup` (lines 893-959);
* `constructArchitecture` (lines 1045-1123) and `getNodeIdbyCoreId` (lines
  1126-1133);
* `loadTraffic` (lines 657-891).

C++ `int` values are modelled by `Int`.  In `get_ratio_token` and `vc_choice`
every intermediate value (a gcd of the inputs, a quotient of an input, a
comparison result plus two) lies between 0 and the largest input, so no 32-bit
wrap-around can occur there; the subtraction of `output_ete_delay` and the sums
of `PrintAppDelay` and `PrintTaskWaitingInfo` wrap explicitly (`wrap32`).  A run that leaves defined
behaviour (indexing outside an array, dividing by zero, writing past an
allocated block) yields `none` or the status `undefined`; `fatal` and a failed `assert` end the run.  Files are the
lists of their tokens.  Classes and functions that live outside this file
(`GraphTask`, `GraphEdge`, the network interface, the event kernel) are
modelled from the spec, under doc comments that say so, or are parameters.
-/

namespace GarnetNetwork

/-! ## Definitions -/

/-- Modelled from the spec: the helper `gcd` that `get_ratio_token` calls at
line 617 is not defined in GarnetNetwork.cc (it is supplied by a header).  The
spec says the scheduler computes "g = gcd across all iteration counts", so the
helper is the greatest common divisor of the two integers, a non-negative
`int`. -/
def gcd (a b : Int) : Int := (Int.gcd a b : Int)

/-- The call `sort(ratiolist.begin(), ratiolist.end())` of line 615: the
ascending rearrangement of the vector. -/
def sort (ratiolist : List Int) : List Int :=
  ratiolist.insertionSort (fun a b => a ≤ b)

/-- Lines 613-618: `gcd_of_all` is seeded with `ratiolist[0]` (read before the
sort, so it is `iterations[0]`) and then folded with `gcd` over the sorted
copy, from index 0 to the end. -/
def gcd_of_all (first : Int) (ratiolist : List Int) : Int :=
  (sort ratiolist).foldl gcd first

/-- The function `GarnetNetwork::get_ratio_token(int *iterations)`, lines 605-623.
The array `iterations` holds `m_num_application` entries and is the list
argument.  The first loop copies it into `ratiolist`; reading `ratiolist[0]`
of an empty vector is undefined (`none`); the last loop overwrites every entry
with `iterations[i]/gcd_of_all`, the truncating division of C++, which is
undefined when the divisor is zero (`none`). -/
def get_ratio_token (iterations : List Int) : Option (List Int) :=
  let ratiolist := iterations
  match ratiolist with
  | [] => none
  | first :: _ =>
    let g := gcd_of_all first ratiolist
    if g = 0 then none
    else some (iterations.map (fun x => Int.tdiv x g))

/-- The value of the C++ expression `(dst_node_id >= src_node_id)` converted
to `int`: 1 when the comparison holds and 0 when it does not. -/
def geInt (dst_node_id src_node_id : Int) : Int :=
  if dst_node_id ≥ src_node_id then 1 else 0

/-- The loop of lines 805-812 over `vc_allocation_object_position`: at the
first index whose entry equals the source or the destination node the class
is set to `(dst_node_id >= src_node_id)` and the loop is left (`some`);
when no entry matches `is_for_object` stays false (`none`). -/
def scan_object_position (src_node_id dst_node_id : Int) : List Int → Option Int
  | [] => none
  | p :: rest =>
    if src_node_id = p ∨ dst_node_id = p then some (geInt dst_node_id src_node_id)
    else scan_object_position src_node_id dst_node_id rest

/-- The computation of `vc_choice` in `GarnetNetwork::loadTraffic`, lines 800-823,
as a function of the configuration (`m_vc_allocation_object`,
`m_vcs_for_allocation`), the object-hosting node list
(`vc_allocation_object_position`) and the two node ids of the edge.  The
`fatal` call of line 818 ends the process: `none`. -/
def vc_choice (m_vc_allocation_object : String) (m_vcs_for_allocation : Int)
    (vc_allocation_object_position : List Int)
    (src_node_id dst_node_id : Int) : Option Int :=
  if m_vc_allocation_object ≠ " " ∧ m_vcs_for_allocation > 0 then
    match scan_object_position src_node_id dst_node_id vc_allocation_object_position with
    | some c => some c
    | none => some (geInt dst_node_id src_node_id + 2)
  else if m_vc_allocation_object = " " ∧ m_vcs_for_allocation > 0 then
    none
  else
    some (geInt dst_node_id src_node_id)

/-! ### Completion tracker and reporter -/

/-- The value an `int` holds after a C++ subtraction or addition whose exact
result is `x`: the two's-complement wrap into 32 bits. -/
def wrap32 (x : Int) : Int := (x + 2147483648) % 4294967296 - 2147483648

/-- The constant `INT_MAX` of `<climits>`, 32-bit `int`. -/
def INT_MAX : Int := 2147483647

/-- The constant `INT_MIN` of `<climits>`, 32-bit `int`. -/
def INT_MIN : Int := -2147483648

/-- One line of `application_delay_running_info.log` (lines 1328-1329): the
tab-separated fields application name, iteration, start time, end time and
execution delay, closed by `endl`. -/
structure DelayLine where
  application : String
  iteration : Nat
  start_time : Int
  end_time : Int
  execution_delay : Int
deriving DecidableEq

/-- The five totals that `output_ete_delay` reads from the statistics of the
fabric (lines 1331-1332).  They are only copied into the log line. -/
structure StatTotals where
  m_avg_flit_latency : Rat
  m_avg_flit_network_latency : Rat
  m_avg_flit_queueing_latency : Rat
  m_flits_received : Rat
  m_avg_hops : Rat
deriving DecidableEq

/-- One line of `network_performance.log` (lines 1331-1332). -/
structure PerfLine where
  application : String
  iteration : Nat
  totals : StatTotals
deriving DecidableEq

/-- The members of `GarnetNetwork` that the completion tracker reads and
writes.  A C++ array or vector is the list of its entries; the arrays
`m_application_name`, `m_applicaton_execution_iterations` and
`current_execution_iterations` are allocated with `m_num_application` entries
(lines 638-639, 200), the three timing vectors are resized to
`m_num_application` rows (lines 233-240).  The two log streams are the lists
of the lines written so far. -/
structure Tracker where
  m_num_application : Nat
  m_application_name : List String
  m_applicaton_execution_iterations : List Int
  current_execution_iterations : List Int
  task_start_time : List (List Int)
  task_end_time : List (List Int)
  ETE_delay : List (List Int)
  app_delay_running_info : List DelayLine
  network_performance_info : List PerfLine
  stats : StatTotals
deriving DecidableEq

/-- The loop of lines 1035-1041, from index `i` with `fuel` indices left
(`fuel = m_num_application - i`): `continue` on equal entries, `return false`
on the first unequal pair, `return true` after the last index.  Reading an
entry outside an array is undefined (`none`). -/
def checkApplicationFinish_loop (s : Tracker) : Nat → Nat → Option Bool
  | 0, _ => some true
  | fuel + 1, i =>
    match s.current_execution_iterations[i]?, s.m_applicaton_execution_iterations[i]? with
    | some c, some r =>
      if c = r then checkApplicationFinish_loop s fuel (i + 1) else some false
    | _, _ => none

/-- The function `GarnetNetwork::checkApplicationFinish()`, lines 966-1043
(everything before line 1035 is commented out).  It returns the verdict
together with the state it leaves, which is the state it was given: the body
holds no assignment. -/
def checkApplicationFinish (s : Tracker) : Option (Bool × Tracker) :=
  match checkApplicationFinish_loop s s.m_num_application 0 with
  | some b => some (b, s)
  | none => none

/-- Entry `a[i][j]` of a vector of vectors; `none` outside the vectors. -/
def get2 (a : List (List Int)) (i j : Nat) : Option Int :=
  match a[i]? with
  | some row => row[j]?
  | none => none

/-- The assignment `a[i][j] = v` to a vector of vectors; `none` (undefined
behaviour) outside the vectors. -/
def set2 (a : List (List Int)) (i j : Nat) (v : Int) : Option (List (List Int)) :=
  match a[i]? with
  | some row => if j < row.length then some (a.set i (row.set j v)) else none
  | none => none

/-- The function `GarnetNetwork::output_ete_delay(int app_idx, int ex_iters)`,
lines 1323-1337.  Line 1326 stores the `int` difference of the end and start
time; lines 1328-1329 and 1331-1332 each write one line closed by `endl`.  The
indices are non-negative; an index outside an array is undefined (`none`).
The function holds no check and no `fatal` or `assert`. -/
def output_ete_delay (s : Tracker) (app_idx ex_iters : Nat) : Option Tracker :=
  match get2 s.task_end_time app_idx ex_iters, get2 s.task_start_time app_idx ex_iters with
  | some e, some b =>
    match set2 s.ETE_delay app_idx ex_iters (wrap32 (e - b)),
        s.m_application_name[app_idx]? with
    | some ete, some name =>
      some { s with
        ETE_delay := ete
        app_delay_running_info :=
          s.app_delay_running_info ++ [⟨name, ex_iters, b, e, wrap32 (e - b)⟩]
        network_performance_info :=
          s.network_performance_info ++ [⟨name, ex_iters, s.stats⟩] }
    | _, _ => none
  | _, _ => none

/-- A tracker for three applications with required iteration counts
`[2, 2, 2]` and the given completed counts; nothing else is filled in. -/
def tracker_222 (completed : List Int) : Tracker :=
  { m_num_application := 3
    m_application_name := ["a", "b", "c"]
    m_applicaton_execution_iterations := [2, 2, 2]
    current_execution_iterations := completed
    task_start_time := [[0, 0], [0, 0], [0, 0]]
    task_end_time := [[0, 0], [0, 0], [0, 0]]
    ETE_delay := [[0, 0], [0, 0], [0, 0]]
    app_delay_running_info := []
    network_performance_info := []
    stats := ⟨0, 0, 0, 0, 0⟩ }

/-- A tracker for one application of four iterations whose iteration 3 has
start time `b` and end time `e`; the other iterations still hold the
sentinels of lines 244-245. -/
def tracker_iter3 (b e : Int) : Tracker :=
  { m_num_application := 1
    m_application_name := ["app0"]
    m_applicaton_execution_iterations := [4]
    current_execution_iterations := [3]
    task_start_time := [[INT_MAX, INT_MAX, INT_MAX, b]]
    task_end_time := [[INT_MIN, INT_MIN, INT_MIN, e]]
    ETE_delay := [[0, 0, 0, 0]]
    app_delay_running_info := []
    network_performance_info := []
    stats := ⟨0, 0, 0, 0, 0⟩ }

/-! ### Final reports and the tick controller -/

/-- The loop `for (int i = 0; i < n; i++) acc = body(i, acc)` started at index
`i` with `fuel` iterations left; a body that leaves defined behaviour ends the
run (`none`). -/
def for_loop {σ : Type} (body : Nat → σ → Option σ) : Nat → Nat → σ → Option σ
  | 0, _, acc => some acc
  | fuel + 1, i, acc =>
    match body i acc with
    | some acc' => for_loop body fuel (i + 1) acc'
    | none => none

/-- One line `Iteration .. Application Start time .. End time .. Delay` that
`PrintAppDelay` prints (lines 1193-1199). -/
structure IterationRow where
  iteration : Nat
  start_time : Int
  end_time : Int
  delay : Int
deriving DecidableEq

/-- What `PrintAppDelay` prints for one application (lines 1189-1199). -/
structure AppDelayReport where
  application : String
  iterations : Int
  Average_ETE_delay : Int
  rows : List IterationRow
deriving DecidableEq

/-- The body of the outer loop of `GarnetNetwork::PrintAppDelay`, lines
1139-1199, for one `app_idx`: the `int` sum of the recorded delays (line
1185), its truncating division by the required iteration count (line 1187,
undefined for a zero count), and the printed rows. -/
def PrintAppDelay_app (s : Tracker) (app_idx : Nat) : Option AppDelayReport :=
  match s.m_applicaton_execution_iterations[app_idx]?, s.m_application_name[app_idx]? with
  | some iters, some name =>
    match for_loop (fun i acc =>
        match get2 s.ETE_delay app_idx i with
        | some d => some (wrap32 (acc + d))
        | none => none) iters.toNat 0 0 with
    | some total =>
      if iters = 0 then none
      else
        match for_loop (fun i (rows : List IterationRow) =>
            match get2 s.task_start_time app_idx i, get2 s.task_end_time app_idx i,
              get2 s.ETE_delay app_idx i with
            | some b, some e, some d => some (rows ++ [⟨i, b, e, d⟩])
            | _, _, _ => none) iters.toNat 0 [] with
        | some rows => some ⟨name, iters, Int.tdiv total iters, rows⟩
        | none => none
    | none => none
  | _, _ => none

/-- The function `GarnetNetwork::PrintAppDelay()`, lines 1136-1201: the
reports of all applications in index order.  It writes to the standard output
only. -/
def PrintAppDelay (s : Tracker) : Option (List AppDelayReport) :=
  for_loop (fun app_idx reports =>
    match PrintAppDelay_app s app_idx with
    | some r => some (reports ++ [r])
    | none => none) s.m_num_application 0 []

/-- What one call of `wakeup` does to the outside, in program order.  The
type `ω` is that of the report `PrintTaskWaitingInfo` writes. -/
inductive Action (ω : Type) where
  | throughput_sample (cycle : Nat) (iterations0 : Int)
  | scheduleEvent (cycles : Nat)
  | PrintAppDelay (report : List AppDelayReport)
  | PrintTaskWaitingInfo (report : ω)
  | close (sink : String)
  | exitSimLoop (message : String)

/-- True on the `scheduleEvent` actions. -/
def Action.isSchedule {ω : Type} : Action ω → Bool
  | Action.scheduleEvent _ => true
  | _ => false

/-- True on the `exitSimLoop` actions. -/
def Action.isExit {ω : Type} : Action ω → Bool
  | Action.exitSimLoop _ => true
  | _ => false

/-- True on the two final reports. -/
def Action.isReport {ω : Type} : Action ω → Bool
  | Action.PrintAppDelay _ => true
  | Action.PrintTaskWaitingInfo _ => true
  | _ => false

/-- Lines 897-900: every 10000 cycles one line goes to `throughput.log`, with
the cycle and `current_execution_iterations[0]` (the third field is a `double`
quotient and is not kept). -/
def throughput_sample {ω : Type} (curCycle : Nat) (s : Tracker) :
    Option (List (Action ω)) :=
  if curCycle % 10000 = 0 then
    match s.current_execution_iterations[0]? with
    | some c => some [Action.throughput_sample curCycle c]
    | none => none
  else some []

/-- Lines 945-956: the seven `simout.close` calls and the exit signal. -/
def closing_actions {ω : Type} : List (Action ω) :=
  [Action.close "task_start_time_vs_id", Action.close "task_start_end_time_vs_id",
   Action.close "task_start_time_vs_id_iters", Action.close "throughput_info",
   Action.close "app_delay_running_info", Action.close "network_performance_info",
   Action.close "task_waiting_time_info",
   Action.exitSimLoop "Network Task Graph Simulation Complete."]

/-- The function `GarnetNetwork::wakeup()`, lines 893-959, at cycle
`curCycle`, as the list of its actions.  `enabled` is `isTaskGraphEnabled()`.
`PrintTaskWaitingInfo` reads the task lists of the network interfaces, which
are not part of this file: its outcome in the current state is the argument
`waiting` (`none` when it leaves defined behaviour). -/
def wakeup {ω : Type} (enabled : Bool) (curCycle : Nat) (s : Tracker)
    (waiting : Option ω) : Option (List (Action ω)) :=
  if enabled then
    match throughput_sample curCycle s with
    | none => none
    | some sample =>
      match checkApplicationFinish s with
      | none => none
      | some (false, _) => some (sample ++ [Action.scheduleEvent 1])
      | some (true, s1) =>
        match PrintAppDelay s1, waiting with
        | some r, some w =>
          some (sample ++ [Action.PrintAppDelay r, Action.PrintTaskWaitingInfo w]
            ++ closing_actions)
        | _, _ => none
  else some []

/-- The state of the tick controller: the cycle of the armed wakeup event, if
one is armed, and the number of exit signals given so far. -/
structure Controller where
  armed : Option Nat
  exit_signals : Nat
deriving DecidableEq

/-- Modelled from the spec: the discrete-event kernel is not part of this
file.  Section 5 of the spec says it "invokes exactly one registered callback
at a time at a specific virtual-time tick"; a `scheduleEvent(Cycles(d))` made
at cycle `t` arms the callback for cycle `t + d`, and `exitSimLoop` signals
the end of the run. -/
def apply_action {ω : Type} (t : Nat) (c : Controller) : Action ω → Controller
  | Action.scheduleEvent d => { c with armed := some (t + d) }
  | Action.exitSimLoop _ => { c with exit_signals := c.exit_signals + 1 }
  | _ => c

/-- Modelled from the spec: one step of the kernel on the controller.  With no
tick armed nothing is invoked; an armed tick is consumed and `wakeup` runs at
its cycle, in the tracker state the execution engine has left. -/
def tick {ω : Type} (enabled : Bool) (s : Tracker) (waiting : Option ω)
    (c : Controller) : Option Controller :=
  match c.armed with
  | none => some c
  | some t =>
    match wakeup enabled t s waiting with
    | some actions => some (actions.foldl (apply_action t) { c with armed := none })
    | none => none

/-- The shape `init` gives the tracker (lines 200-246: every array has
`m_num_application` entries, row `i` of the three timing arrays has
`m_applicaton_execution_iterations[i]` entries) together with the two
conditions the loader enforces: at least one application (line 613 reads
`ratiolist[0]`) and positive required counts (line 697). -/
def Tracker.shaped (s : Tracker) : Prop :=
  0 < s.m_num_application ∧
  s.m_application_name.length = s.m_num_application ∧
  s.m_applicaton_execution_iterations.length = s.m_num_application ∧
  s.current_execution_iterations.length = s.m_num_application ∧
  ∀ app : Nat, app < s.m_num_application →
    0 < s.m_applicaton_execution_iterations.getD app 0 ∧
    (s.task_start_time.getD app []).length
      = (s.m_applicaton_execution_iterations.getD app 0).toNat ∧
    (s.task_end_time.getD app []).length
      = (s.m_applicaton_execution_iterations.getD app 0).toNat ∧
    (s.ETE_delay.getD app []).length
      = (s.m_applicaton_execution_iterations.getD app 0).toNat

instance (s : Tracker) : Decidable s.shaped := by
  unfold Tracker.shaped
  infer_instance

/-! ### Architecture descriptor and the core-id map -/

/-- The member `m_core_id_node_id`, a `std::map<int, int>`: the list of its
(core id, node id) entries, with distinct keys.  The entries are kept in
insertion order; the key order of the C++ container only shows when the map is
printed. -/
abbrev CoreMap := List (Int × Int)

/-- The call `m.find(k)`: the value bound to `k`, `none` for `m.end()`. -/
def map_find : CoreMap → Int → Option Int
  | [], _ => none
  | (k', v) :: rest, k => if k' = k then some v else map_find rest k

/-- The call `m.insert(make_pair(k, v))`: a key already present keeps its
value and the map is unchanged. -/
def map_insert (m : CoreMap) (k v : Int) : CoreMap :=
  match map_find m k with
  | some _ => m
  | none => m ++ [(k, v)]

/-- The expression `m[k]`: the value bound to `k`; an absent key is first
inserted with the value 0. -/
def map_index (m : CoreMap) (k : Int) : Int × CoreMap :=
  match map_find m k with
  | some v => (v, m)
  | none => (0, m ++ [(k, 0)])

/-- The function `GarnetNetwork::getNodeIdbyCoreId(int core_id)`, lines
1126-1133: the returned node id (`none` for the `fatal` of line 1130) and the
map the call leaves. -/
def getNodeIdbyCoreId (m : CoreMap) (core_id : Int) : Option Int × CoreMap :=
  match map_find m core_id with
  | none => (none, m)
  | some _ =>
    let r := map_index m core_id
    (some r.1, r.2)

/-- The test `name.find(pattern) != string::npos`: `pattern` occurs in `name`
as a run of consecutive characters. -/
def contains (name pattern : String) : Bool :=
  decide (pattern.data <:+: name.data)

/-- One core triple of the architecture file: id, name, thread count. -/
structure Core where
  core_id : Int
  core_name : String
  core_thread : Int
deriving DecidableEq

/-- One node record of the architecture file: `node_id`, and the core triples
that follow the count `num_cores_in_node`, which is the length of `cores`. -/
structure NodeDesc where
  node_id : Int
  cores : List Core
deriving DecidableEq

/-- The tokens of the architecture file: the declared node count and the node
records.  The loop of line 1065 reads the first `num_nodes` records. -/
structure ArchFile where
  num_nodes : Int
  nodes : List NodeDesc
deriving DecidableEq

/-- The members `constructArchitecture` writes.  `configured` lists the nodes
handed to `configureNode` so far, in call order. -/
structure Arch where
  m_core_id_node_id : CoreMap
  vc_allocation_object_position : List Int
  entrance_NI : Int
  entrance_core : Int
  entrance_idx_in_NI : Int
  m_num_core : Int
  configured : List NodeDesc
deriving DecidableEq

/-- How a loader routine ends: `ok` is `return true`, `returned_false` is
`return false`, `fatal` is a call of `fatal`, `assert_failed` is a failed
`assert` (both end the process), `undefined` is a step outside defined
behaviour. -/
inductive Status where
  | ok
  | returned_false
  | fatal
  | assert_failed
  | undefined
deriving DecidableEq

/-- The test of the `assert` of line 1058, `num_nodes==m_nodes/2`, with the
truncating `int` division of C++. -/
def node_count_check (num_nodes m_nodes : Int) : Bool :=
  decide (num_nodes = Int.tdiv m_nodes 2)

/-- Lines 1071 and 1074: `new char` is a block of one `char`, and
`fscanf(fp, "%s", _core_name)` stores the bytes of the name token and a
terminating NUL into it.  `name_block` is the number of bytes the program can
write at that address: 1 by the language, more when the allocator rounds the
request up to its smallest block.  The test says whether the token and its NUL
fit; a token that does not fit is written past the block. -/
def name_fits (name_block : Nat) (name : String) : Bool :=
  decide (name.utf8ByteSize + 1 ≤ name_block)

/-- The body of the inner loop, lines 1070-1098, for core `j` of the node:
the name is read into its block first (line 1074), and a write past the block
is undefined (`none`); then the object position, the entrance and the map are
updated. -/
def construct_core (m_vc_allocation_object : String) (name_block : Nat) (node_id : Int)
    (s : Arch) (j : Nat) (c : Core) : Option Arch :=
  if name_fits name_block c.core_name = true then
    let s1 :=
      if m_vc_allocation_object ≠ " " ∧
          contains c.core_name m_vc_allocation_object = true then
        { s with vc_allocation_object_position := s.vc_allocation_object_position ++ [node_id] }
      else s
    let s2 :=
      if contains c.core_name "PE-7" = true then
        { s1 with entrance_NI := node_id, entrance_core := c.core_id, entrance_idx_in_NI := j }
      else s1
    some { s2 with m_core_id_node_id := map_insert s2.m_core_id_node_id c.core_id node_id }
  else none

/-- The inner loop of lines 1070-1098 over the cores of one node, from index
`j`; it stops, with the status `undefined`, at the first name written past its
block. -/
def construct_cores (m_vc_allocation_object : String) (name_block : Nat) (node_id : Int) :
    Arch → Nat → List Core → Except (Arch × Status) Arch
  | s, _, [] => Except.ok s
  | s, j, c :: rest =>
    match construct_core m_vc_allocation_object name_block node_id s j c with
    | some s1 => construct_cores m_vc_allocation_object name_block node_id s1 (j + 1) rest
    | none => Except.error (s, Status.undefined)

/-- The outer loop of lines 1065-1107 with its accumulator `sum_cores`.  The
call `m_nis[node_id]->configureNode(..)` belongs to the network interface,
which is not part of this file: `configureNode` gives its result for a node
(`none` when the call is undefined, as for a `node_id` outside `m_nis`).  A
result `false` makes the function return false (line 1102). -/
def construct_nodes (m_vc_allocation_object : String) (name_block : Nat)
    (configureNode : NodeDesc → Option Bool) :
    Arch → Int → List NodeDesc → Except (Arch × Status) (Arch × Int)
  | s, sum_cores, [] => Except.ok (s, sum_cores)
  | s, sum_cores, nd :: rest =>
    match construct_cores m_vc_allocation_object name_block nd.node_id s 0 nd.cores with
    | Except.error e => Except.error e
    | Except.ok s1 =>
      match configureNode nd with
      | some true =>
        construct_nodes m_vc_allocation_object name_block configureNode
          { s1 with configured := s1.configured ++ [nd] }
          (sum_cores + nd.cores.length) rest
      | some false => Except.error (s1, Status.returned_false)
      | none => Except.error (s1, Status.undefined)

/-- The function `GarnetNetwork::constructArchitecture`, lines 1045-1123, on
the tokens of the architecture file (`none` when the file cannot be opened):
the state at the end of the run, or at the point where it stopped, and how it
ended.  `name_block` is the size in bytes of the block each core name is read
into (see `name_fits`).  Asserts are compiled in. -/
def constructArchitecture (m_nodes : Int) (m_vc_allocation_object : String)
    (name_block : Nat) (configureNode : NodeDesc → Option Bool) (file : Option ArchFile)
    (s : Arch) : Arch × Status :=
  match file with
  | none => (s, Status.fatal)
  | some f =>
    if node_count_check f.num_nodes m_nodes = true then
      match construct_nodes m_vc_allocation_object name_block configureNode s 0
          (f.nodes.take f.num_nodes.toNat) with
      | Except.error e => e
      | Except.ok (s1, sum_cores) =>
        if (s1.m_core_id_node_id.length : Int) = sum_cores then
          ({ s1 with m_num_core := sum_cores }, Status.ok)
        else (s1, Status.assert_failed)
    else (s, Status.assert_failed)

/-- The members before `constructArchitecture` runs: an empty map and an empty
position list (the scalar members are not yet assigned; they are shown as 0). -/
def Arch.initial : Arch :=
  { m_core_id_node_id := []
    vc_allocation_object_position := []
    entrance_NI := 0
    entrance_core := 0
    entrance_idx_in_NI := 0
    m_num_core := 0
    configured := [] }

/-- An architecture file that declares `declared` nodes and holds `n` node
records: node `i` has the two cores `2 i`, named "PE", and `2 i + 1`, named
"GPU". -/
def arch_file_example (declared : Int) (n : Nat) : ArchFile :=
  { num_nodes := declared
    nodes := (List.range n).map (fun i =>
      ⟨(i : Int), [⟨2 * (i : Int), "PE", 1⟩, ⟨2 * (i : Int) + 1, "GPU", 1⟩]⟩) }

/-- One task line of a trace file (lines 709-713): task id, mapped core id,
schedule order, and the two parameters of the execution time. -/
structure TaskRecord (F : Type) where
  id : Int
  proc_id : Int
  schedule : Int
  mu : F
  sigma : F
deriving DecidableEq

/-- One edge line of a trace file (lines 743-757), in field order. -/
structure EdgeRecord (F : Type) where
  id : Int
  src_task_id : Int
  dst_task_id : Int
  src_proc_id : Int
  dst_proc_id : Int
  out_memory_start_address : Int
  out_memory_size : Int
  in_memory_start_address : Int
  in_memory_size : Int
  mu : F
  sigma : F
  lambda : F
deriving DecidableEq

/-- The tokens of one trace file after its 15 header lines: the four header
numbers, the head-task count with the head-task ids, the task lines and the
edge lines.  The loops read the first `m_num_head_task`, `m_num_task` and
`m_num_edge` entries of the three lists. -/
structure Trace (F : Type) where
  trace_type : Int
  m_num_proc : Int
  m_num_task : Int
  m_num_edge : Int
  m_num_head_task : Int
  head_task_ids : List Int
  tasks : List (TaskRecord F)
  edges : List (EdgeRecord F)
deriving DecidableEq

/-- Modelled from the spec: the class `GraphEdge` is declared outside this
file.  Its fields are those section 3 of the spec lists and the setters of
lines 761-785 and 823 assign: a memory window is the pair (address, size);
`vc_choice` is `none` until `set_vc_choice` is called. -/
structure GraphEdge (F : Type) where
  id : Int
  src_task_id : Int
  dst_task_id : Int
  src_proc_id : Int
  dst_proc_id : Int
  out_memory : Int × Int
  in_memory : Int × Int
  token_size_mu : F
  token_size_sigma : F
  max_token_size : F
  pkt_interval : F
  app_idx : Nat
  vc_choice : Option Int
deriving DecidableEq

/-- Modelled from the spec: the class `GraphTask` is declared outside this
file.  Its fields are those section 3 of the spec lists and the setters of
lines 717-726 assign, with the two ordered edge collections. -/
structure GraphTask (F : Type) where
  id : Int
  proc_id : Int
  schedule : Int
  execution_time_mu : F
  execution_time_sigma : F
  max_time : F
  required_times : Int
  app_idx : Nat
  outgoing_edges : List (GraphEdge F)
  incoming_edges : List (GraphEdge F)
deriving DecidableEq

/-- A task on the task list of a network interface: the interface (node) id
and the task, whose `proc_id` and `app_idx` name the per-core,
per-application list it is on. -/
structure Placed (F : Type) where
  node_id : Int
  task : GraphTask F
deriving DecidableEq

/-- The members `loadTraffic` reads and does not write. -/
structure LoadConfig where
  m_nodes : Int
  m_num_application : Nat
  m_applicaton_execution_iterations : List Int
  m_core_id_node_id : CoreMap
  m_out_mem_size : Int
  m_in_mem_size : Int
  m_vc_allocation_object : String
  m_vcs_for_allocation : Int
  vc_allocation_object_position : List Int
  configured : List NodeDesc
deriving DecidableEq

/-- The members `loadTraffic` writes: the three count arrays, `m_num_proc`,
the head-task vectors (sized by `init`, line 222) and the task lists of the
network interfaces, all lists in one, in insertion order. -/
structure Loader (F : Type) where
  m_num_proc : Int
  m_num_task : List Int
  m_num_edge : List Int
  m_num_head_task : List Int
  head_task : List (List Int)
  tasks : List (Placed F)
deriving DecidableEq

/-- Lines 716-727: the task built from a task line of application `k`. -/
def build_task {F : Type} [Add F] [Mul F] [OfNat F 2]
    (m_applicaton_execution_iterations_k : Int) (k : Nat) (r : TaskRecord F) :
    GraphTask F :=
  { id := r.id
    proc_id := r.proc_id
    schedule := r.schedule
    execution_time_mu := r.mu
    execution_time_sigma := r.sigma
    max_time := r.mu + 2 * r.sigma
    required_times := m_applicaton_execution_iterations_k
    app_idx := k
    outgoing_edges := []
    incoming_edges := [] }

/-- Lines 760-785: the edge built from an edge line of application `k`.  The
fields `v[6]` and `v[8]` of the line (the declared sizes) are read and not
used: `set_out_memory(v[5],m_out_mem_size)`, `set_in_memory(v[7],m_in_mem_size)`. -/
def build_edge {F : Type} [Add F] [Mul F] [OfNat F 2]
    (m_out_mem_size m_in_mem_size : Int) (k : Nat) (r : EdgeRecord F) : GraphEdge F :=
  { id := r.id
    src_task_id := r.src_task_id
    dst_task_id := r.dst_task_id
    src_proc_id := r.src_proc_id
    dst_proc_id := r.dst_proc_id
    out_memory := (r.out_memory_start_address, m_out_mem_size)
    in_memory := (r.in_memory_start_address, m_in_mem_size)
    token_size_mu := r.mu
    token_size_sigma := r.sigma
    max_token_size := r.mu + 2 * r.sigma
    pkt_interval := r.lambda
    app_idx := k
    vc_choice := none }

/-- Modelled from the spec: `NetworkInterface::get_task_by_task_id` is not
part of this file.  The spec resolves a task "by (core id, application index,
task id) lookup (fatal if not found)": the position of the first task of the
interface `node_id` with that core, application and id. -/
def find_task {F : Type} (node_id core_id : Int) (k : Nat) (task_id : Int) :
    List (Placed F) → Option Nat
  | [] => none
  | p :: rest =>
    if p.node_id = node_id ∧ p.task.proc_id = core_id ∧ p.task.app_idx = k ∧
        p.task.id = task_id then some 0
    else
      match find_task node_id core_id k task_id rest with
      | some i => some (i + 1)
      | none => none

/-- The update of the task at position `i` through a reference to it. -/
def modify_task {F : Type} (f : GraphTask F → GraphTask F) :
    Nat → List (Placed F) → List (Placed F)
  | _, [] => []
  | 0, p :: rest => { p with task := f p.task } :: rest
  | i + 1, p :: rest => p :: modify_task f i rest

/-- Modelled from the spec: `NetworkInterface::sort_task_list` is not part of
this file.  The spec says the "per-core task lists are sorted by schedule
order"; on the joint list this is a stable sort by schedule, which sorts every
per-core, per-application list and keeps the lists apart.  (Line 826 sorts the
lists of the first `m_nodes/2` interfaces, the ones that bear tasks.) -/
def sort_task_list {F : Type} (tasks : List (Placed F)) : List (Placed F) :=
  tasks.insertionSort (fun a b => a.task.schedule ≤ b.task.schedule)

/-- The first assert of line 692, `0==trace_type`. -/
def trace_type_check {F : Type} (tr : Trace F) : Bool :=
  decide (tr.trace_type = 0)

/-- The assert of lines 697-698, evaluated left to right as `&&` does: the
three counts just read, then the required iteration count of the application,
which is read from its array only when the three counts are positive (`none`
when that read is outside the array). -/
def counts_check (m_num_task_k m_num_edge_k m_num_proc : Int)
    (iterations_k : Option Int) : Option Bool :=
  if m_num_task_k > 0 ∧ m_num_edge_k > 0 ∧ m_num_proc > 0 then
    match iterations_k with
    | some n => some (decide (n > 0))
    | none => none
  else some false

/-- Lines 708-738, one pass of the task loop: build the task, resolve its node
(`fatal` on an unknown core) and add it to the lists of that interface. -/
def load_task {F : Type} [Add F] [Mul F] [OfNat F 2] (cfg : LoadConfig)
    (iterations_k : Int) (k : Nat) (s : Loader F) (r : TaskRecord F) :
    Except (Loader F × Status) (Loader F) :=
  match (getNodeIdbyCoreId cfg.m_core_id_node_id r.proc_id).1 with
  | none => Except.error (s, Status.fatal)
  | some current_node_id =>
    Except.ok { s with tasks := s.tasks ++ [⟨current_node_id, build_task iterations_k k r⟩] }

/-- Lines 741-824, one pass of the edge loop: build the edge, resolve the
source and the destination task (`fatal` on an unknown core or task), add a
copy of the edge to the outgoing edges of the one and the incoming edges of
the other, then compute `vc_choice` (`fatal` on the misconfiguration of line
818) and set it on the local edge `e`, which the pass then drops. -/
def load_edge {F : Type} [Add F] [Mul F] [OfNat F 2] (cfg : LoadConfig) (k : Nat)
    (s : Loader F) (r : EdgeRecord F) : Except (Loader F × Status) (Loader F) :=
  let e := build_edge cfg.m_out_mem_size cfg.m_in_mem_size k r
  match (getNodeIdbyCoreId cfg.m_core_id_node_id e.src_proc_id).1 with
  | none => Except.error (s, Status.fatal)
  | some src_node_id =>
    match find_task src_node_id e.src_proc_id k e.src_task_id s.tasks with
    | none => Except.error (s, Status.fatal)
    | some src_task =>
      match (getNodeIdbyCoreId cfg.m_core_id_node_id e.dst_proc_id).1 with
      | none => Except.error (s, Status.fatal)
      | some dst_node_id =>
        match find_task dst_node_id e.dst_proc_id k e.dst_task_id s.tasks with
        | none => Except.error (s, Status.fatal)
        | some dst_task =>
          let tasks1 := modify_task
            (fun t => { t with outgoing_edges := t.outgoing_edges ++ [e] }) src_task s.tasks
          let tasks2 := modify_task
            (fun t => { t with incoming_edges := t.incoming_edges ++ [e] }) dst_task tasks1
          let s2 := { s with tasks := tasks2 }
          match vc_choice cfg.m_vc_allocation_object cfg.m_vcs_for_allocation
              cfg.vc_allocation_object_position src_node_id dst_node_id with
          | none => Except.error (s2, Status.fatal)
          | some _ => Except.ok s2

/-- A loop over the lines of a trace: the passes run in order and the first
one that ends the run ends the loop. -/
def load_lines {F R : Type} (step : Loader F → R → Except (Loader F × Status) (Loader F)) :
    Loader F → List R → Except (Loader F × Status) (Loader F)
  | s, [] => Except.ok s
  | s, r :: rest =>
    match step s r with
    | Except.ok s1 => load_lines step s1 rest
    | Except.error e => Except.error e

/-- Lines 700-705: `m_num_head_task[k]` is read and that many head-task ids are
appended to `head_task[k]`, a vector `init` has sized (line 222); appending to
a vector that is not there is undefined (`none`). -/
def load_head_tasks {F : Type} (k : Nat) (tr : Trace F) (s : Loader F) :
    Option (Loader F) :=
  let ids := tr.head_task_ids.take tr.m_num_head_task.toNat
  let s1 := { s with m_num_head_task := s.m_num_head_task.set k tr.m_num_head_task }
  if ids = [] then some s1
  else
    match s.head_task[k]? with
    | some heads => some { s1 with head_task := s.head_task.set k (heads ++ ids) }
    | none => none

/-- Lines 699-830 for application `k`, after the header has passed its two
asserts: the head-task ids are appended to `head_task[k]`, then the task loop,
the edge loop and the sort of the task lists run. -/
def load_body {F : Type} [Add F] [Mul F] [OfNat F 2] (cfg : LoadConfig)
    (iterations_k : Int) (k : Nat) (tr : Trace F) (s : Loader F) :
    Except (Loader F × Status) (Loader F) :=
  match load_head_tasks k tr s with
  | none => Except.error (s, Status.undefined)
  | some s1 =>
    match load_lines (load_task cfg iterations_k k) s1
        (tr.tasks.take tr.m_num_task.toNat) with
    | Except.error e => Except.error e
    | Except.ok s2 =>
      match load_lines (load_edge cfg k) s2 (tr.edges.take tr.m_num_edge.toNat) with
      | Except.error e => Except.error e
      | Except.ok s3 => Except.ok { s3 with tasks := sort_task_list s3.tasks }

/-- Lines 671-830, the body of the loop over the applications for index `k`:
open the trace (`fatal` when it cannot be opened), drop the header lines, read
`trace_type` and assert it is 0, read the three counts into `m_num_proc`,
`m_num_task[k]`, `m_num_edge[k]` and assert that they and the required
iteration count are positive, then run the rest.  Asserts are compiled in.
The loop keeps `k` below `m_num_application`, the length the three count
arrays are allocated with (lines 660-669), so the writes to them are inside
the arrays. -/
def load_application {F : Type} [Add F] [Mul F] [OfNat F 2] (cfg : LoadConfig)
    (k : Nat) (trace : Option (Trace F)) (s : Loader F) :
    Except (Loader F × Status) (Loader F) :=
  match trace with
  | none => Except.error (s, Status.fatal)
  | some tr =>
    if trace_type_check tr = true then
      let s1 := { s with
        m_num_proc := tr.m_num_proc
        m_num_task := s.m_num_task.set k tr.m_num_task
        m_num_edge := s.m_num_edge.set k tr.m_num_edge }
      match counts_check tr.m_num_task tr.m_num_edge tr.m_num_proc
          cfg.m_applicaton_execution_iterations[k]? with
      | none => Except.error (s1, Status.undefined)
      | some true =>
        load_body cfg (cfg.m_applicaton_execution_iterations.getD k 0) k tr s1
      | some false => Except.error (s1, Status.assert_failed)
    else Except.error (s, Status.assert_failed)

/-- The loop of line 669 over the applications, from index `k`; `traces` holds
the trace files of the applications `k`, `k + 1`, ... in order. -/
def load_applications {F : Type} [Add F] [Mul F] [OfNat F 2] (cfg : LoadConfig) :
    Nat → List (Option (Trace F)) → Loader F → Except (Loader F × Status) (Loader F)
  | _, [], s => Except.ok s
  | k, trace :: rest, s =>
    match load_application cfg k trace s with
    | Except.ok s1 => load_applications cfg (k + 1) rest s1
    | Except.error e => Except.error e

/-- Modelled from the spec: `get_num_cores`, `get_core_id_by_index` and
`get_task_list_length` belong to the network interface.  The task-list length
of core `core_id` of interface `node_id` for application `app` is the number
of tasks placed there. -/
def get_task_list_length {F : Type} (tasks : List (Placed F)) (node_id core_id : Int)
    (app : Nat) : Nat :=
  tasks.countP (fun p =>
    decide (p.node_id = node_id ∧ p.task.proc_id = core_id ∧ p.task.app_idx = app))

/-- Lines 833-862: the variable `sum`, the total of the task-list lengths over
the first `m_nodes/2` interfaces, their configured cores and the
applications. -/
def task_list_sum {F : Type} (cfg : LoadConfig) (tasks : List (Placed F)) : Nat :=
  ((List.range (Int.tdiv cfg.m_nodes 2).toNat).map (fun i =>
    ((cfg.configured.filter (fun nd => decide (nd.node_id = (i : Int)))).map (fun nd =>
      (nd.cores.map (fun c =>
        ((List.range cfg.m_num_application).map (fun app =>
          get_task_list_length tasks (i : Int) c.core_id app)).sum)).sum)).sum)).sum

/-- The function `GarnetNetwork::loadTraffic`, lines 657-891, on the trace
files of the `m_num_application` applications: the three count arrays are
allocated anew (lines 660-662), the applications are loaded in order, and the
assert of line 879 compares the total of the task-list lengths with the total
of the declared task counts.  The result is the state at the end of the run,
or where it stopped, and how it ended. -/
def loadTraffic {F : Type} [Add F] [Mul F] [OfNat F 2] (cfg : LoadConfig)
    (traces : List (Option (Trace F))) (s : Loader F) : Loader F × Status :=
  let s0 := { s with
    m_num_task := List.replicate cfg.m_num_application 0
    m_num_edge := List.replicate cfg.m_num_application 0
    m_num_head_task := List.replicate cfg.m_num_application 0 }
  match load_applications cfg 0 (traces.take cfg.m_num_application) s0 with
  | Except.error e => e
  | Except.ok s1 =>
    if (task_list_sum cfg s1.tasks : Int) = s1.m_num_task.sum then (s1, Status.ok)
    else (s1, Status.assert_failed)

/-- A configuration for the examples: 4 endpoints, two applications of 3 and
2 iterations, cores 0 and 1 on node 0, cores 2 and 3 on node 1, memory sizes
64 and 32, no object name and no budget. -/
def config_example : LoadConfig :=
  { m_nodes := 4
    m_num_application := 2
    m_applicaton_execution_iterations := [3, 2]
    m_core_id_node_id := [(0, 0), (1, 0), (2, 1), (3, 1)]
    m_out_mem_size := 64
    m_in_mem_size := 32
    m_vc_allocation_object := " "
    m_vcs_for_allocation := 0
    vc_allocation_object_position := []
    configured := (arch_file_example 2 2).nodes }

/-- A trace of two tasks, task 0 on core 0 and task 1 on core 2, and one edge
from the one to the other; its header fields are the arguments. -/
def trace_example (trace_type m_num_proc m_num_task m_num_edge : Int) : Trace Int :=
  { trace_type := trace_type
    m_num_proc := m_num_proc
    m_num_task := m_num_task
    m_num_edge := m_num_edge
    m_num_head_task := 1
    head_task_ids := [0]
    tasks := [⟨0, 0, 0, 10, 1⟩, ⟨1, 2, 1, 20, 2⟩]
    edges := [⟨0, 0, 1, 0, 2, 100, 8, 200, 16, 5, 1, 3⟩] }

/-- The loader state `init` hands to `loadTraffic` for two applications:
`head_task` resized to two empty vectors, no task on any interface. -/
def loader_example : Loader Int :=
  { m_num_proc := 0
    m_num_task := []
    m_num_edge := []
    m_num_head_task := []
    head_task := [[], []]
    tasks := [] }

/-- The loader state after the first of the two example applications has been
loaded from a well-formed trace. -/
def loader_after_first : Loader Int :=
  (loadTraffic config_example [some (trace_example 0 4 2 1)] loader_example).1

/-- The trace files of the two example applications, both well formed. -/
def traces_example : List (Option (Trace Int)) :=
  [some (trace_example 0 4 2 1), some (trace_example 0 4 2 1)]

/-- The loader state after `loadTraffic` has run once on the example. -/
def loader_after_run : Loader Int :=
  (loadTraffic config_example traces_example loader_example).1

/-- What `get_task_by_task_id` looks a task up by: interface, core,
application and task id. -/
def task_key {F : Type} (p : Placed F) : Int × Int × Nat × Int :=
  (p.node_id, p.task.proc_id, p.task.app_idx, p.task.id)

/-- The head-task ids that `loadTraffic` reads from the trace of application
`j`: the first `m_num_head_task` ids of the file. -/
def appended_heads {F : Type} (traces : List (Option (Trace F))) (j : Nat) : List Int :=
  match traces[j]? with
  | some (some tr) => tr.head_task_ids.take tr.m_num_head_task.toNat
  | _ => []

/-- The state `a` of a run of the loader and the state `b` of a later run at
the same point of the same files: every task that can be looked up in `a` can
be looked up in `b`, the head-task vectors are as many, and the count arrays
are equal. -/
def rerun_related {F : Type} (a b : Loader F) : Prop :=
  (∀ q, q ∈ a.tasks.map task_key → q ∈ b.tasks.map task_key) ∧
  a.head_task.length = b.head_task.length ∧
  a.m_num_task = b.m_num_task ∧
  a.m_num_edge = b.m_num_edge ∧
  a.m_num_head_task = b.m_num_head_task

/-- The loader state at the start of `loadTraffic`: the three count arrays
allocated anew (lines 660-662). -/
def fresh_counts {F : Type} (cfg : LoadConfig) (s : Loader F) : Loader F :=
  { s with
    m_num_task := List.replicate cfg.m_num_application 0
    m_num_edge := List.replicate cfg.m_num_application 0
    m_num_head_task := List.replicate cfg.m_num_application 0 }

/-- The map after `insert` has been called with every pair of the list, in
order. -/
def insert_all (m : CoreMap) (ps : List (Int × Int)) : CoreMap :=
  ps.foldl (fun acc p => map_insert acc p.1 p.2) m

/-! ### Waiting-time report -/

/-- Modelled from the spec: the task lists of the cores belong to the network
interface, which is not part of this file.  A core of an interface has its id,
its name and, for each application, its task list; for the waiting-time report
a task is its waiting time per iteration, the value `get_task_waiting_time(m)`
returns. -/
structure CoreTasks where
  core_id : Int
  core_name : String
  task_list : Nat → List (Nat → Int)

/-- Modelled from the spec: a network interface as the list of its cores, in
index order. -/
structure NetworkInterface where
  cores : List CoreTasks

/-- Modelled from the spec: `get_num_cores`. -/
def NetworkInterface.get_num_cores (ni : NetworkInterface) : Nat := ni.cores.length

/-- Modelled from the spec: `get_core_id_by_index`; an index outside the cores
is undefined (`none`). -/
def NetworkInterface.get_core_id_by_index (ni : NetworkInterface) (k : Nat) : Option Int :=
  ni.cores[k]?.map (fun c => c.core_id)

/-- Modelled from the spec: `get_core_name_by_index`. -/
def NetworkInterface.get_core_name_by_index (ni : NetworkInterface) (k : Nat) :
    Option String :=
  ni.cores[k]?.map (fun c => c.core_name)

/-- Modelled from the spec: `get_task_list_length(k, app_idx)`, which takes the
INDEX of the core: the length of the task list of that core for the
application. -/
def NetworkInterface.get_task_list_length (ni : NetworkInterface) (k app : Nat) :
    Option Nat :=
  ni.cores[k]?.map (fun c => (c.task_list app).length)

/-- Modelled from the spec: `get_task_by_offset(core_id, app_idx, l)`, which
takes the ID of the core: task `l` of the task list of the first core with that
id; `none` when there is no such core or no such task. -/
def NetworkInterface.get_task_by_offset (ni : NetworkInterface) (core_id : Int)
    (app l : Nat) : Option (Nat → Int) :=
  match ni.cores.find? (fun c => decide (c.core_id = core_id)) with
  | some c => (c.task_list app)[l]?
  | none => none

/-- The members `PrintTaskWaitingInfo` reads. -/
structure WaitingNet where
  m_num_application : Nat
  m_num_core : Int
  m_nodes : Int
  m_applicaton_execution_iterations : List Int
  m_nis : List NetworkInterface

/-- The five arrays of `PrintTaskWaitingInfo` (lines 1206-1222), each as the
function from its index to its cell: `node_waiting_time` and
`core_waiting_time` have `m_num_application` rows, of `m_nodes/2` and
`m_num_core` cells; `core_waiting_name` and `total_core_waiting_time` have
`m_num_core` cells and `total_node_waiting_time` has `m_nodes/2`.  The core
arrays are indexed by a core id, an `int`. -/
structure WaitingReport where
  node_waiting_time : Nat → Nat → Int
  core_waiting_time : Nat → Int → Int
  core_waiting_name : Int → String
  total_node_waiting_time : Nat → Int
  total_core_waiting_time : Int → Int

/-- Lines 1224-1236: every cell is set to 0; the names are default-constructed
strings. -/
def WaitingReport.initial : WaitingReport :=
  { node_waiting_time := fun _ _ => 0
    core_waiting_time := fun _ _ => 0
    core_waiting_name := fun _ => ""
    total_node_waiting_time := fun _ => 0
    total_core_waiting_time := fun _ => 0 }

/-- Lines 1255-1256: the loop over the iterations of the application adds the
waiting time of the task in each of them to the `int` accumulator. -/
def add_waiting_times (iterations : Int) (t : Nat → Int) (acc : Int) : Int :=
  (List.range iterations.toNat).foldl (fun a m => wrap32 (a + t m)) acc

/-- Lines 1252-1257, the pass of the loop over the tasks of a core for task
`l`: the task is fetched by the id of the core, and the iteration count of the
application is read from its array (`none` outside the array). -/
def waiting_task (net : WaitingNet) (ni : NetworkInterface) (core_id : Int) (app l : Nat)
    (acc : Int) : Option Int :=
  match ni.get_task_by_offset core_id app l,
      net.m_applicaton_execution_iterations[app]? with
  | some t, some n => some (add_waiting_times n t acc)
  | _, _ => none

/-- Lines 1250-1257: `core_task_waiting_time` after the loop over the
`task_list_len` tasks of the core. -/
def core_task_waiting_time (net : WaitingNet) (ni : NetworkInterface) (core_id : Int)
    (app task_list_len : Nat) : Option Int :=
  for_loop (waiting_task net ni core_id app) task_list_len 0 0

/-- Lines 1245-1264, the pass of the loop over the cores of interface `ni` for
the core of index `k`; the state is the arrays and the local
`node_task_waiting_time`.  A core id outside `[0, m_num_core)` is a write
outside the core arrays (`none`). -/
def waiting_core (net : WaitingNet) (app : Nat) (ni : NetworkInterface) (k : Nat)
    (st : WaitingReport × Int) : Option (WaitingReport × Int) :=
  match ni.get_task_list_length k app, ni.get_core_id_by_index k,
      ni.get_core_name_by_index k with
  | some task_list_len, some core_id, some core_name =>
    match core_task_waiting_time net ni core_id app task_list_len with
    | none => none
    | some core_task_waiting_time =>
      if 0 ≤ core_id ∧ core_id < net.m_num_core then
        some ({ st.1 with
            core_waiting_time := Function.update st.1.core_waiting_time app
              (Function.update (st.1.core_waiting_time app) core_id core_task_waiting_time)
            core_waiting_name := Function.update st.1.core_waiting_name core_id core_name
            total_core_waiting_time := Function.update st.1.total_core_waiting_time core_id
              (wrap32 (st.1.total_core_waiting_time core_id + core_task_waiting_time)) },
          wrap32 (st.2 + core_task_waiting_time))
      else none
  | _, _, _ => none

/-- Lines 1240-1268, the pass of the loop over the nodes for node `j`: the
loop over the cores of `m_nis[j]` from `node_task_waiting_time = 0`, then the
two writes of lines 1266 and 1268. -/
def waiting_node (net : WaitingNet) (app j : Nat) (r : WaitingReport) :
    Option WaitingReport :=
  match net.m_nis[j]? with
  | none => none
  | some ni =>
    match for_loop (waiting_core net app ni) ni.get_num_cores 0 (r, 0) with
    | none => none
    | some (r1, node_task_waiting_time) =>
      some { r1 with
        node_waiting_time := Function.update r1.node_waiting_time app
          (Function.update (r1.node_waiting_time app) j node_task_waiting_time)
        total_node_waiting_time := Function.update r1.total_node_waiting_time j
          (wrap32 (r1.total_node_waiting_time j + node_task_waiting_time)) }

/-- Lines 1239-1269, the pass of the loop over the applications for
`app_idx`: the loop over the first `m_nodes/2` interfaces. -/
def waiting_app (net : WaitingNet) (app : Nat) (r : WaitingReport) : Option WaitingReport :=
  for_loop (waiting_node net app) (Int.tdiv net.m_nodes 2).toNat 0 r

/-- The function `GarnetNetwork::PrintTaskWaitingInfo`, lines 1203-1320, up to
line 1269: the arrays are allocated (a negative size is an error, `none`) and
set to 0, then filled by the loop over the applications.  The result is the
arrays as lines 1272-1307 write them to the log; those lines and the `delete`
of lines 1309-1318 change no cell. -/
def PrintTaskWaitingInfo (net : WaitingNet) : Option WaitingReport :=
  if net.m_num_core < 0 ∨ Int.tdiv net.m_nodes 2 < 0 then none
  else for_loop (waiting_app net) net.m_num_application 0 WaitingReport.initial

/-- The sum the waiting-time report is specified by: the waiting time of the
tasks of a list over the first `iterations` iterations. -/
def task_waiting_total (iterations : Int) (tasks : List (Nat → Int)) : Int :=
  (tasks.map (fun t => ((List.range iterations.toNat).map t).sum)).sum

/-- The sum the report is specified by for application `app` and core `c`:
the waiting time of the tasks of `app` on `c` over the iterations of `app`. -/
def core_waiting_total (net : WaitingNet) (app : Nat) (c : CoreTasks) : Int :=
  task_waiting_total (net.m_applicaton_execution_iterations.getD app 0) (c.task_list app)

/-- The cores of interface `j`, none when there is no such interface. -/
def cores_of (net : WaitingNet) (j : Nat) : List CoreTasks :=
  match net.m_nis[j]? with
  | some ni => ni.cores
  | none => []

/-- The cores of the first `m_nodes/2` interfaces, in the order the report
visits them. -/
def visited_cores (net : WaitingNet) : List CoreTasks :=
  (List.range (Int.tdiv net.m_nodes 2).toNat).flatMap (cores_of net)

/-- The core ids of the first `m_nodes/2` interfaces, in the order the report
visits them. -/
def core_ids (net : WaitingNet) : List Int :=
  (visited_cores net).map (fun c => c.core_id)

/-- What the passes for the cores `L`, under application `app`, do to the two
core arrays between the reports `r` and `r1`, when `W c` is the waiting time
computed for core `c`: the cell of each core of `L` in row `app` of
`core_waiting_time` holds `W c`, the total of each core of `L` has grown by
`W c`, and every other cell of the two arrays is as before. -/
def cores_effect (app : Nat) (W : CoreTasks → Int) (L : List CoreTasks)
    (r r1 : WaitingReport) : Prop :=
  (∀ c ∈ L, r1.core_waiting_time app c.core_id = W c) ∧
  (∀ (a : Nat) (x : Int), (a ≠ app ∨ ∀ c ∈ L, c.core_id ≠ x) →
    r1.core_waiting_time a x = r.core_waiting_time a x) ∧
  (∀ c ∈ L, r1.total_core_waiting_time c.core_id =
    wrap32 (r.total_core_waiting_time c.core_id + W c)) ∧
  (∀ x : Int, (∀ c ∈ L, c.core_id ≠ x) →
    r1.total_core_waiting_time x = r.total_core_waiting_time x)

/-- What the passes for the nodes below `j`, under application `app`, do to
the two node arrays between the reports `r` and `r1`, when `V i` is the
waiting time computed for node `i`: the cell of each node below `j` in row
`app` of `node_waiting_time` holds `V i`, the total of each node below `j` has
grown by `V i`, and every other cell of the two arrays is as before. -/
def nodes_effect (app : Nat) (V : Nat → Int) (j : Nat) (r r1 : WaitingReport) : Prop :=
  (∀ i : Nat, i < j → r1.node_waiting_time app i = V i) ∧
  (∀ a i : Nat, (a ≠ app ∨ j ≤ i) → r1.node_waiting_time a i = r.node_waiting_time a i) ∧
  (∀ i : Nat, i < j →
    r1.total_node_waiting_time i = wrap32 (r.total_node_waiting_time i + V i)) ∧
  (∀ i : Nat, j ≤ i → r1.total_node_waiting_time i = r.total_node_waiting_time i)

/-- The state of the five arrays after the passes for the applications below
`a`: the cells of the visited cores hold their 32-bit sums, every cell not yet
written holds 0, and the two total arrays hold the 32-bit sums of their
columns. -/
def apps_effect (net : WaitingNet) (a : Nat) (r : WaitingReport) : Prop :=
  (∀ b : Nat, b < a → ∀ c ∈ visited_cores net,
    r.core_waiting_time b c.core_id = wrap32 (core_waiting_total net b c)) ∧
  (∀ (b : Nat) (x : Int), (a ≤ b ∨ ∀ c ∈ visited_cores net, c.core_id ≠ x) →
    r.core_waiting_time b x = 0) ∧
  (∀ x : Int, r.total_core_waiting_time x =
    wrap32 (((List.range a).map (fun b => r.core_waiting_time b x)).sum)) ∧
  (∀ b : Nat, b < a → ∀ j : Nat, j < (Int.tdiv net.m_nodes 2).toNat →
    r.node_waiting_time b j =
      wrap32 (((cores_of net j).map (fun c => r.core_waiting_time b c.core_id)).sum)) ∧
  (∀ b j : Nat, (a ≤ b ∨ (Int.tdiv net.m_nodes 2).toNat ≤ j) →
    r.node_waiting_time b j = 0) ∧
  (∀ j : Nat, r.total_node_waiting_time j =
    wrap32 (((List.range a).map (fun b => r.node_waiting_time b j)).sum))

/-- A network for the examples: 4 endpoints, so 2 interfaces with tasks, 4
cores, two applications of 3 and 2 iterations.  Core 0 and core 1 sit on
node 0, core 2 and core 3 on node 1. -/
def waiting_net_example : WaitingNet :=
  { m_num_application := 2
    m_num_core := 4
    m_nodes := 4
    m_applicaton_execution_iterations := [3, 2]
    m_nis :=
      [⟨[⟨0, "PE-0", fun app => if app = 0 then [fun m => [1, 2, 3].getD m 0,
                                                  fun m => [10, 20, 30].getD m 0]
                                 else [fun m => [5, 6, 7].getD m 0]⟩,
          ⟨1, "PE-1", fun app => if app = 0 then [] else [fun _ => 4]⟩]⟩,
       ⟨[⟨3, "PE-3", fun app => if app = 0 then [fun m => (m : Int) + 1] else []⟩,
          ⟨2, "PE-2", fun _ => [fun _ => 100]⟩]⟩,
       ⟨[]⟩, ⟨[]⟩] }

/-! ## Auxiliary lemmas -/

theorem gcd_dvd_iff (a b d : Int) : d ∣ gcd a b ↔ d ∣ a ∧ d ∣ b := by
  unfold gcd
  constructor
  · intro h
    exact ⟨Int.dvd_trans h Int.gcd_dvd_left, Int.dvd_trans h Int.gcd_dvd_right⟩
  · intro h
    exact Int.dvd_gcd h.1 h.2

theorem foldl_gcd_dvd_iff (l : List Int) (a d : Int) :
    d ∣ l.foldl gcd a ↔ d ∣ a ∧ ∀ x ∈ l, d ∣ x := by
  induction l generalizing a with
  | nil => simp
  | cons x xs ih =>
    simp only [List.foldl_cons, ih, List.mem_cons, forall_eq_or_imp, gcd_dvd_iff]
    tauto

theorem foldl_gcd_nonneg (l : List Int) (a : Int) (ha : 0 ≤ a) : 0 ≤ l.foldl gcd a := by
  induction l generalizing a with
  | nil => simpa using ha
  | cons x xs ih =>
    simp only [List.foldl_cons]
    exact ih _ (by unfold gcd; exact Int.ofNat_nonneg _)

theorem mem_sort (l : List Int) (x : Int) : x ∈ sort l ↔ x ∈ l :=
  (List.perm_insertionSort _ l).mem_iff

theorem gcd_of_all_dvd_iff (first : Int) (l : List Int) (h : first ∈ l) (d : Int) :
    d ∣ gcd_of_all first l ↔ ∀ x ∈ l, d ∣ x := by
  unfold gcd_of_all
  rw [foldl_gcd_dvd_iff]
  constructor
  · intro hd x hx
    exact hd.2 x ((mem_sort l x).2 hx)
  · intro hd
    exact ⟨hd first h, fun x hx => hd x ((mem_sort l x).1 hx)⟩

theorem gcd_of_all_pos (first : Int) (l : List Int) (h : first ∈ l)
    (hpos : ∀ x ∈ l, 0 < x) : 0 < gcd_of_all first l := by
  have h0 : 0 ≤ gcd_of_all first l :=
    foldl_gcd_nonneg _ _ (le_of_lt (hpos first h))
  rcases lt_or_eq_of_le h0 with hlt | heq
  · exact hlt
  · exfalso
    have hd : gcd_of_all first l ∣ first :=
      (gcd_of_all_dvd_iff first l h _).1 (dvd_refl _) first h
    rw [← heq] at hd
    have := hpos first h
    have h1 : first = 0 := by simpa using hd
    omega

/-- What `get_ratio_token` returns on a non-empty list of positive counts:
the exact quotients by a positive `g` whose divisors are the common divisors
of the counts. -/
theorem get_ratio_token_spec (l : List Int) (hne : l ≠ [])
    (hpos : ∀ x ∈ l, 0 < x) :
    ∃ g : Int, 0 < g ∧ (∀ d : Int, d ∣ g ↔ ∀ x ∈ l, d ∣ x) ∧
      get_ratio_token l = some (l.map (fun x => x / g)) := by
  cases l with
  | nil => exact absurd rfl hne
  | cons a t =>
    have hmem : a ∈ a :: t := List.mem_cons_self a t
    have hg := gcd_of_all_pos a (a :: t) hmem hpos
    refine ⟨gcd_of_all a (a :: t), hg, gcd_of_all_dvd_iff a (a :: t) hmem, ?_⟩
    simp only [get_ratio_token]
    rw [if_neg (ne_of_gt hg)]
    congr 1
    apply List.map_congr_left
    intro x hx
    exact Int.tdiv_eq_ediv (le_of_lt (hpos x hx)) (le_of_lt hg)

/-- Two positive integers with the same divisors are equal. -/
theorem eq_of_same_divisors (g g' : Int) (hg : 0 < g) (hg' : 0 < g')
    (h : ∀ d : Int, d ∣ g ↔ d ∣ g') : g = g' :=
  Int.dvd_antisymm (le_of_lt hg) (le_of_lt hg') ((h g).1 (dvd_refl g))
    ((h g').2 (dvd_refl g'))

/-- Entry `i` of the mapped list, for an index inside the list. -/
theorem getD_map_div (l : List Int) (g : Int) (i : Nat) (hi : i < l.length) :
    (l.map (fun x => x / g)).getD i 0 = l.getD i 0 / g := by
  simp [List.getD_eq_getElem?_getD, hi]

theorem getD_mem (l : List Int) (i : Nat) (hi : i < l.length) : l.getD i 0 ∈ l := by
  rw [List.getD_eq_getElem _ _ hi]
  exact List.getElem_mem hi

theorem gcd_mul_dvd_iff (a b v d : Int) :
    d ∣ v * gcd a b ↔ d ∣ v * a ∧ d ∣ v * b := by
  unfold gcd
  constructor
  · intro h
    exact ⟨Int.dvd_trans h (Int.mul_dvd_mul_left v Int.gcd_dvd_left),
      Int.dvd_trans h (Int.mul_dvd_mul_left v Int.gcd_dvd_right)⟩
  · rintro ⟨h1, h2⟩
    have h := Int.dvd_gcd h1 h2
    rw [Int.gcd_mul_left] at h
    push_cast at h
    have habs : |v| * (Int.gcd a b : Int) ∣ v * (Int.gcd a b : Int) :=
      mul_dvd_mul_right ((abs_dvd v v).2 (dvd_refl v)) _
    exact Int.dvd_trans h habs

theorem foldl_gcd_mul_dvd_iff (l : List Int) (a v d : Int) :
    d ∣ v * l.foldl gcd a ↔ d ∣ v * a ∧ ∀ x ∈ l, d ∣ v * x := by
  induction l generalizing a with
  | nil => simp
  | cons x xs ih =>
    simp only [List.foldl_cons, ih, List.mem_cons, forall_eq_or_imp, gcd_mul_dvd_iff]
    tauto

/-- A positive integer whose divisors are the common divisors of the list is
the value of the gcd fold over the list. -/
theorem eq_foldl_gcd_of_divisors (l : List Int) (g : Int) (hg : 0 < g)
    (h : ∀ d : Int, d ∣ g ↔ ∀ x ∈ l, d ∣ x) : g = l.foldl gcd 0 := by
  have hchar : ∀ d : Int, d ∣ l.foldl gcd 0 ↔ ∀ x ∈ l, d ∣ x := by
    intro d
    rw [foldl_gcd_dvd_iff]
    simp
  exact Int.dvd_antisymm (le_of_lt hg) (foldl_gcd_nonneg l 0 (le_refl 0))
    ((hchar g).2 ((h g).1 (dvd_refl g)))
    ((h _).2 ((hchar _).1 (dvd_refl _)))

/-- The first-match scan finds a match exactly when the source or the
destination node occurs in the list, and every match sets the same class. -/
theorem scan_object_position_eq (src dst : Int) (pos : List Int) :
    scan_object_position src dst pos =
      if src ∈ pos ∨ dst ∈ pos then some (geInt dst src) else none := by
  induction pos with
  | nil => simp [scan_object_position]
  | cons p rest ih =>
    simp only [scan_object_position, List.mem_cons]
    by_cases h : src = p ∨ dst = p
    · rw [if_pos h]
      have h' : (src = p ∨ src ∈ rest) ∨ dst = p ∨ dst ∈ rest := by tauto
      rw [if_pos h']
    · rw [if_neg h, ih]
      by_cases h2 : src ∈ rest ∨ dst ∈ rest
      · have h' : (src = p ∨ src ∈ rest) ∨ dst = p ∨ dst ∈ rest := by tauto
        rw [if_pos h2, if_pos h']
      · have h' : ¬ ((src = p ∨ src ∈ rest) ∨ dst = p ∨ dst ∈ rest) := by tauto
        rw [if_neg h2, if_neg h']

/-- The last branch of the policy (lines 820-822): no budget requested. -/
theorem vc_choice_no_budget (obj : String) (vcs : Int) (pos : List Int)
    (src dst : Int) (hv : ¬ vcs > 0) :
    vc_choice obj vcs pos src dst = some (geInt dst src) := by
  unfold vc_choice
  rw [if_neg (fun h => hv h.2), if_neg (fun h => hv h.2)]

/-- The first branch of the policy (lines 802-816): object name and budget. -/
theorem vc_choice_object (obj : String) (vcs : Int) (pos : List Int)
    (src dst : Int) (hobj : obj ≠ " ") (hv : vcs > 0) :
    vc_choice obj vcs pos src dst =
      some (if src ∈ pos ∨ dst ∈ pos then geInt dst src else geInt dst src + 2) := by
  unfold vc_choice
  rw [if_pos ⟨hobj, hv⟩, scan_object_position_eq]
  by_cases h : src ∈ pos ∨ dst ∈ pos
  · simp only [if_pos h]
  · simp only [if_neg h]

/-- The middle branch of the policy (lines 817-819): budget without a name. -/
theorem vc_choice_fatal (vcs : Int) (pos : List Int) (src dst : Int) (hv : vcs > 0) :
    vc_choice " " vcs pos src dst = none := by
  unfold vc_choice
  rw [if_neg (fun h => h.1 rfl), if_pos ⟨rfl, hv⟩]

/-- The completion loop on arrays of sufficient length: it returns, and the
verdict is true exactly when every remaining pair of entries is equal. -/
theorem checkApplicationFinish_loop_spec (s : Tracker) (fuel i : Nat)
    (h1 : i + fuel ≤ s.current_execution_iterations.length)
    (h2 : i + fuel ≤ s.m_applicaton_execution_iterations.length) :
    ∃ b : Bool, checkApplicationFinish_loop s fuel i = some b ∧
      (b = true ↔ ∀ j : Nat, i ≤ j → j < i + fuel →
        s.current_execution_iterations[j]? = s.m_applicaton_execution_iterations[j]?) := by
  induction fuel generalizing i with
  | zero =>
    refine ⟨true, rfl, ?_⟩
    simp only [true_iff]
    intro j hj1 hj2
    omega
  | succ k ih =>
    have hc : i < s.current_execution_iterations.length := by omega
    have hr : i < s.m_applicaton_execution_iterations.length := by omega
    have hc' := List.getElem?_eq_getElem hc
    have hr' := List.getElem?_eq_getElem hr
    unfold checkApplicationFinish_loop
    rw [hc', hr']
    by_cases heq : s.current_execution_iterations[i] = s.m_applicaton_execution_iterations[i]
    · simp only [heq, if_true]
      obtain ⟨b, hb, hiff⟩ := ih (i + 1) (by omega) (by omega)
      refine ⟨b, hb, ?_⟩
      rw [hiff]
      constructor
      · intro h j hj1 hj2
        rcases Nat.eq_or_lt_of_le hj1 with hij | hij
        · subst hij
          rw [hc', hr', heq]
        · exact h j hij (by omega)
      · intro h j hj1 hj2
        exact h j (by omega) (by omega)
    · simp only [heq, if_false]
      refine ⟨false, rfl, ?_⟩
      constructor
      · intro h
        cases h
      · intro h
        exfalso
        have := h i (le_refl i) (by omega)
        rw [hc', hr'] at this
        exact heq (Option.some.inj this)

/-- A 32-bit value is its own wrap. -/
theorem wrap32_of_range (x : Int) (h1 : INT_MIN ≤ x) (h2 : x ≤ INT_MAX) :
    wrap32 x = x := by
  unfold INT_MIN at h1
  unfold INT_MAX at h2
  unfold wrap32
  omega

theorem get2_set2 (a : List (List Int)) (i j : Nat) (old v : Int)
    (h : get2 a i j = some old) :
    ∃ a' : List (List Int), set2 a i j v = some a' ∧ get2 a' i j = some v := by
  unfold get2 at h
  cases hrow : a[i]? with
  | none => rw [hrow] at h; cases h
  | some row =>
    rw [hrow] at h
    simp only at h
    have hi : i < a.length := by
      by_contra hcon
      rw [List.getElem?_eq_none (by omega)] at hrow
      cases hrow
    have hj : j < row.length := by
      by_contra hcon
      rw [List.getElem?_eq_none (by omega)] at h
      cases h
    refine ⟨a.set i (row.set j v), ?_, ?_⟩
    · unfold set2
      rw [hrow]
      simp only [hj, if_true]
    · unfold get2
      simp [hi, hj]

/-- What `output_ete_delay` does at indices inside the four arrays. -/
theorem output_ete_delay_spec (s : Tracker) (app iter : Nat) (b e old : Int)
    (name : String)
    (hb : get2 s.task_start_time app iter = some b)
    (he : get2 s.task_end_time app iter = some e)
    (hold : get2 s.ETE_delay app iter = some old)
    (hname : s.m_application_name[app]? = some name) :
    ∃ s' : Tracker, output_ete_delay s app iter = some s' ∧
      get2 s'.ETE_delay app iter = some (wrap32 (e - b)) ∧
      s'.app_delay_running_info =
        s.app_delay_running_info ++ [⟨name, iter, b, e, wrap32 (e - b)⟩] ∧
      s'.network_performance_info =
        s.network_performance_info ++ [⟨name, iter, s.stats⟩] ∧
      s'.task_start_time = s.task_start_time ∧ s'.task_end_time = s.task_end_time := by
  obtain ⟨ete, hset, hget⟩ := get2_set2 s.ETE_delay app iter old (wrap32 (e - b)) hold
  refine ⟨{ s with
      ETE_delay := ete
      app_delay_running_info :=
        s.app_delay_running_info ++ [⟨name, iter, b, e, wrap32 (e - b)⟩]
      network_performance_info :=
        s.network_performance_info ++ [⟨name, iter, s.stats⟩] }, ?_, hget, rfl, rfl, rfl, rfl⟩
  unfold output_ete_delay
  rw [he, hb]
  simp only [hset, hname]

/-- A counted loop whose body returns at every index of its range returns. -/
theorem for_loop_returns {σ : Type} (body : Nat → σ → Option σ) (fuel i : Nat) (acc : σ)
    (h : ∀ (j : Nat) (a : σ), i ≤ j → j < i + fuel → ∃ a' : σ, body j a = some a') :
    ∃ r : σ, for_loop body fuel i acc = some r := by
  induction fuel generalizing i acc with
  | zero => exact ⟨acc, rfl⟩
  | succ k ih =>
    obtain ⟨a', ha'⟩ := h i acc (le_refl i) (by omega)
    unfold for_loop
    rw [ha']
    exact ih (i + 1) a' (fun j a hj1 hj2 => h j a (by omega) (by omega))

theorem get2_eq_getD (a : List (List Int)) (i j : Nat) :
    get2 a i j = (a.getD i [])[j]? := by
  unfold get2
  rw [List.getD_eq_getElem?_getD]
  cases a[i]? with
  | none => simp
  | some row => simp

theorem get2_of_lt (a : List (List Int)) (i j : Nat) (h : j < (a.getD i []).length) :
    ∃ v : Int, get2 a i j = some v := by
  rw [get2_eq_getD]
  exact ⟨_, List.getElem?_eq_getElem h⟩

theorem getElem?_of_getD_pos (l : List Int) (i : Nat) (h : i < l.length) :
    l[i]? = some (l.getD i 0) := by
  rw [List.getD_eq_getElem?_getD, List.getElem?_eq_getElem h]
  rfl

/-- In a shaped tracker the report of every application is produced. -/
theorem PrintAppDelay_app_returns (s : Tracker) (hs : s.shaped) (app : Nat)
    (happ : app < s.m_num_application) :
    ∃ r : AppDelayReport, PrintAppDelay_app s app = some r := by
  obtain ⟨_, hname, hiter, _, hrows⟩ := hs
  obtain ⟨hpos, hst, hen, hete⟩ := hrows app happ
  have h1 := getElem?_of_getD_pos s.m_applicaton_execution_iterations app (by omega)
  have h2 : ∃ name : String, s.m_application_name[app]? = some name :=
    ⟨_, List.getElem?_eq_getElem (by omega)⟩
  obtain ⟨name, hname'⟩ := h2
  obtain ⟨total, htotal⟩ := for_loop_returns (fun i acc =>
      match get2 s.ETE_delay app i with
      | some d => some (wrap32 (acc + d))
      | none => none)
    (s.m_applicaton_execution_iterations.getD app 0).toNat 0 0 (by
      intro j a _ hj
      obtain ⟨d, hd⟩ := get2_of_lt s.ETE_delay app j (by omega)
      exact ⟨wrap32 (a + d), by simp only [hd]⟩)
  obtain ⟨rows, hrows'⟩ := for_loop_returns (fun i (rows : List IterationRow) =>
      match get2 s.task_start_time app i, get2 s.task_end_time app i,
        get2 s.ETE_delay app i with
      | some b, some e, some d => some (rows ++ [⟨i, b, e, d⟩])
      | _, _, _ => none)
    (s.m_applicaton_execution_iterations.getD app 0).toNat 0 [] (by
      intro j a _ hj
      obtain ⟨b, hb⟩ := get2_of_lt s.task_start_time app j (by omega)
      obtain ⟨e, he⟩ := get2_of_lt s.task_end_time app j (by omega)
      obtain ⟨d, hd⟩ := get2_of_lt s.ETE_delay app j (by omega)
      exact ⟨a ++ [⟨j, b, e, d⟩], by simp only [hb, he, hd]⟩)
  refine ⟨⟨name, s.m_applicaton_execution_iterations.getD app 0,
    Int.tdiv total (s.m_applicaton_execution_iterations.getD app 0), rows⟩, ?_⟩
  unfold PrintAppDelay_app
  rw [h1, hname']
  simp only [htotal, hrows', if_neg (ne_of_gt hpos)]

/-- In a shaped tracker `PrintAppDelay` returns. -/
theorem PrintAppDelay_returns (s : Tracker) (hs : s.shaped) :
    ∃ r : List AppDelayReport, PrintAppDelay s = some r := by
  unfold PrintAppDelay
  apply for_loop_returns
  intro j a _ hj
  obtain ⟨r, hr⟩ := PrintAppDelay_app_returns s hs j (by omega)
  exact ⟨a ++ [r], by simp only [hr]⟩

/-- A verdict `true` of the completion loop means that every entry of its
range was read and found equal. -/
theorem checkApplicationFinish_loop_true (s : Tracker) (fuel i : Nat)
    (h : checkApplicationFinish_loop s fuel i = some true) :
    ∀ j : Nat, i ≤ j → j < i + fuel →
      ∃ c : Int, s.current_execution_iterations[j]? = some c ∧
        s.m_applicaton_execution_iterations[j]? = some c := by
  induction fuel generalizing i with
  | zero =>
    intro j hj1 hj2
    omega
  | succ k ih =>
    intro j hj1 hj2
    unfold checkApplicationFinish_loop at h
    cases hc : s.current_execution_iterations[i]? with
    | none => rw [hc] at h; cases h
    | some c =>
      cases hr : s.m_applicaton_execution_iterations[i]? with
      | none => rw [hc, hr] at h; cases h
      | some r =>
        rw [hc, hr] at h
        simp only at h
        by_cases heq : c = r
        · rw [if_pos heq] at h
          rcases Nat.eq_or_lt_of_le hj1 with hij | hij
          · subst hij
            exact ⟨c, hc, by rw [hr, heq]⟩
          · exact ih (i + 1) h j hij (by omega)
        · rw [if_neg heq] at h
          cases h

/-- The throughput sample is empty or one line. -/
theorem throughput_sample_cases {ω : Type} (cyc : Nat) (s : Tracker)
    (sample : List (Action ω)) (h : throughput_sample cyc s = some sample) :
    sample = [] ∨ ∃ c : Int, sample = [Action.throughput_sample cyc c] := by
  unfold throughput_sample at h
  by_cases hc : cyc % 10000 = 0
  · rw [if_pos hc] at h
    cases h0 : s.current_execution_iterations[0]? with
    | none => rw [h0] at h; cases h
    | some c =>
      rw [h0] at h
      simp only [Option.some.injEq] at h
      exact Or.inr ⟨c, h.symm⟩
  · rw [if_neg hc] at h
    simp only [Option.some.injEq] at h
    exact Or.inl h.symm

theorem throughput_sample_returns {ω : Type} (cyc : Nat) (s : Tracker)
    (hs : s.shaped) : ∃ sample : List (Action ω), throughput_sample cyc s = some sample := by
  obtain ⟨hn, _, _, hcur, _⟩ := hs
  unfold throughput_sample
  by_cases hc : cyc % 10000 = 0
  · rw [if_pos hc, List.getElem?_eq_getElem (by omega)]
    exact ⟨_, rfl⟩
  · rw [if_neg hc]
    exact ⟨_, rfl⟩

theorem map_find_eq_none_iff (m : CoreMap) (k : Int) :
    map_find m k = none ↔ k ∉ m.map Prod.fst := by
  induction m with
  | nil => simp [map_find]
  | cons p rest ih =>
    obtain ⟨k', v⟩ := p
    unfold map_find
    by_cases h : k' = k
    · simp [h]
    · rw [if_neg h, ih]
      simp only [List.map_cons, List.mem_cons, not_or]
      constructor
      · intro h2
        exact ⟨fun h3 => h h3.symm, h2⟩
      · intro h2
        exact h2.2

theorem construct_core_fields (obj : String) (nb : Nat) (nid : Int) (s : Arch) (j : Nat)
    (c : Core) (hfit : name_fits nb c.core_name = true) :
    ∃ s' : Arch, construct_core obj nb nid s j c = some s' ∧
      s'.m_core_id_node_id = map_insert s.m_core_id_node_id c.core_id nid ∧
      s'.configured = s.configured := by
  unfold construct_core
  rw [if_pos hfit]
  refine ⟨_, rfl, ?_, ?_⟩ <;>
    by_cases h1 : obj ≠ " " ∧ contains c.core_name obj = true <;>
    by_cases h2 : contains c.core_name "PE-7" = true <;>
    simp [h1, h2]

theorem construct_cores_fields (obj : String) (nb : Nat) (nid : Int) (cs : List Core)
    (s : Arch) (j : Nat) (hfit : ∀ c ∈ cs, name_fits nb c.core_name = true) :
    ∃ s' : Arch, construct_cores obj nb nid s j cs = Except.ok s' ∧
      s'.m_core_id_node_id
        = insert_all s.m_core_id_node_id (cs.map (fun c => (c.core_id, nid))) ∧
      s'.configured = s.configured := by
  induction cs generalizing s j with
  | nil => exact ⟨s, rfl, rfl, rfl⟩
  | cons c rest ih =>
    obtain ⟨s1, hs1, h3, h4⟩ :=
      construct_core_fields obj nb nid s j c (hfit c (List.mem_cons_self c rest))
    obtain ⟨s2, hs2, h1, h2⟩ :=
      ih s1 (j + 1) (fun x hx => hfit x (List.mem_cons_of_mem c hx))
    refine ⟨s2, ?_, ?_, ?_⟩
    · unfold construct_cores
      rw [hs1]
      exact hs2
    · rw [h1, h3]
      rfl
    · rw [h2, h4]

/-- A name that does not fit its block stops the inner loop with the status
`undefined`, whatever follows it. -/
theorem construct_cores_overflow (obj : String) (nb : Nat) (nid : Int) (cs : List Core)
    (s : Arch) (j : Nat) (h : ∃ c ∈ cs, name_fits nb c.core_name = false) :
    ∃ s' : Arch, construct_cores obj nb nid s j cs = Except.error (s', Status.undefined) := by
  induction cs generalizing s j with
  | nil =>
    obtain ⟨c, hc, _⟩ := h
    cases hc
  | cons c rest ih =>
    unfold construct_cores
    by_cases hfit : name_fits nb c.core_name = true
    · obtain ⟨s1, hs1, _, _⟩ := construct_core_fields obj nb nid s j c hfit
      rw [hs1]
      apply ih
      obtain ⟨d, hd, hdf⟩ := h
      rcases List.mem_cons.1 hd with e | e
      · subst e
        rw [hfit] at hdf
        cases hdf
      · exact ⟨d, e, hdf⟩
    · have hnone : construct_core obj nb nid s j c = none := by
        unfold construct_core
        rw [if_neg hfit]
      rw [hnone]
      exact ⟨s, rfl⟩

/-- A core name that does not fit its block, in a file whose node count passes
the check and whose earlier nodes `configureNode` accepts, ends the run of
`constructArchitecture` with the status `undefined`: the assert of line 1109
is not reached, whether or not a core id is declared twice. -/
theorem constructArchitecture_overflow (m_nodes : Int) (obj : String) (nb : Nat)
    (cfg : NodeDesc → Option Bool) (f : ArchFile) (s : Arch)
    (pre post : List NodeDesc) (nd : NodeDesc)
    (hcount : node_count_check f.num_nodes m_nodes = true)
    (hnodes : f.nodes.take f.num_nodes.toNat = pre ++ nd :: post)
    (hfit : ∀ x ∈ pre, ∀ c ∈ x.cores, name_fits nb c.core_name = true)
    (hcfg : ∀ x ∈ pre, cfg x = some true)
    (hbad : ∃ c ∈ nd.cores, name_fits nb c.core_name = false) :
    (constructArchitecture m_nodes obj nb cfg (some f) s).2 = Status.undefined := by
  have key : ∀ (l : List NodeDesc) (t : Arch) (sum : Int),
      (∀ x ∈ l, ∀ c ∈ x.cores, name_fits nb c.core_name = true) →
      (∀ x ∈ l, cfg x = some true) →
      ∃ t' : Arch, construct_nodes obj nb cfg t sum (l ++ nd :: post)
        = Except.error (t', Status.undefined) := by
    intro l
    induction l with
    | nil =>
      intro t sum _ _
      obtain ⟨t', ht'⟩ := construct_cores_overflow obj nb nd.node_id nd.cores t 0 hbad
      refine ⟨t', ?_⟩
      rw [List.nil_append]
      unfold construct_nodes
      rw [ht']
    | cons x rest ih =>
      intro t sum hf hc
      obtain ⟨t1, ht1, _, _⟩ := construct_cores_fields obj nb x.node_id x.cores t 0
        (hf x (List.mem_cons_self x rest))
      obtain ⟨t', ht'⟩ := ih { t1 with configured := t1.configured ++ [x] }
        (sum + x.cores.length)
        (fun y hy => hf y (List.mem_cons_of_mem x hy))
        (fun y hy => hc y (List.mem_cons_of_mem x hy))
      refine ⟨t', ?_⟩
      rw [List.cons_append]
      unfold construct_nodes
      rw [ht1]
      simp only [hc x (List.mem_cons_self x rest)]
      exact ht'
  obtain ⟨t', ht'⟩ := key pre s 0 hfit hcfg
  unfold constructArchitecture
  simp only [hcount, if_true, hnodes, ht']

/-- The loop over the applications on a list of traces split in two: the
second part is loaded from the state the first part leaves, at the index that
follows. -/
theorem load_applications_append {F : Type} [Add F] [Mul F] [OfNat F 2]
    (cfg : LoadConfig) (pre rest : List (Option (Trace F))) (k : Nat) (s : Loader F) :
    load_applications cfg k (pre ++ rest) s =
      match load_applications cfg k pre s with
      | Except.ok s1 => load_applications cfg (k + pre.length) rest s1
      | Except.error e => Except.error e := by
  induction pre generalizing k s with
  | nil => simp [load_applications]
  | cons t ts ih =>
    have hstep : ∀ (l : List (Option (Trace F))),
        load_applications cfg k (t :: l) s =
          match load_application cfg k t s with
          | Except.ok s1 => load_applications cfg (k + 1) l s1
          | Except.error e => Except.error e := fun l => rfl
    rw [List.cons_append, hstep, hstep]
    cases h : load_application cfg k t s with
    | error e => rfl
    | ok s1 =>
      simp only
      rw [ih (k + 1) s1]
      have hk : k + 1 + ts.length = k + (t :: ts).length := by
        simp only [List.length_cons]
        omega
      rw [hk]

/-- A trace whose type is not 0 stops its application at the first assert, in
the state the application was entered with. -/
theorem load_application_bad_type {F : Type} [Add F] [Mul F] [OfNat F 2]
    (cfg : LoadConfig) (k : Nat) (tr : Trace F) (s : Loader F)
    (h : tr.trace_type ≠ 0) :
    load_application cfg k (some tr) s = Except.error (s, Status.assert_failed) := by
  unfold load_application trace_type_check
  simp [h]

theorem take_split {α : Type} (pre post : List α) (x : α) (n : Nat)
    (h : pre.length < n) :
    (pre ++ x :: post).take n = pre ++ x :: post.take (n - pre.length - 1) := by
  rw [List.take_append_eq_append_take, List.take_of_length_le (by omega)]
  have hn : n - pre.length = (n - pre.length - 1) + 1 := by omega
  rw [hn, List.take_succ_cons]
  simp

/-- A loop over trace lines ends with an assert failure only if one of its
passes does. -/
theorem load_lines_no_assert {F R : Type}
    (step : Loader F → R → Except (Loader F × Status) (Loader F))
    (hstep : ∀ (s : Loader F) (r : R) (s' : Loader F),
      step s r ≠ Except.error (s', Status.assert_failed))
    (rs : List R) (s s' : Loader F) :
    load_lines step s rs ≠ Except.error (s', Status.assert_failed) := by
  induction rs generalizing s with
  | nil =>
    unfold load_lines
    intro h
    cases h
  | cons r rest ih =>
    unfold load_lines
    cases hr : step s r with
    | ok s1 => exact ih s1
    | error e =>
      intro h
      simp only [Except.error.injEq] at h
      rw [h] at hr
      exact hstep s r s' hr

theorem load_task_no_assert {F : Type} [Add F] [Mul F] [OfNat F 2] (cfg : LoadConfig)
    (n : Int) (k : Nat) (s : Loader F) (r : TaskRecord F) (s' : Loader F) :
    load_task cfg n k s r ≠ Except.error (s', Status.assert_failed) := by
  unfold load_task
  cases (getNodeIdbyCoreId cfg.m_core_id_node_id r.proc_id).1 with
  | none => simp
  | some v => simp

theorem load_edge_no_assert {F : Type} [Add F] [Mul F] [OfNat F 2] (cfg : LoadConfig)
    (k : Nat) (s : Loader F) (r : EdgeRecord F) (s' : Loader F) :
    load_edge cfg k s r ≠ Except.error (s', Status.assert_failed) := by
  unfold load_edge
  simp only
  split
  · simp
  · split
    · simp
    · split
      · simp
      · split
        · simp
        · split
          · simp
          · simp

/-- Past the header no assert is left in the body of an application. -/
theorem load_body_no_assert {F : Type} [Add F] [Mul F] [OfNat F 2] (cfg : LoadConfig)
    (n : Int) (k : Nat) (tr : Trace F) (s s' : Loader F) :
    load_body cfg n k tr s ≠ Except.error (s', Status.assert_failed) := by
  unfold load_body
  cases load_head_tasks k tr s with
  | none => simp
  | some s1 =>
    simp only
    split
    · rename_i e he
      intro h
      simp only [Except.error.injEq] at h
      rw [h] at he
      exact load_lines_no_assert _ (load_task_no_assert cfg n k) _ _ _ he
    · split
      · rename_i e he
        intro h
        simp only [Except.error.injEq] at h
        rw [h] at he
        exact load_lines_no_assert _ (load_edge_no_assert cfg k) _ _ _ he
      · simp

theorem find_task_eq_none_iff {F : Type} (n c : Int) (k : Nat) (t : Int)
    (l : List (Placed F)) :
    find_task n c k t l = none ↔ (n, c, k, t) ∉ l.map task_key := by
  induction l with
  | nil => simp [find_task]
  | cons p rest ih =>
    unfold find_task
    by_cases hp : p.node_id = n ∧ p.task.proc_id = c ∧ p.task.app_idx = k ∧ p.task.id = t
    · rw [if_pos hp]
      have hk : task_key p = (n, c, k, t) := by
        unfold task_key
        rw [hp.1, hp.2.1, hp.2.2.1, hp.2.2.2]
      simp [hk]
    · rw [if_neg hp]
      have hk : ¬ (n, c, k, t) = task_key p := by
        unfold task_key
        intro h
        simp only [Prod.mk.injEq] at h
        exact hp ⟨h.1.symm, h.2.1.symm, h.2.2.1.symm, h.2.2.2.symm⟩
      cases hr : find_task n c k t rest with
      | none =>
        have := ih.1 hr
        simp [hk, this]
      | some i =>
        have hin : (n, c, k, t) ∈ rest.map task_key := by
          by_contra hcon
          rw [ih.2 hcon] at hr
          cases hr
        simp [hin]

/-- A task that can be looked up in one task list can be looked up in every
list that holds its key. -/
theorem find_task_of_keys {F : Type} (n c : Int) (k : Nat) (t : Int)
    (la lb : List (Placed F)) (i : Nat)
    (hsub : ∀ q, q ∈ la.map task_key → q ∈ lb.map task_key)
    (h : find_task n c k t la = some i) :
    ∃ i' : Nat, find_task n c k t lb = some i' := by
  have hin : (n, c, k, t) ∈ la.map task_key := by
    by_contra hcon
    rw [(find_task_eq_none_iff n c k t la).2 hcon] at h
    cases h
  cases hb : find_task n c k t lb with
  | some i' => exact ⟨i', rfl⟩
  | none => exact absurd (hsub _ hin) ((find_task_eq_none_iff n c k t lb).1 hb)

theorem modify_task_keys {F : Type} (f : GraphTask F → GraphTask F)
    (hf : ∀ t : GraphTask F, (f t).proc_id = t.proc_id ∧ (f t).app_idx = t.app_idx ∧
      (f t).id = t.id)
    (i : Nat) (l : List (Placed F)) :
    (modify_task f i l).map task_key = l.map task_key := by
  induction l generalizing i with
  | nil => cases i <;> rfl
  | cons p rest ih =>
    cases i with
    | zero =>
      unfold modify_task
      simp only [List.map_cons, task_key]
      rw [(hf p.task).1, (hf p.task).2.1, (hf p.task).2.2]
    | succ i =>
      unfold modify_task
      simp only [List.map_cons]
      rw [ih i]

theorem sort_task_list_keys {F : Type} (l : List (Placed F)) (q : Int × Int × Nat × Int) :
    q ∈ (sort_task_list l).map task_key ↔ q ∈ l.map task_key := by
  unfold sort_task_list
  exact ((List.perm_insertionSort _ l).map task_key).mem_iff

theorem load_task_rerun {F : Type} [Add F] [Mul F] [OfNat F 2] (cfg : LoadConfig)
    (n : Int) (k : Nat) (a b a' : Loader F) (r : TaskRecord F)
    (hR : rerun_related a b) (h : load_task cfg n k a r = Except.ok a') :
    ∃ b' : Loader F, load_task cfg n k b r = Except.ok b' ∧ rerun_related a' b' := by
  unfold load_task at h ⊢
  cases hn : (getNodeIdbyCoreId cfg.m_core_id_node_id r.proc_id).1 with
  | none =>
    rw [hn] at h
    cases h
  | some node =>
    rw [hn] at h
    simp only [Except.ok.injEq] at h
    refine ⟨_, rfl, ?_⟩
    rw [← h]
    obtain ⟨h1, h2, h3, h4, h5⟩ := hR
    refine ⟨?_, h2, h3, h4, h5⟩
    intro q hq
    simp only [List.map_append, List.mem_append] at hq ⊢
    rcases hq with hq | hq
    · exact Or.inl (h1 q hq)
    · exact Or.inr hq

theorem link_edge_keys {F : Type} (e : GraphEdge F) (i j : Nat) (l : List (Placed F)) :
    (modify_task (fun t => { t with incoming_edges := t.incoming_edges ++ [e] }) j
      (modify_task (fun t => { t with outgoing_edges := t.outgoing_edges ++ [e] }) i l)).map
        task_key = l.map task_key := by
  rw [modify_task_keys (fun t => { t with incoming_edges := t.incoming_edges ++ [e] })
      (fun t => ⟨rfl, rfl, rfl⟩) j,
    modify_task_keys (fun t => { t with outgoing_edges := t.outgoing_edges ++ [e] })
      (fun t => ⟨rfl, rfl, rfl⟩) i]

theorem load_edge_rerun {F : Type} [Add F] [Mul F] [OfNat F 2] (cfg : LoadConfig)
    (k : Nat) (a b a' : Loader F) (r : EdgeRecord F)
    (hR : rerun_related a b) (h : load_edge cfg k a r = Except.ok a') :
    ∃ b' : Loader F, load_edge cfg k b r = Except.ok b' ∧ rerun_related a' b' := by
  obtain ⟨h1, h2, h3, h4, h5⟩ := hR
  unfold load_edge at h ⊢
  simp only at h ⊢
  split at h
  · cases h
  · rename_i src_node hsn
    split at h
    · cases h
    · rename_i src_task hst
      split at h
      · cases h
      · rename_i dst_node hdn
        split at h
        · cases h
        · rename_i dst_task hdt
          split at h
          · cases h
          · rename_i c hvc
            simp only [Except.ok.injEq] at h
            obtain ⟨i, hi⟩ := find_task_of_keys _ _ _ _ a.tasks b.tasks src_task h1 hst
            obtain ⟨j, hj⟩ := find_task_of_keys _ _ _ _ a.tasks b.tasks dst_task h1 hdt
            simp only [hsn, hi, hdn, hj, hvc]
            refine ⟨_, rfl, ?_⟩
            rw [← h]
            refine ⟨?_, h2, h3, h4, h5⟩
            intro q hq
            simp only at hq ⊢
            rw [link_edge_keys] at hq ⊢
            exact h1 q hq

theorem load_lines_rerun {F R : Type}
    (step : Loader F → R → Except (Loader F × Status) (Loader F))
    (hstep : ∀ (a b a' : Loader F) (r : R), rerun_related a b → step a r = Except.ok a' →
      ∃ b' : Loader F, step b r = Except.ok b' ∧ rerun_related a' b')
    (rs : List R) (a b a' : Loader F)
    (hR : rerun_related a b) (h : load_lines step a rs = Except.ok a') :
    ∃ b' : Loader F, load_lines step b rs = Except.ok b' ∧ rerun_related a' b' := by
  induction rs generalizing a b with
  | nil =>
    unfold load_lines at h ⊢
    simp only [Except.ok.injEq] at h
    exact ⟨b, rfl, by rw [← h]; exact hR⟩
  | cons r rest ih =>
    unfold load_lines at h ⊢
    cases hs : step a r with
    | error e =>
      rw [hs] at h
      cases h
    | ok a1 =>
      rw [hs] at h
      obtain ⟨b1, hb1, hR1⟩ := hstep a b a1 r hR hs
      rw [hb1]
      exact ih a1 b1 hR1 h

theorem load_head_tasks_rerun {F : Type} (k : Nat) (tr : Trace F) (a b a' : Loader F)
    (hR : rerun_related a b) (h : load_head_tasks k tr a = some a') :
    ∃ b' : Loader F, load_head_tasks k tr b = some b' ∧ rerun_related a' b' := by
  obtain ⟨h1, h2, h3, h4, h5⟩ := hR
  unfold load_head_tasks at h ⊢
  simp only at h ⊢
  by_cases hids : tr.head_task_ids.take tr.m_num_head_task.toNat = []
  · rw [if_pos hids] at h ⊢
    simp only [Option.some.injEq] at h
    refine ⟨_, rfl, ?_⟩
    rw [← h]
    exact ⟨h1, h2, h3, h4, by simp only [h5]⟩
  · rw [if_neg hids] at h ⊢
    cases ha : a.head_task[k]? with
    | none =>
      rw [ha] at h
      cases h
    | some heads =>
      rw [ha] at h
      simp only [Option.some.injEq] at h
      have hk : k < b.head_task.length := by
        by_contra hcon
        have hk' : a.head_task.length ≤ k := by omega
        rw [List.getElem?_eq_none hk'] at ha
        cases ha
      rw [List.getElem?_eq_getElem hk]
      refine ⟨_, rfl, ?_⟩
      rw [← h]
      refine ⟨h1, ?_, h3, h4, by simp only [h5]⟩
      simp only [List.length_set]
      exact h2

theorem load_body_rerun {F : Type} [Add F] [Mul F] [OfNat F 2] (cfg : LoadConfig)
    (n : Int) (k : Nat) (tr : Trace F) (a b a' : Loader F)
    (hR : rerun_related a b) (h : load_body cfg n k tr a = Except.ok a') :
    ∃ b' : Loader F, load_body cfg n k tr b = Except.ok b' ∧ rerun_related a' b' := by
  unfold load_body at h ⊢
  cases hh : load_head_tasks k tr a with
  | none =>
    rw [hh] at h
    cases h
  | some a1 =>
    rw [hh] at h
    simp only at h
    obtain ⟨b1, hb1, hR1⟩ := load_head_tasks_rerun k tr a b a1 hR hh
    rw [hb1]
    simp only
    cases ht : load_lines (load_task cfg n k) a1 (tr.tasks.take tr.m_num_task.toNat) with
    | error e =>
      rw [ht] at h
      cases h
    | ok a2 =>
      rw [ht] at h
      simp only at h
      obtain ⟨b2, hb2, hR2⟩ := load_lines_rerun (load_task cfg n k)
        (fun x y x' r hxy hx => load_task_rerun cfg n k x y x' r hxy hx) _ a1 b1 a2 hR1 ht
      rw [hb2]
      simp only
      cases he : load_lines (load_edge cfg k) a2 (tr.edges.take tr.m_num_edge.toNat) with
      | error e =>
        rw [he] at h
        cases h
      | ok a3 =>
        rw [he] at h
        simp only [Except.ok.injEq] at h
        obtain ⟨b3, hb3, hR3⟩ := load_lines_rerun (load_edge cfg k)
          (fun x y x' r hxy hx => load_edge_rerun cfg k x y x' r hxy hx) _ a2 b2 a3 hR2 he
        rw [hb3]
        refine ⟨_, rfl, ?_⟩
        rw [← h]
        obtain ⟨h1, h2, h3, h4, h5⟩ := hR3
        refine ⟨?_, h2, h3, h4, h5⟩
        intro q hq
        simp only at hq ⊢
        rw [sort_task_list_keys] at hq ⊢
        exact h1 q hq

theorem load_application_rerun {F : Type} [Add F] [Mul F] [OfNat F 2] (cfg : LoadConfig)
    (k : Nat) (trace : Option (Trace F)) (a b a' : Loader F)
    (hR : rerun_related a b) (h : load_application cfg k trace a = Except.ok a') :
    ∃ b' : Loader F, load_application cfg k trace b = Except.ok b' ∧ rerun_related a' b' := by
  obtain ⟨h1, h2, h3, h4, h5⟩ := hR
  cases trace with
  | none =>
    unfold load_application at h
    cases h
  | some tr =>
    unfold load_application at h ⊢
    simp only at h ⊢
    by_cases ht : trace_type_check tr = true
    · rw [if_pos ht] at h ⊢
      cases hc : counts_check tr.m_num_task tr.m_num_edge tr.m_num_proc
          cfg.m_applicaton_execution_iterations[k]? with
      | none =>
        rw [hc] at h
        cases h
      | some ok =>
        rw [hc] at h
        cases ok with
        | false => cases h
        | true =>
          simp only at h ⊢
          refine load_body_rerun cfg _ k tr _ _ a' ?_ h
          exact ⟨h1, h2, by simp only [h3], by simp only [h4], h5⟩
    · rw [if_neg ht] at h
      cases h

theorem load_applications_rerun {F : Type} [Add F] [Mul F] [OfNat F 2] (cfg : LoadConfig)
    (traces : List (Option (Trace F))) (k : Nat) (a b a' : Loader F)
    (hR : rerun_related a b) (h : load_applications cfg k traces a = Except.ok a') :
    ∃ b' : Loader F, load_applications cfg k traces b = Except.ok b' ∧
      rerun_related a' b' := by
  induction traces generalizing k a b with
  | nil =>
    unfold load_applications at h ⊢
    simp only [Except.ok.injEq] at h
    exact ⟨b, rfl, by rw [← h]; exact hR⟩
  | cons t rest ih =>
    unfold load_applications at h ⊢
    cases hs : load_application cfg k t a with
    | error e =>
      rw [hs] at h
      cases h
    | ok a1 =>
      rw [hs] at h
      obtain ⟨b1, hb1, hR1⟩ := load_application_rerun cfg k t a b a1 hR hs
      rw [hb1]
      exact ih (k + 1) a1 b1 hR1 h

theorem getD_set_heads (l : List (List Int)) (k j : Nat) (v : List Int) (hk : k < l.length) :
    (l.set k v).getD j [] = if j = k then v else l.getD j [] := by
  rw [List.getD_eq_getElem?_getD, List.getD_eq_getElem?_getD, List.getElem?_set]
  by_cases h : k = j
  · subst h
    simp [hk]
  · have h' : ¬ j = k := fun e => h e.symm
    simp [h, h']

theorem load_head_tasks_heads {F : Type} (k : Nat) (tr : Trace F) (a a' : Loader F)
    (h : load_head_tasks k tr a = some a') :
    a'.tasks = a.tasks ∧ a'.head_task.length = a.head_task.length ∧
    ∀ j : Nat, a'.head_task.getD j [] = a.head_task.getD j [] ++
      (if j = k then tr.head_task_ids.take tr.m_num_head_task.toNat else []) := by
  unfold load_head_tasks at h
  simp only at h
  by_cases hids : tr.head_task_ids.take tr.m_num_head_task.toNat = []
  · rw [if_pos hids] at h
    simp only [Option.some.injEq] at h
    rw [← h]
    refine ⟨rfl, rfl, ?_⟩
    intro j
    simp [hids]
  · rw [if_neg hids] at h
    cases ha : a.head_task[k]? with
    | none =>
      rw [ha] at h
      cases h
    | some heads =>
      rw [ha] at h
      simp only [Option.some.injEq] at h
      have hk : k < a.head_task.length := by
        by_contra hcon
        rw [List.getElem?_eq_none (by omega)] at ha
        cases ha
      rw [← h]
      refine ⟨rfl, by simp, ?_⟩
      intro j
      simp only
      rw [getD_set_heads _ _ _ _ hk]
      by_cases hj : j = k
      · subst hj
        rw [if_pos rfl, if_pos rfl, List.getD_eq_getElem?_getD, ha]
        rfl
      · rw [if_neg hj, if_neg hj, List.append_nil]

theorem load_lines_head_task {F R : Type}
    (step : Loader F → R → Except (Loader F × Status) (Loader F))
    (hstep : ∀ (a a' : Loader F) (r : R), step a r = Except.ok a' →
      a'.head_task = a.head_task)
    (rs : List R) (a a' : Loader F) (h : load_lines step a rs = Except.ok a') :
    a'.head_task = a.head_task := by
  induction rs generalizing a with
  | nil =>
    unfold load_lines at h
    simp only [Except.ok.injEq] at h
    rw [← h]
  | cons r rest ih =>
    unfold load_lines at h
    cases hs : step a r with
    | error e =>
      rw [hs] at h
      cases h
    | ok a1 =>
      rw [hs] at h
      rw [ih a1 h, hstep a a1 r hs]

theorem load_task_head_task {F : Type} [Add F] [Mul F] [OfNat F 2] (cfg : LoadConfig)
    (n : Int) (k : Nat) (a a' : Loader F) (r : TaskRecord F)
    (h : load_task cfg n k a r = Except.ok a') : a'.head_task = a.head_task := by
  unfold load_task at h
  cases hn : (getNodeIdbyCoreId cfg.m_core_id_node_id r.proc_id).1 with
  | none =>
    rw [hn] at h
    cases h
  | some node =>
    rw [hn] at h
    simp only [Except.ok.injEq] at h
    rw [← h]

theorem load_edge_head_task {F : Type} [Add F] [Mul F] [OfNat F 2] (cfg : LoadConfig)
    (k : Nat) (a a' : Loader F) (r : EdgeRecord F)
    (h : load_edge cfg k a r = Except.ok a') : a'.head_task = a.head_task := by
  unfold load_edge at h
  simp only at h
  split at h
  · cases h
  · split at h
    · cases h
    · split at h
      · cases h
      · split at h
        · cases h
        · split at h
          · cases h
          · simp only [Except.ok.injEq] at h
            rw [← h]

theorem load_body_heads {F : Type} [Add F] [Mul F] [OfNat F 2] (cfg : LoadConfig)
    (n : Int) (k : Nat) (tr : Trace F) (a a' : Loader F)
    (h : load_body cfg n k tr a = Except.ok a') :
    a'.head_task.length = a.head_task.length ∧
    ∀ j : Nat, a'.head_task.getD j [] = a.head_task.getD j [] ++
      (if j = k then tr.head_task_ids.take tr.m_num_head_task.toNat else []) := by
  unfold load_body at h
  cases hh : load_head_tasks k tr a with
  | none =>
    rw [hh] at h
    cases h
  | some a1 =>
    rw [hh] at h
    simp only at h
    obtain ⟨_, hlen, hget⟩ := load_head_tasks_heads k tr a a1 hh
    cases ht : load_lines (load_task cfg n k) a1 (tr.tasks.take tr.m_num_task.toNat) with
    | error e =>
      rw [ht] at h
      cases h
    | ok a2 =>
      rw [ht] at h
      simp only at h
      have h2 := load_lines_head_task _ (fun x x' r hx => load_task_head_task cfg n k x x' r hx)
        _ a1 a2 ht
      cases he : load_lines (load_edge cfg k) a2 (tr.edges.take tr.m_num_edge.toNat) with
      | error e =>
        rw [he] at h
        cases h
      | ok a3 =>
        rw [he] at h
        simp only [Except.ok.injEq] at h
        have h3 := load_lines_head_task _ (fun x x' r hx => load_edge_head_task cfg k x x' r hx)
          _ a2 a3 he
        rw [← h]
        simp only [h3, h2]
        exact ⟨hlen, hget⟩

theorem load_application_heads {F : Type} [Add F] [Mul F] [OfNat F 2] (cfg : LoadConfig)
    (k : Nat) (trace : Option (Trace F)) (a a' : Loader F)
    (h : load_application cfg k trace a = Except.ok a') :
    a'.head_task.length = a.head_task.length ∧
    ∀ j : Nat, a'.head_task.getD j [] = a.head_task.getD j [] ++
      (if j = k then appended_heads [trace] 0 else []) := by
  cases trace with
  | none =>
    unfold load_application at h
    cases h
  | some tr =>
    unfold load_application at h
    simp only at h
    by_cases ht : trace_type_check tr = true
    · rw [if_pos ht] at h
      cases hc : counts_check tr.m_num_task tr.m_num_edge tr.m_num_proc
          cfg.m_applicaton_execution_iterations[k]? with
      | none =>
        rw [hc] at h
        cases h
      | some ok =>
        rw [hc] at h
        cases ok with
        | false => cases h
        | true =>
          simp only at h
          have hb := load_body_heads cfg _ k tr _ a' h
          exact hb
    · rw [if_neg ht] at h
      cases h

theorem appended_heads_cons_zero {F : Type} (t : Option (Trace F))
    (rest : List (Option (Trace F))) :
    appended_heads (t :: rest) 0 = appended_heads [t] 0 := by
  unfold appended_heads
  simp

theorem appended_heads_cons_succ {F : Type} (t : Option (Trace F))
    (rest : List (Option (Trace F))) (j : Nat) :
    appended_heads (t :: rest) (j + 1) = appended_heads rest j := by
  unfold appended_heads
  simp

theorem load_applications_heads {F : Type} [Add F] [Mul F] [OfNat F 2] (cfg : LoadConfig)
    (traces : List (Option (Trace F))) (k : Nat) (a a' : Loader F)
    (h : load_applications cfg k traces a = Except.ok a') :
    a'.head_task.length = a.head_task.length ∧
    ∀ j : Nat, a'.head_task.getD j [] = a.head_task.getD j [] ++
      (if k ≤ j then appended_heads traces (j - k) else []) := by
  induction traces generalizing k a with
  | nil =>
    unfold load_applications at h
    simp only [Except.ok.injEq] at h
    rw [← h]
    refine ⟨rfl, ?_⟩
    intro j
    have : appended_heads ([] : List (Option (Trace F))) (j - k) = [] := by
      unfold appended_heads
      simp
    simp [this]
  | cons t rest ih =>
    unfold load_applications at h
    cases hs : load_application cfg k t a with
    | error e =>
      rw [hs] at h
      cases h
    | ok a1 =>
      rw [hs] at h
      obtain ⟨hl1, hg1⟩ := load_application_heads cfg k t a a1 hs
      obtain ⟨hl2, hg2⟩ := ih (k + 1) a1 h
      refine ⟨by rw [hl2, hl1], ?_⟩
      intro j
      rw [hg2 j, hg1 j]
      by_cases hjk : j = k
      · subst hjk
        have h1 : ¬ (j + 1 ≤ j) := by omega
        rw [if_pos rfl, if_neg h1, if_pos (le_refl j), Nat.sub_self,
          appended_heads_cons_zero t rest, List.append_nil]
      · rw [if_neg hjk, List.append_nil]
        by_cases hle : k ≤ j
        · have h1 : k + 1 ≤ j := by omega
          have h2 : j - k = (j - (k + 1)) + 1 := by omega
          rw [if_pos h1, if_pos hle, h2, appended_heads_cons_succ]
        · have h1 : ¬ (k + 1 ≤ j) := by omega
          rw [if_neg h1, if_neg hle]

/-- A loop over trace lines never stops with the status `ok`. -/
theorem load_lines_no_ok {F R : Type}
    (step : Loader F → R → Except (Loader F × Status) (Loader F))
    (hstep : ∀ (s : Loader F) (r : R) (s' : Loader F),
      step s r ≠ Except.error (s', Status.ok))
    (rs : List R) (s s' : Loader F) :
    load_lines step s rs ≠ Except.error (s', Status.ok) := by
  induction rs generalizing s with
  | nil =>
    unfold load_lines
    intro h
    cases h
  | cons r rest ih =>
    unfold load_lines
    cases hr : step s r with
    | ok s1 => exact ih s1
    | error e =>
      intro h
      simp only [Except.error.injEq] at h
      rw [h] at hr
      exact hstep s r s' hr

theorem load_task_no_ok {F : Type} [Add F] [Mul F] [OfNat F 2] (cfg : LoadConfig)
    (n : Int) (k : Nat) (s : Loader F) (r : TaskRecord F) (s' : Loader F) :
    load_task cfg n k s r ≠ Except.error (s', Status.ok) := by
  unfold load_task
  cases (getNodeIdbyCoreId cfg.m_core_id_node_id r.proc_id).1 with
  | none => simp
  | some v => simp

theorem load_edge_no_ok {F : Type} [Add F] [Mul F] [OfNat F 2] (cfg : LoadConfig)
    (k : Nat) (s : Loader F) (r : EdgeRecord F) (s' : Loader F) :
    load_edge cfg k s r ≠ Except.error (s', Status.ok) := by
  unfold load_edge
  simp only
  split
  · simp
  · split
    · simp
    · split
      · simp
      · split
        · simp
        · split
          · simp
          · simp

theorem load_body_no_ok {F : Type} [Add F] [Mul F] [OfNat F 2] (cfg : LoadConfig)
    (n : Int) (k : Nat) (tr : Trace F) (s s' : Loader F) :
    load_body cfg n k tr s ≠ Except.error (s', Status.ok) := by
  unfold load_body
  cases load_head_tasks k tr s with
  | none => simp
  | some s1 =>
    simp only
    split
    · rename_i e he
      intro h
      simp only [Except.error.injEq] at h
      rw [h] at he
      exact load_lines_no_ok _ (load_task_no_ok cfg n k) _ _ _ he
    · split
      · rename_i e he
        intro h
        simp only [Except.error.injEq] at h
        rw [h] at he
        exact load_lines_no_ok _ (load_edge_no_ok cfg k) _ _ _ he
      · simp

theorem load_application_no_ok {F : Type} [Add F] [Mul F] [OfNat F 2] (cfg : LoadConfig)
    (k : Nat) (trace : Option (Trace F)) (s s' : Loader F) :
    load_application cfg k trace s ≠ Except.error (s', Status.ok) := by
  cases trace with
  | none =>
    unfold load_application
    simp
  | some tr =>
    unfold load_application
    simp only
    by_cases ht : trace_type_check tr = true
    · rw [if_pos ht]
      cases hc : counts_check tr.m_num_task tr.m_num_edge tr.m_num_proc
          cfg.m_applicaton_execution_iterations[k]? with
      | none => simp
      | some ok =>
        cases ok with
        | false => simp
        | true =>
          simp only
          exact load_body_no_ok cfg _ k tr _ s'
    · rw [if_neg ht]
      simp

/-- The loop over the applications never stops with the status `ok`: that
status is given only after the assert of line 879. -/
theorem load_applications_no_ok {F : Type} [Add F] [Mul F] [OfNat F 2] (cfg : LoadConfig)
    (traces : List (Option (Trace F))) (k : Nat) (s s' : Loader F) :
    load_applications cfg k traces s ≠ Except.error (s', Status.ok) := by
  induction traces generalizing k s with
  | nil =>
    unfold load_applications
    intro h
    cases h
  | cons t rest ih =>
    unfold load_applications
    cases hs : load_application cfg k t s with
    | ok s1 => exact ih (k + 1) s1
    | error e =>
      intro h
      simp only [Except.error.injEq] at h
      rw [h] at hs
      exact load_application_no_ok cfg k t s s' hs

/-- A run of `loadTraffic` that ends with `ok` has passed the loop over the
applications and the assert of line 879. -/
theorem loadTraffic_ok {F : Type} [Add F] [Mul F] [OfNat F 2] (cfg : LoadConfig)
    (traces : List (Option (Trace F))) (s s1 : Loader F)
    (h : loadTraffic cfg traces s = (s1, Status.ok)) :
    load_applications cfg 0 (traces.take cfg.m_num_application) (fresh_counts cfg s) =
      Except.ok s1 ∧ (task_list_sum cfg s1.tasks : Int) = s1.m_num_task.sum := by
  unfold loadTraffic at h
  simp only at h
  unfold fresh_counts
  cases hl : load_applications cfg 0 (traces.take cfg.m_num_application)
      { s with
        m_num_task := List.replicate cfg.m_num_application 0
        m_num_edge := List.replicate cfg.m_num_application 0
        m_num_head_task := List.replicate cfg.m_num_application 0 } with
  | error e =>
    rw [hl] at h
    simp only at h
    rw [h] at hl
    exact absurd hl (load_applications_no_ok cfg _ 0 _ s1)
  | ok s2 =>
    rw [hl] at h
    simp only at h
    by_cases hsum : (task_list_sum cfg s2.tasks : Int) = s2.m_num_task.sum
    · rw [if_pos hsum] at h
      simp only [Prod.mk.injEq, and_true] at h
      rw [← h]
      exact ⟨rfl, hsum⟩
    · rw [if_neg hsum] at h
      simp only [Prod.mk.injEq] at h
      exact absurd h.2 (by decide)

/-- The other direction: the status of a run whose loop over the applications
passes is decided by the assert of line 879. -/
theorem loadTraffic_of_loop {F : Type} [Add F] [Mul F] [OfNat F 2] (cfg : LoadConfig)
    (traces : List (Option (Trace F))) (s s1 : Loader F)
    (h : load_applications cfg 0 (traces.take cfg.m_num_application) (fresh_counts cfg s) =
      Except.ok s1) :
    loadTraffic cfg traces s =
      (s1, if (task_list_sum cfg s1.tasks : Int) = s1.m_num_task.sum then Status.ok
        else Status.assert_failed) := by
  unfold fresh_counts at h
  unfold loadTraffic
  simp only
  rw [h]
  simp only
  split <;> rfl

theorem get_task_list_length_keys {F : Type} (tasks : List (Placed F)) (n c : Int)
    (app : Nat) :
    get_task_list_length tasks n c app =
      (tasks.map task_key).countP (fun q => decide (q.1 = n ∧ q.2.1 = c ∧ q.2.2.1 = app)) := by
  unfold get_task_list_length
  rw [List.countP_map]
  rfl

/-- The total of line 833 depends on the task lists only through the keys of
the tasks, counted with multiplicity. -/
theorem task_list_sum_perm {F : Type} (cfg : LoadConfig) (t1 t2 : List (Placed F))
    (h : (t1.map task_key).Perm (t2.map task_key)) :
    task_list_sum cfg t1 = task_list_sum cfg t2 := by
  have hg : ∀ (n c : Int) (app : Nat),
      get_task_list_length t1 n c app = get_task_list_length t2 n c app := by
    intro n c app
    rw [get_task_list_length_keys, get_task_list_length_keys]
    exact h.countP_eq _
  unfold task_list_sum
  simp only [hg]

theorem task_list_sum_append {F : Type} (cfg : LoadConfig) (t1 t2 : List (Placed F)) :
    task_list_sum cfg (t1 ++ t2) = task_list_sum cfg t1 + task_list_sum cfg t2 := by
  have hg : ∀ (n c : Int) (app : Nat),
      get_task_list_length (t1 ++ t2) n c app =
        get_task_list_length t1 n c app + get_task_list_length t2 n c app := by
    intro n c app
    unfold get_task_list_length
    rw [List.countP_append]
  unfold task_list_sum
  simp only [hg, List.sum_map_add]

theorem load_task_placed {F : Type} [Add F] [Mul F] [OfNat F 2] (cfg : LoadConfig)
    (n : Int) (k : Nat) (r : TaskRecord F) :
    ∃ K : List (Placed F), ∀ a a' : Loader F, load_task cfg n k a r = Except.ok a' →
      (a'.tasks.map task_key).Perm ((a.tasks ++ K).map task_key) := by
  cases hn : (getNodeIdbyCoreId cfg.m_core_id_node_id r.proc_id).1 with
  | none =>
    refine ⟨[], ?_⟩
    intro a a' h
    unfold load_task at h
    rw [hn] at h
    cases h
  | some node =>
    refine ⟨[⟨node, build_task n k r⟩], ?_⟩
    intro a a' h
    unfold load_task at h
    rw [hn] at h
    simp only [Except.ok.injEq] at h
    rw [← h]

theorem load_edge_placed {F : Type} [Add F] [Mul F] [OfNat F 2] (cfg : LoadConfig)
    (k : Nat) (r : EdgeRecord F) :
    ∃ K : List (Placed F), ∀ a a' : Loader F, load_edge cfg k a r = Except.ok a' →
      (a'.tasks.map task_key).Perm ((a.tasks ++ K).map task_key) := by
  refine ⟨[], ?_⟩
  intro a a' h
  unfold load_edge at h
  simp only at h
  split at h
  · cases h
  · split at h
    · cases h
    · split at h
      · cases h
      · split at h
        · cases h
        · split at h
          · cases h
          · simp only [Except.ok.injEq] at h
            rw [← h, List.append_nil]
            simp only
            rw [link_edge_keys]

theorem load_lines_placed {F R : Type}
    (step : Loader F → R → Except (Loader F × Status) (Loader F))
    (hstep : ∀ r : R, ∃ K : List (Placed F), ∀ a a' : Loader F, step a r = Except.ok a' →
      (a'.tasks.map task_key).Perm ((a.tasks ++ K).map task_key))
    (rs : List R) :
    ∃ K : List (Placed F), ∀ a a' : Loader F, load_lines step a rs = Except.ok a' →
      (a'.tasks.map task_key).Perm ((a.tasks ++ K).map task_key) := by
  induction rs with
  | nil =>
    refine ⟨[], ?_⟩
    intro a a' h
    unfold load_lines at h
    simp only [Except.ok.injEq] at h
    rw [← h, List.append_nil]
  | cons r rest ih =>
    obtain ⟨K1, h1⟩ := hstep r
    obtain ⟨K2, h2⟩ := ih
    refine ⟨K1 ++ K2, ?_⟩
    intro a a' h
    unfold load_lines at h
    cases hs : step a r with
    | error e =>
      rw [hs] at h
      cases h
    | ok a1 =>
      rw [hs] at h
      refine (h2 a1 a' h).trans ?_
      rw [List.map_append, ← List.append_assoc, List.map_append _ (a.tasks ++ K1)]
      exact (h1 a a1 hs).append_right _

theorem load_body_placed {F : Type} [Add F] [Mul F] [OfNat F 2] (cfg : LoadConfig)
    (n : Int) (k : Nat) (tr : Trace F) :
    ∃ K : List (Placed F), ∀ a a' : Loader F, load_body cfg n k tr a = Except.ok a' →
      (a'.tasks.map task_key).Perm ((a.tasks ++ K).map task_key) := by
  obtain ⟨K1, h1⟩ := load_lines_placed (load_task cfg n k) (load_task_placed cfg n k)
    (tr.tasks.take tr.m_num_task.toNat)
  obtain ⟨K2, h2⟩ := load_lines_placed (load_edge cfg k) (load_edge_placed cfg k)
    (tr.edges.take tr.m_num_edge.toNat)
  refine ⟨K1 ++ K2, ?_⟩
  intro a a' h
  unfold load_body at h
  cases hh : load_head_tasks k tr a with
  | none =>
    rw [hh] at h
    cases h
  | some a1 =>
    rw [hh] at h
    simp only at h
    have ht1 := (load_head_tasks_heads k tr a a1 hh).1
    cases ht : load_lines (load_task cfg n k) a1 (tr.tasks.take tr.m_num_task.toNat) with
    | error e =>
      rw [ht] at h
      cases h
    | ok a2 =>
      rw [ht] at h
      simp only at h
      cases he : load_lines (load_edge cfg k) a2 (tr.edges.take tr.m_num_edge.toNat) with
      | error e =>
        rw [he] at h
        cases h
      | ok a3 =>
        rw [he] at h
        simp only [Except.ok.injEq] at h
        rw [← h]
        simp only
        have hsort : ((sort_task_list a3.tasks).map task_key).Perm (a3.tasks.map task_key) := by
          unfold sort_task_list
          exact (List.perm_insertionSort _ a3.tasks).map task_key
        refine hsort.trans ((h2 a2 a3 he).trans ?_)
        rw [List.map_append, ← List.append_assoc, List.map_append _ (a.tasks ++ K1), ← ht1]
        exact (h1 a1 a2 ht).append_right _

theorem load_application_placed {F : Type} [Add F] [Mul F] [OfNat F 2] (cfg : LoadConfig)
    (k : Nat) (trace : Option (Trace F)) :
    ∃ K : List (Placed F), ∀ a a' : Loader F, load_application cfg k trace a = Except.ok a' →
      (a'.tasks.map task_key).Perm ((a.tasks ++ K).map task_key) := by
  cases trace with
  | none =>
    refine ⟨[], ?_⟩
    intro a a' h
    unfold load_application at h
    cases h
  | some tr =>
    obtain ⟨K, hK⟩ := load_body_placed cfg (cfg.m_applicaton_execution_iterations.getD k 0) k tr
    refine ⟨K, ?_⟩
    intro a a' h
    unfold load_application at h
    simp only at h
    by_cases ht : trace_type_check tr = true
    · rw [if_pos ht] at h
      cases hc : counts_check tr.m_num_task tr.m_num_edge tr.m_num_proc
          cfg.m_applicaton_execution_iterations[k]? with
      | none =>
        rw [hc] at h
        cases h
      | some ok =>
        rw [hc] at h
        cases ok with
        | false => cases h
        | true =>
          simp only at h
          have hb := hK _ a' h
          exact hb
    · rw [if_neg ht] at h
      cases h

/-- What a pass of the loop over the applications adds to the task lists is
fixed by the roster and the trace files: the keys of the tasks after the pass
are the keys before it and, with their multiplicity, the keys of a list that
does not depend on the state the pass started from. -/
theorem load_applications_placed {F : Type} [Add F] [Mul F] [OfNat F 2] (cfg : LoadConfig)
    (traces : List (Option (Trace F))) (k : Nat) :
    ∃ K : List (Placed F), ∀ a a' : Loader F,
      load_applications cfg k traces a = Except.ok a' →
      (a'.tasks.map task_key).Perm ((a.tasks ++ K).map task_key) := by
  induction traces generalizing k with
  | nil =>
    refine ⟨[], ?_⟩
    intro a a' h
    unfold load_applications at h
    simp only [Except.ok.injEq] at h
    rw [← h, List.append_nil]
  | cons t rest ih =>
    obtain ⟨K1, h1⟩ := load_application_placed cfg k t
    obtain ⟨K2, h2⟩ := ih (k + 1)
    refine ⟨K1 ++ K2, ?_⟩
    intro a a' h
    unfold load_applications at h
    cases hs : load_application cfg k t a with
    | error e =>
      rw [hs] at h
      cases h
    | ok a1 =>
      rw [hs] at h
      refine (h2 a1 a' h).trans ?_
      rw [List.map_append, ← List.append_assoc, List.map_append _ (a.tasks ++ K1)]
      exact (h1 a a1 hs).append_right _

theorem wrap32_wrap32_add (a b : Int) : wrap32 (wrap32 a + b) = wrap32 (a + b) := by
  unfold wrap32
  omega

theorem wrap32_add_wrap32 (a b : Int) : wrap32 (a + wrap32 b) = wrap32 (a + b) := by
  unfold wrap32
  omega

theorem wrap32_zero : wrap32 0 = 0 := by decide

/-- A loop that keeps an invariant: when the invariant holds at the start and
every pass inside the bounds is defined and re-establishes it, the loop is
defined and the invariant holds at the end. -/
theorem for_loop_invariant {σ : Type} (body : Nat → σ → Option σ) (P : Nat → σ → Prop)
    (n i0 : Nat) (s0 : σ) (h0 : P i0 s0)
    (hstep : ∀ (i : Nat) (s : σ), i0 ≤ i → i < i0 + n → P i s →
      ∃ s' : σ, body i s = some s' ∧ P (i + 1) s') :
    ∃ s' : σ, for_loop body n i0 s0 = some s' ∧ P (i0 + n) s' := by
  induction n generalizing i0 s0 with
  | zero => exact ⟨s0, rfl, h0⟩
  | succ n ih =>
    obtain ⟨s1, hb, hP⟩ := hstep i0 s0 (le_refl _) (by omega) h0
    obtain ⟨s2, hl, hP2⟩ := ih (i0 + 1) s1 hP (fun i s hi hlt hp =>
      hstep i s (by omega) (by omega) hp)
    refine ⟨s2, ?_, ?_⟩
    · unfold for_loop
      rw [hb]
      exact hl
    · have e : i0 + (n + 1) = i0 + 1 + n := by omega
      rw [e]
      exact hP2

theorem foldl_wrap32 (t : Nat → Int) (l : List Nat) (s : Int) :
    l.foldl (fun a m => wrap32 (a + t m)) (wrap32 s) = wrap32 (s + (l.map t).sum) := by
  induction l generalizing s with
  | nil => simp
  | cons x rest ih =>
    rw [List.foldl_cons, wrap32_wrap32_add, ih (s + t x), List.map_cons, List.sum_cons,
      add_assoc]

theorem add_waiting_times_wrap32 (n : Int) (t : Nat → Int) (s : Int) :
    add_waiting_times n t (wrap32 s) = wrap32 (s + ((List.range n.toNat).map t).sum) := by
  unfold add_waiting_times
  exact foldl_wrap32 t _ s

theorem task_waiting_total_snoc (n : Int) (l : List (Nat → Int)) (t : Nat → Int) :
    task_waiting_total n (l ++ [t]) =
      task_waiting_total n l + ((List.range n.toNat).map t).sum := by
  unfold task_waiting_total
  simp

theorem take_succ_of_getElem? {α : Type} (l : List α) (k : Nat) (x : α)
    (h : l[k]? = some x) : l.take (k + 1) = l.take k ++ [x] := by
  rw [List.take_succ, h]
  rfl

/-- The loop over the tasks of a core: when the lookup by the id of the core
finds the core `c`, the accumulator ends as the 32-bit sum of the waiting
times of the tasks of `c` over the iterations of the application. -/
theorem core_task_waiting_time_eq (net : WaitingNet) (ni : NetworkInterface)
    (c : CoreTasks) (app : Nat) (n : Int)
    (hfind : ni.cores.find? (fun d => decide (d.core_id = c.core_id)) = some c)
    (hit : net.m_applicaton_execution_iterations[app]? = some n) :
    core_task_waiting_time net ni c.core_id app (c.task_list app).length =
      some (wrap32 (task_waiting_total n (c.task_list app))) := by
  unfold core_task_waiting_time
  obtain ⟨acc, hl, hP⟩ := for_loop_invariant (waiting_task net ni c.core_id app)
    (fun l acc => acc = wrap32 (task_waiting_total n ((c.task_list app).take l)))
    (c.task_list app).length 0 0 (by simp [task_waiting_total, wrap32_zero])
    (by
      intro l acc _ hlt hacc
      have hl : l < (c.task_list app).length := by omega
      have hget : ni.get_task_by_offset c.core_id app l = some ((c.task_list app)[l]) := by
        unfold NetworkInterface.get_task_by_offset
        rw [hfind]
        exact List.getElem?_eq_getElem hl
      refine ⟨add_waiting_times n ((c.task_list app)[l]) acc, ?_, ?_⟩
      · unfold waiting_task
        simp only [hget, hit]
      · show add_waiting_times n ((c.task_list app)[l]) acc =
          wrap32 (task_waiting_total n ((c.task_list app).take (l + 1)))
        rw [hacc, add_waiting_times_wrap32,
          take_succ_of_getElem? _ l _ (List.getElem?_eq_getElem hl), task_waiting_total_snoc])
  rw [hl, hP, Nat.zero_add, List.take_length]

theorem find_core_of_nodup (L : List CoreTasks) (k : Nat) (c : CoreTasks)
    (hnodup : (L.map (fun c => c.core_id)).Nodup) (hk : L[k]? = some c) :
    L.find? (fun d => decide (d.core_id = c.core_id)) = some c := by
  induction L generalizing k with
  | nil => simp at hk
  | cons d rest ih =>
    rw [List.map_cons, List.nodup_cons] at hnodup
    cases k with
    | zero =>
      simp only [List.getElem?_cons_zero, Option.some.injEq] at hk
      rw [hk]
      simp
    | succ k =>
      simp only [List.getElem?_cons_succ] at hk
      have hmem : c.core_id ∈ rest.map (fun c => c.core_id) :=
        List.mem_map.mpr ⟨c, List.getElem?_mem hk, rfl⟩
      have hne : ¬ d.core_id = c.core_id := by
        intro e
        rw [e] at hnodup
        exact hnodup.1 hmem
      rw [List.find?_cons]
      simp only [hne, decide_False]
      exact ih k hnodup.2 hk

/-- One pass of the loop over the cores, for a core whose id is inside the
core arrays and found by the lookup. -/
theorem waiting_core_eq (net : WaitingNet) (app : Nat) (ni : NetworkInterface) (k : Nat)
    (c : CoreTasks) (n : Int) (st : WaitingReport × Int)
    (hk : ni.cores[k]? = some c)
    (hfind : ni.cores.find? (fun d => decide (d.core_id = c.core_id)) = some c)
    (hit : net.m_applicaton_execution_iterations[app]? = some n)
    (hr : 0 ≤ c.core_id ∧ c.core_id < net.m_num_core) :
    waiting_core net app ni k st =
      some ({ st.1 with
          core_waiting_time := Function.update st.1.core_waiting_time app
            (Function.update (st.1.core_waiting_time app) c.core_id
              (wrap32 (task_waiting_total n (c.task_list app))))
          core_waiting_name := Function.update st.1.core_waiting_name c.core_id c.core_name
          total_core_waiting_time := Function.update st.1.total_core_waiting_time c.core_id
            (wrap32 (st.1.total_core_waiting_time c.core_id +
              wrap32 (task_waiting_total n (c.task_list app)))) },
        wrap32 (st.2 + wrap32 (task_waiting_total n (c.task_list app)))) := by
  unfold waiting_core NetworkInterface.get_task_list_length
    NetworkInterface.get_core_id_by_index NetworkInterface.get_core_name_by_index
  simp only [hk, Option.map_some']
  rw [core_task_waiting_time_eq net ni c app n hfind hit]
  simp only [hr, and_self, if_true]

theorem cores_effect_nil (app : Nat) (W : CoreTasks → Int) (r : WaitingReport) :
    cores_effect app W [] r r := by
  refine ⟨?_, ?_, ?_, ?_⟩
  · intro c hc
    cases hc
  · intro a x _
    rfl
  · intro c hc
    cases hc
  · intro x _
    rfl

theorem cores_effect_append (app : Nat) (W : CoreTasks → Int) (L1 L2 : List CoreTasks)
    (r r1 r2 : WaitingReport)
    (hdisj : ∀ c1 ∈ L1, ∀ c2 ∈ L2, c1.core_id ≠ c2.core_id)
    (h1 : cores_effect app W L1 r r1) (h2 : cores_effect app W L2 r1 r2) :
    cores_effect app W (L1 ++ L2) r r2 := by
  obtain ⟨a1, b1, c1, d1⟩ := h1
  obtain ⟨a2, b2, c2, d2⟩ := h2
  refine ⟨?_, ?_, ?_, ?_⟩
  · intro c hc
    rcases List.mem_append.mp hc with h | h
    · rw [b2 app c.core_id (Or.inr (fun c' hc' e => hdisj c h c' hc' e.symm))]
      exact a1 c h
    · exact a2 c h
  · intro a x hax
    rw [b2 a x (hax.imp id (fun h c hc => h c (List.mem_append.mpr (Or.inr hc)))),
      b1 a x (hax.imp id (fun h c hc => h c (List.mem_append.mpr (Or.inl hc))))]
  · intro c hc
    rcases List.mem_append.mp hc with h | h
    · rw [d2 c.core_id (fun c' hc' e => hdisj c h c' hc' e.symm)]
      exact c1 c h
    · rw [c2 c h, d1 c.core_id (fun c' hc' e => hdisj c' hc' c h e)]
  · intro x hx
    rw [d2 x (fun c hc => hx c (List.mem_append.mpr (Or.inr hc))),
      d1 x (fun c hc => hx c (List.mem_append.mpr (Or.inl hc)))]

/-- The loop over the cores of an interface whose core ids are distinct and
inside the core arrays. -/
theorem waiting_cores_effect (net : WaitingNet) (app : Nat) (ni : NetworkInterface)
    (n : Int) (r : WaitingReport)
    (hnodup : (ni.cores.map (fun c => c.core_id)).Nodup)
    (hrange : ∀ c ∈ ni.cores, 0 ≤ c.core_id ∧ c.core_id < net.m_num_core)
    (hit : net.m_applicaton_execution_iterations[app]? = some n) :
    ∃ st : WaitingReport × Int,
      for_loop (waiting_core net app ni) ni.get_num_cores 0 (r, 0) = some st ∧
      cores_effect app (fun c => wrap32 (task_waiting_total n (c.task_list app)))
        ni.cores r st.1 ∧
      st.1.node_waiting_time = r.node_waiting_time ∧
      st.1.total_node_waiting_time = r.total_node_waiting_time ∧
      st.2 = wrap32 ((ni.cores.map
        (fun c => wrap32 (task_waiting_total n (c.task_list app)))).sum) := by
  obtain ⟨st, hl, hP⟩ := for_loop_invariant (waiting_core net app ni)
    (fun k st =>
      cores_effect app (fun c => wrap32 (task_waiting_total n (c.task_list app)))
        (ni.cores.take k) r st.1 ∧
      st.1.node_waiting_time = r.node_waiting_time ∧
      st.1.total_node_waiting_time = r.total_node_waiting_time ∧
      st.2 = wrap32 (((ni.cores.take k).map
        (fun c => wrap32 (task_waiting_total n (c.task_list app)))).sum))
    ni.get_num_cores 0 (r, 0)
    ⟨cores_effect_nil app _ r, rfl, rfl, by simp [wrap32_zero]⟩
    (by
      intro k st _ hlt hinv
      obtain ⟨he, hn1, hn2, hs⟩ := hinv
      have hk : k < ni.cores.length := by
        unfold NetworkInterface.get_num_cores at hlt
        omega
      have hget : ni.cores[k]? = some (ni.cores[k]) := List.getElem?_eq_getElem hk
      have hmem : ni.cores[k] ∈ ni.cores := List.getElem_mem hk
      have htake := take_succ_of_getElem? ni.cores k _ hget
      have hnd : ((ni.cores.take k ++ [ni.cores[k]]).map (fun c => c.core_id)).Nodup := by
        rw [← htake]
        exact hnodup.sublist ((List.take_sublist (k + 1) ni.cores).map _)
      rw [List.map_append, List.nodup_append] at hnd
      have hdisj : ∀ c1 ∈ ni.cores.take k, ∀ c2 ∈ [ni.cores[k]],
          c1.core_id ≠ c2.core_id := by
        intro c1 h1 c2 h2 e
        exact hnd.2.2 (List.mem_map.mpr ⟨c1, h1, rfl⟩) (List.mem_map.mpr ⟨c2, h2, e.symm⟩)
      refine ⟨_, waiting_core_eq net app ni k (ni.cores[k]) n st hget
        (find_core_of_nodup ni.cores k _ hnodup hget) hit (hrange _ hmem), ?_, hn1, hn2, ?_⟩
      · rw [htake]
        refine cores_effect_append app _ _ _ r st.1 _ hdisj he ?_
        refine ⟨?_, ?_, ?_, ?_⟩
        · intro c hc
          rw [List.mem_singleton] at hc
          subst hc
          simp only [Function.update_same]
        · intro a x hax
          simp only [Function.update_apply]
          by_cases ha : a = app
          · subst ha
            have hx : ¬ x = (ni.cores[k]).core_id := by
              rcases hax with h | h
              · exact absurd rfl h
              · exact fun e => h _ (List.mem_singleton.mpr rfl) e.symm
            simp only [if_true, Function.update_noteq hx]
          · simp only [ha, if_false]
        · intro c hc
          rw [List.mem_singleton] at hc
          subst hc
          simp only [Function.update_same]
        · intro x hx
          have hx2 : x ≠ (ni.cores[k]).core_id :=
            fun e => hx _ (List.mem_singleton.mpr rfl) e.symm
          simp only [Function.update_noteq hx2]
      · show wrap32 (st.2 + _) = _
        rw [hs, wrap32_wrap32_add, htake, List.map_append, List.sum_append]
        simp)
  refine ⟨st, hl, ?_⟩
  unfold NetworkInterface.get_num_cores at hP
  rw [Nat.zero_add, List.take_length] at hP
  exact hP

theorem visited_split (cores : Nat → List CoreTasks) (N j : Nat) (hj : j < N) :
    ∃ rest : List CoreTasks,
      (List.range N).flatMap cores = ((List.range j).flatMap cores ++ cores j) ++ rest := by
  refine ⟨((List.range (N - (j + 1))).map (fun i => j + 1 + i)).flatMap cores, ?_⟩
  have e : N = (j + 1) + (N - (j + 1)) := by omega
  conv_lhs => rw [e]
  rw [List.range_add, List.flatMap_append, List.range_succ, List.flatMap_append]
  simp

theorem visited_succ (cores : Nat → List CoreTasks) (j : Nat) :
    (List.range (j + 1)).flatMap cores = (List.range j).flatMap cores ++ cores j := by
  rw [List.range_succ, List.flatMap_append]
  simp

theorem visited_nodup (cores : Nat → List CoreTasks) (N j : Nat) (hj : j < N)
    (h : (((List.range N).flatMap cores).map (fun c => c.core_id)).Nodup) :
    ((cores j).map (fun c => c.core_id)).Nodup ∧
    ∀ c1 ∈ (List.range j).flatMap cores, ∀ c2 ∈ cores j, c1.core_id ≠ c2.core_id := by
  obtain ⟨rest, hrest⟩ := visited_split cores N j hj
  rw [hrest, List.map_append, List.map_append] at h
  have h1 := h.of_append_left
  rw [List.nodup_append] at h1
  refine ⟨h1.2.1, ?_⟩
  intro c1 hc1 c2 hc2 e
  exact h1.2.2 (List.mem_map.mpr ⟨c1, hc1, rfl⟩) (List.mem_map.mpr ⟨c2, hc2, e.symm⟩)

theorem mem_visited (cores : Nat → List CoreTasks) (N j : Nat) (hj : j < N)
    (c : CoreTasks) (hc : c ∈ cores j) : c ∈ (List.range N).flatMap cores :=
  List.mem_flatMap.mpr ⟨j, List.mem_range.mpr hj, hc⟩

/-- One pass of the loop over the nodes. -/
theorem waiting_node_effect (net : WaitingNet) (app j : Nat) (ni : NetworkInterface)
    (n : Int) (r : WaitingReport)
    (hj : net.m_nis[j]? = some ni)
    (hnodup : (ni.cores.map (fun c => c.core_id)).Nodup)
    (hrange : ∀ c ∈ ni.cores, 0 ≤ c.core_id ∧ c.core_id < net.m_num_core)
    (hit : net.m_applicaton_execution_iterations[app]? = some n) :
    ∃ r1 : WaitingReport, waiting_node net app j r = some r1 ∧
      cores_effect app (fun c => wrap32 (task_waiting_total n (c.task_list app)))
        ni.cores r r1 ∧
      r1.node_waiting_time app j = wrap32 ((ni.cores.map
        (fun c => wrap32 (task_waiting_total n (c.task_list app)))).sum) ∧
      (∀ a i : Nat, (a ≠ app ∨ i ≠ j) →
        r1.node_waiting_time a i = r.node_waiting_time a i) ∧
      r1.total_node_waiting_time j = wrap32 (r.total_node_waiting_time j +
        wrap32 ((ni.cores.map
          (fun c => wrap32 (task_waiting_total n (c.task_list app)))).sum)) ∧
      (∀ i : Nat, i ≠ j → r1.total_node_waiting_time i = r.total_node_waiting_time i) := by
  obtain ⟨st, hl, he, hn1, hn2, hs⟩ := waiting_cores_effect net app ni n r hnodup hrange hit
  unfold waiting_node
  rw [hj]
  simp only
  rw [hl]
  refine ⟨_, rfl, he, ?_, ?_, ?_, ?_⟩
  · simp only [Function.update_same, hs]
  · intro a i hai
    simp only [Function.update_apply, hn1]
    by_cases ha : a = app
    · subst ha
      have hi : ¬ i = j := by
        rcases hai with h | h
        · exact absurd rfl h
        · exact h
      simp only [if_true, Function.update_noteq hi]
    · simp only [ha, if_false]
  · simp only [Function.update_same, hs, hn2]
  · intro i hi
    simp only [Function.update_noteq hi, hn2]

/-- The loop over the nodes for one application, when the first `m_nodes/2`
interfaces exist and their core ids are distinct and inside the core
arrays. -/
theorem waiting_app_effect (net : WaitingNet) (app : Nat) (n : Int) (r : WaitingReport)
    (hnis : (Int.tdiv net.m_nodes 2).toNat ≤ net.m_nis.length)
    (hnodup : (core_ids net).Nodup)
    (hrange : ∀ x ∈ core_ids net, 0 ≤ x ∧ x < net.m_num_core)
    (hit : net.m_applicaton_execution_iterations[app]? = some n) :
    ∃ r1 : WaitingReport, waiting_app net app r = some r1 ∧
      cores_effect app (fun c => wrap32 (task_waiting_total n (c.task_list app)))
        (visited_cores net) r r1 ∧
      nodes_effect app (fun i => wrap32 (((cores_of net i).map
        (fun c => wrap32 (task_waiting_total n (c.task_list app)))).sum))
        (Int.tdiv net.m_nodes 2).toNat r r1 := by
  unfold waiting_app
  unfold core_ids visited_cores at hnodup hrange
  obtain ⟨r1, hl, hP⟩ := for_loop_invariant (waiting_node net app)
    (fun j r1 =>
      cores_effect app (fun c => wrap32 (task_waiting_total n (c.task_list app)))
        ((List.range j).flatMap (cores_of net)) r r1 ∧
      nodes_effect app (fun i => wrap32 (((cores_of net i).map
        (fun c => wrap32 (task_waiting_total n (c.task_list app)))).sum)) j r r1)
    (Int.tdiv net.m_nodes 2).toNat 0 r
    ⟨cores_effect_nil app _ r, fun i hi => absurd hi (Nat.not_lt_zero i), fun _ _ _ => rfl,
      fun i hi => absurd hi (Nat.not_lt_zero i), fun _ _ => rfl⟩
    (by
      intro j s _ hlt hinv
      obtain ⟨he, hv1, hv2, hv3, hv4⟩ := hinv
      have hjN : j < (Int.tdiv net.m_nodes 2).toNat := by omega
      have hjl : j < net.m_nis.length := by omega
      have hget : net.m_nis[j]? = some (net.m_nis[j]) := List.getElem?_eq_getElem hjl
      have hcores : cores_of net j = (net.m_nis[j]).cores := by
        unfold cores_of
        rw [hget]
      obtain ⟨hnd, hdisj⟩ := visited_nodup (cores_of net) _ j hjN hnodup
      rw [hcores] at hnd hdisj
      have hrg : ∀ c ∈ (net.m_nis[j]).cores, 0 ≤ c.core_id ∧ c.core_id < net.m_num_core := by
        intro c hc
        exact hrange c.core_id (List.mem_map.mpr
          ⟨c, mem_visited (cores_of net) _ j hjN c (by rw [hcores]; exact hc), rfl⟩)
      obtain ⟨s1, hs1, e1, e2, e3, e4, e5⟩ :=
        waiting_node_effect net app j (net.m_nis[j]) n s hget hnd hrg hit
      refine ⟨s1, hs1, ?_, ?_, ?_, ?_, ?_⟩
      · rw [visited_succ, hcores]
        exact cores_effect_append app _ _ _ r s s1 hdisj he e1
      · intro i hi
        by_cases hij : i = j
        · subst hij
          simp only [e2, hcores]
        · rw [e3 app i (Or.inr hij)]
          exact hv1 i (by omega)
      · intro a i hai
        have hai2 : a ≠ app ∨ i ≠ j := hai.imp id (fun h => by omega)
        rw [e3 a i hai2]
        exact hv2 a i (hai.imp id (fun h => by omega))
      · intro i hi
        by_cases hij : i = j
        · subst hij
          simp only [e4, hv4 i (le_refl i), hcores]
        · rw [e5 i hij]
          exact hv3 i (by omega)
      · intro i hi
        rw [e5 i (by omega)]
        exact hv4 i (by omega))
  rw [Nat.zero_add] at hP
  exact ⟨r1, hl, hP.1, hP.2⟩

theorem apps_effect_initial (net : WaitingNet) : apps_effect net 0 WaitingReport.initial := by
  refine ⟨?_, ?_, ?_, ?_, ?_, ?_⟩
  · intro b hb
    exact absurd hb (Nat.not_lt_zero b)
  · intro b x _
    rfl
  · intro x
    simp [WaitingReport.initial, wrap32_zero]
  · intro b hb
    exact absurd hb (Nat.not_lt_zero b)
  · intro b j _
    rfl
  · intro j
    simp [WaitingReport.initial, wrap32_zero]

theorem sum_range_succ_congr (f g : Nat → Int) (a : Nat) (h : ∀ b : Nat, b < a → f b = g b) :
    ((List.range (a + 1)).map f).sum = ((List.range a).map g).sum + f a := by
  rw [List.range_succ, List.map_append, List.sum_append, List.map_singleton,
    List.sum_singleton]
  congr 1
  congr 1
  exact List.map_congr_left (fun b hb => h b (List.mem_range.mp hb))

/-- One pass of the loop over the applications keeps the state of the
arrays. -/
theorem waiting_app_step (net : WaitingNet) (a : Nat) (r : WaitingReport)
    (hnis : (Int.tdiv net.m_nodes 2).toNat ≤ net.m_nis.length)
    (hnodup : (core_ids net).Nodup)
    (hrange : ∀ x ∈ core_ids net, 0 ≤ x ∧ x < net.m_num_core)
    (ha : a < net.m_applicaton_execution_iterations.length)
    (hinv : apps_effect net a r) :
    ∃ r1 : WaitingReport, waiting_app net a r = some r1 ∧ apps_effect net (a + 1) r1 := by
  have hit : net.m_applicaton_execution_iterations[a]? =
      some (net.m_applicaton_execution_iterations.getD a 0) := by
    rw [List.getD_eq_getElem?_getD, List.getElem?_eq_getElem ha]
    rfl
  obtain ⟨r1, hr1, ⟨c1, c2, c3, c4⟩, ⟨v1, v2, v3, v4⟩⟩ :=
    waiting_app_effect net a _ r hnis hnodup hrange hit
  obtain ⟨i1, i2, i3, i4, i5, i6⟩ := hinv
  have hcw : ∀ (b : Nat) (x : Int), b < a →
      r1.core_waiting_time b x = r.core_waiting_time b x :=
    fun b x hb => c2 b x (Or.inl (by omega))
  have hnw : ∀ b j : Nat, b < a → r1.node_waiting_time b j = r.node_waiting_time b j :=
    fun b j hb => v2 b j (Or.inl (by omega))
  refine ⟨r1, hr1, ?_, ?_, ?_, ?_, ?_, ?_⟩
  · intro b hb c hc
    by_cases hba : b = a
    · subst hba
      exact c1 c hc
    · rw [hcw b _ (by omega)]
      exact i1 b (by omega) c hc
  · intro b x hbx
    rw [c2 b x (hbx.imp (fun h => by omega) id)]
    exact i2 b x (hbx.imp (fun h => by omega) id)
  · intro x
    rw [sum_range_succ_congr _ (fun b => r.core_waiting_time b x) a (fun b hb => hcw b x hb)]
    by_cases hx : ∃ c ∈ visited_cores net, c.core_id = x
    · obtain ⟨c, hc, hcx⟩ := hx
      subst hcx
      rw [c3 c hc, c1 c hc, i3, wrap32_wrap32_add]
    · have hx2 : ∀ c ∈ visited_cores net, c.core_id ≠ x := fun c hc e => hx ⟨c, hc, e⟩
      rw [c4 x hx2, c2 a x (Or.inr hx2), i2 a x (Or.inl (le_refl a)), add_zero]
      exact i3 x
  · intro b hb j hj
    by_cases hba : b = a
    · subst hba
      rw [v1 j hj]
      simp only
      congr 2
      refine List.map_congr_left (fun c hc => ?_)
      rw [c1 c (mem_visited (cores_of net) _ j hj c hc)]
    · rw [hnw b j (by omega), i4 b (by omega) j hj]
      congr 2
      exact List.map_congr_left (fun c _ => (hcw b _ (by omega)).symm)
  · intro b j hbj
    rw [v2 b j (hbj.imp (fun h => by omega) id)]
    exact i5 b j (hbj.imp (fun h => by omega) id)
  · intro j
    rw [sum_range_succ_congr _ (fun b => r.node_waiting_time b j) a (fun b hb => hnw b j hb)]
    by_cases hj : j < (Int.tdiv net.m_nodes 2).toNat
    · rw [v3 j hj, v1 j hj, i6, wrap32_wrap32_add]
    · rw [v4 j (by omega), v2 a j (Or.inr (by omega)), i5 a j (Or.inl (le_refl a)), add_zero]
      exact i6 j

/-- The whole computation of `PrintTaskWaitingInfo` is defined and ends in the
state `apps_effect` describes for all the applications. -/
theorem PrintTaskWaitingInfo_effect (net : WaitingNet)
    (hcore : 0 ≤ net.m_num_core) (hnodes : 0 ≤ net.m_nodes)
    (hnis : (Int.tdiv net.m_nodes 2).toNat ≤ net.m_nis.length)
    (hiter : net.m_num_application ≤ net.m_applicaton_execution_iterations.length)
    (hnodup : (core_ids net).Nodup)
    (hrange : ∀ x ∈ core_ids net, 0 ≤ x ∧ x < net.m_num_core) :
    ∃ r : WaitingReport, PrintTaskWaitingInfo net = some r ∧
      apps_effect net net.m_num_application r := by
  obtain ⟨r, hl, hP⟩ := for_loop_invariant (waiting_app net) (fun a r => apps_effect net a r)
    net.m_num_application 0 WaitingReport.initial (apps_effect_initial net)
    (fun a r _ hlt hinv =>
      waiting_app_step net a r hnis hnodup hrange (by omega) hinv)
  rw [Nat.zero_add] at hP
  refine ⟨r, ?_, hP⟩
  unfold PrintTaskWaitingInfo
  have h2 : ¬ (net.m_num_core < 0 ∨ Int.tdiv net.m_nodes 2 < 0) := by
    have : 0 ≤ Int.tdiv net.m_nodes 2 := Int.tdiv_nonneg hnodes (by decide)
    omega
  rw [if_neg h2]
  exact hl

theorem wrap32_modEq (a : Int) : wrap32 a ≡ a [ZMOD 4294967296] := by
  unfold wrap32 Int.ModEq
  omega

theorem wrap32_eq_of_modEq (a b : Int) (h : a ≡ b [ZMOD 4294967296]) :
    wrap32 a = wrap32 b := by
  unfold wrap32
  unfold Int.ModEq at h
  omega

theorem sum_map_modEq {ι : Type} (l : List ι) (f g : ι → Int)
    (h : ∀ i ∈ l, f i ≡ g i [ZMOD 4294967296]) :
    (l.map f).sum ≡ (l.map g).sum [ZMOD 4294967296] := by
  induction l with
  | nil => exact Int.ModEq.refl _
  | cons x rest ih =>
    rw [List.map_cons, List.map_cons, List.sum_cons, List.sum_cons]
    exact Int.ModEq.add (h x (List.mem_cons_self x rest))
      (ih (fun i hi => h i (List.mem_cons_of_mem x hi)))

theorem sum_map_sum_comm {ι κ : Type} (l1 : List ι) (l2 : List κ) (F : ι → κ → Int) :
    (l1.map (fun i => (l2.map (fun k => F i k)).sum)).sum =
      (l2.map (fun k => (l1.map (fun i => F i k)).sum)).sum := by
  induction l1 with
  | nil => simp
  | cons x rest ih =>
    simp only [List.map_cons, List.sum_cons]
    rw [ih, List.sum_map_add]

theorem sum_map_flatMap {ι κ : Type} (l : List ι) (cores : ι → List κ) (F : κ → Int) :
    ((l.flatMap cores).map F).sum = (l.map (fun j => ((cores j).map F).sum)).sum := by
  induction l with
  | nil => simp
  | cons x rest ih =>
    rw [List.flatMap_cons, List.map_append, List.sum_append, ih, List.map_cons, List.sum_cons]

/-- A function on the core ids that is 0 outside a list of distinct ids of
`[0, M)` has the same sum over `[0, M)` as over the list. -/
theorem sum_range_eq_sum_ids (ids : List Int) (M : Int) (g : Int → Int)
    (hnodup : ids.Nodup) (hrange : ∀ x ∈ ids, 0 ≤ x ∧ x < M)
    (hzero : ∀ x : Int, x ∉ ids → g x = 0) :
    ((List.range M.toNat).map (fun x : Nat => g (x : Int))).sum = (ids.map g).sum := by
  have hnd : ((List.range M.toNat).map (fun x : Nat => (x : Int))).Nodup :=
    (List.nodup_range _).map (fun a b h => by exact_mod_cast h)
  have e1 : ((List.range M.toNat).map (fun x : Nat => g (x : Int))).sum =
      (((List.range M.toNat).map (fun x : Nat => (x : Int))).map g).sum := by
    rw [List.map_map]
    rfl
  rw [e1, ← List.sum_toFinset g hnd, ← List.sum_toFinset g hnodup]
  symm
  apply Finset.sum_subset
  · intro x hx
    rw [List.mem_toFinset] at hx ⊢
    obtain ⟨h0, hM⟩ := hrange x hx
    exact List.mem_map.mpr ⟨x.toNat, List.mem_range.mpr (by omega), by omega⟩
  · intro x _ hx
    rw [List.mem_toFinset] at hx
    exact hzero x hx

/-- The exchange behind the two grand totals: summed over the nodes and
summed over the core ids, the cells of `core_waiting_time` give the same
total. -/
theorem grand_total_exchange (net : WaitingNet) (A : Nat) (cw : Nat → Int → Int)
    (hnodup : (core_ids net).Nodup)
    (hrange : ∀ x ∈ core_ids net, 0 ≤ x ∧ x < net.m_num_core)
    (hzero : ∀ (b : Nat) (x : Int), (∀ c ∈ visited_cores net, c.core_id ≠ x) → cw b x = 0) :
    ((List.range (Int.tdiv net.m_nodes 2).toNat).map (fun j =>
      ((List.range A).map (fun b =>
        ((cores_of net j).map (fun c => cw b c.core_id)).sum)).sum)).sum =
    ((List.range net.m_num_core.toNat).map (fun x : Nat =>
      ((List.range A).map (fun b => cw b (x : Int))).sum)).sum := by
  rw [sum_map_sum_comm, sum_map_sum_comm (List.range net.m_num_core.toNat)]
  congr 1
  refine List.map_congr_left (fun b _ => ?_)
  rw [← sum_map_flatMap, sum_range_eq_sum_ids (core_ids net) net.m_num_core (cw b) hnodup hrange
    (fun x hx => hzero b x (fun c hc e => hx (List.mem_map.mpr ⟨c, hc, e⟩)))]
  unfold core_ids visited_cores
  rw [List.map_map]
  rfl

theorem wrap32_of_nonneg (x : Int) (h0 : 0 ≤ x) (h : x ≤ INT_MAX) : wrap32 x = x := by
  unfold INT_MAX at h
  unfold wrap32
  omega

theorem core_waiting_total_nonneg (net : WaitingNet) (a : Nat) (c : CoreTasks)
    (h : ∀ t ∈ c.task_list a, ∀ m : Nat,
      m < (net.m_applicaton_execution_iterations.getD a 0).toNat → 0 ≤ t m) :
    0 ≤ core_waiting_total net a c := by
  unfold core_waiting_total task_waiting_total
  apply List.sum_nonneg
  intro x hx
  obtain ⟨t, ht, rfl⟩ := List.mem_map.mp hx
  apply List.sum_nonneg
  intro y hy
  obtain ⟨m, hm, rfl⟩ := List.mem_map.mp hy
  exact h t ht m (List.mem_range.mp hm)

theorem cores_sum_bounds (net : WaitingNet) (f : CoreTasks → Int)
    (hf : ∀ c ∈ visited_cores net, 0 ≤ f c) (j : Nat)
    (hj : j < (Int.tdiv net.m_nodes 2).toNat) :
    0 ≤ ((cores_of net j).map f).sum ∧
    ((cores_of net j).map f).sum ≤ ((visited_cores net).map f).sum := by
  have hnn : ∀ x ∈ (visited_cores net).map f, 0 ≤ x := by
    intro x hx
    obtain ⟨c, hc, rfl⟩ := List.mem_map.mp hx
    exact hf c hc
  obtain ⟨rest, hrest⟩ := visited_split (cores_of net) _ j hj
  have hsub : ((cores_of net j).map f).Sublist ((visited_cores net).map f) := by
    unfold visited_cores
    rw [hrest]
    exact (((List.sublist_append_right _ _).trans (List.sublist_append_left _ _))).map f
  refine ⟨?_, hsub.sum_le_sum hnn⟩
  apply List.sum_nonneg
  intro x hx
  exact hnn x (hsub.subset hx)

theorem sum_apps_bounds (A : Nat) (f g : Nat → Int) (hf : ∀ b : Nat, b < A → 0 ≤ f b)
    (hfg : ∀ b : Nat, b < A → f b ≤ g b) :
    0 ≤ ((List.range A).map f).sum ∧
    ((List.range A).map f).sum ≤ ((List.range A).map g).sum := by
  refine ⟨?_, List.sum_le_sum (fun b hb => hfg b (List.mem_range.mp hb))⟩
  apply List.sum_nonneg
  intro x hx
  obtain ⟨b, hb, rfl⟩ := List.mem_map.mp hx
  exact hf b (List.mem_range.mp hb)

/-- When no waiting time is negative and the grand total fits an `int`, no
accumulator of the report wraps: every cell holds its sum. -/
theorem apps_effect_exact (net : WaitingNet) (A : Nat) (r : WaitingReport)
    (hinv : apps_effect net A r)
    (hnonneg : ∀ b : Nat, b < A → ∀ c ∈ visited_cores net,
      ∀ t ∈ c.task_list b, ∀ m : Nat,
        m < (net.m_applicaton_execution_iterations.getD b 0).toNat → 0 ≤ t m)
    (hfit : ((List.range A).map (fun b =>
      ((visited_cores net).map (core_waiting_total net b)).sum)).sum ≤ INT_MAX) :
    (∀ b : Nat, b < A → ∀ c ∈ visited_cores net,
      r.core_waiting_time b c.core_id = core_waiting_total net b c) ∧
    (∀ b : Nat, b < A → ∀ j : Nat, j < (Int.tdiv net.m_nodes 2).toNat →
      r.node_waiting_time b j =
        ((cores_of net j).map (fun c => r.core_waiting_time b c.core_id)).sum) ∧
    (∀ x : Int, r.total_core_waiting_time x =
      ((List.range A).map (fun b => r.core_waiting_time b x)).sum) ∧
    (∀ j : Nat, r.total_node_waiting_time j =
      ((List.range A).map (fun b => r.node_waiting_time b j)).sum) := by
  obtain ⟨i1, i2, i3, i4, i5, i6⟩ := hinv
  have hT0 : ∀ b : Nat, b < A → ∀ c ∈ visited_cores net, 0 ≤ core_waiting_total net b c :=
    fun b hb c hc => core_waiting_total_nonneg net b c (hnonneg b hb c hc)
  have hS0 : ∀ b : Nat, b < A →
      0 ≤ ((visited_cores net).map (core_waiting_total net b)).sum := by
    intro b hb
    apply List.sum_nonneg
    intro x hx
    obtain ⟨c, hc, rfl⟩ := List.mem_map.mp hx
    exact hT0 b hb c hc
  have hSG : ∀ b : Nat, b < A →
      ((visited_cores net).map (core_waiting_total net b)).sum ≤ INT_MAX := by
    intro b hb
    refine le_trans (List.single_le_sum ?_ _ ?_) hfit
    · intro x hx
      obtain ⟨b', hb', rfl⟩ := List.mem_map.mp hx
      exact hS0 b' (List.mem_range.mp hb')
    · exact List.mem_map.mpr ⟨b, List.mem_range.mpr hb, rfl⟩
  have hTS : ∀ b : Nat, b < A → ∀ c ∈ visited_cores net,
      core_waiting_total net b c ≤ ((visited_cores net).map (core_waiting_total net b)).sum := by
    intro b hb c hc
    refine List.single_le_sum ?_ _ (List.mem_map.mpr ⟨c, hc, rfl⟩)
    intro x hx
    obtain ⟨c', hc', rfl⟩ := List.mem_map.mp hx
    exact hT0 b hb c' hc'
  have e1 : ∀ b : Nat, b < A → ∀ c ∈ visited_cores net,
      r.core_waiting_time b c.core_id = core_waiting_total net b c := by
    intro b hb c hc
    rw [i1 b hb c hc]
    exact wrap32_of_nonneg _ (hT0 b hb c hc) (le_trans (hTS b hb c hc) (hSG b hb))
  have hcs : ∀ b : Nat, b < A → ∀ j : Nat, j < (Int.tdiv net.m_nodes 2).toNat →
      ((cores_of net j).map (fun c => r.core_waiting_time b c.core_id)).sum =
        ((cores_of net j).map (core_waiting_total net b)).sum := by
    intro b hb j hj
    congr 1
    exact List.map_congr_left (fun c hc => e1 b hb c (mem_visited (cores_of net) _ j hj c hc))
  have e2 : ∀ b : Nat, b < A → ∀ j : Nat, j < (Int.tdiv net.m_nodes 2).toNat →
      r.node_waiting_time b j =
        ((cores_of net j).map (fun c => r.core_waiting_time b c.core_id)).sum := by
    intro b hb j hj
    rw [i4 b hb j hj, hcs b hb j hj]
    obtain ⟨h0, h1⟩ := cores_sum_bounds net (core_waiting_total net b) (hT0 b hb) j hj
    exact wrap32_of_nonneg _ h0 (le_trans h1 (hSG b hb))
  refine ⟨e1, e2, ?_, ?_⟩
  · intro x
    rw [i3 x]
    by_cases hx : ∃ c ∈ visited_cores net, c.core_id = x
    · obtain ⟨c, hc, hcx⟩ := hx
      subst hcx
      have hsum : ((List.range A).map (fun b => r.core_waiting_time b c.core_id)).sum =
          ((List.range A).map (fun b => core_waiting_total net b c)).sum := by
        congr 1
        exact List.map_congr_left (fun b hb => e1 b (List.mem_range.mp hb) c hc)
      rw [hsum]
      obtain ⟨h0, h1⟩ := sum_apps_bounds A (fun b => core_waiting_total net b c)
        (fun b => ((visited_cores net).map (core_waiting_total net b)).sum)
        (fun b hb => hT0 b hb c hc) (fun b hb => hTS b hb c hc)
      exact wrap32_of_nonneg _ h0 (le_trans h1 hfit)
    · have hx2 : ∀ c ∈ visited_cores net, c.core_id ≠ x := fun c hc e => hx ⟨c, hc, e⟩
      have hsum : ((List.range A).map (fun b => r.core_waiting_time b x)).sum = 0 := by
        rw [List.map_congr_left (fun b _ => i2 b x (Or.inr hx2))]
        exact List.sum_map_zero
      rw [hsum]
      exact wrap32_zero
  · intro j
    rw [i6 j]
    by_cases hj : j < (Int.tdiv net.m_nodes 2).toNat
    · have hsum : ((List.range A).map (fun b => r.node_waiting_time b j)).sum =
          ((List.range A).map (fun b =>
            ((cores_of net j).map (core_waiting_total net b)).sum)).sum := by
        congr 1
        refine List.map_congr_left (fun b hb => ?_)
        rw [e2 b (List.mem_range.mp hb) j hj, hcs b (List.mem_range.mp hb) j hj]
      rw [hsum]
      obtain ⟨h0, h1⟩ := sum_apps_bounds A
        (fun b => ((cores_of net j).map (core_waiting_total net b)).sum)
        (fun b => ((visited_cores net).map (core_waiting_total net b)).sum)
        (fun b hb => (cores_sum_bounds net (core_waiting_total net b) (hT0 b hb) j hj).1)
        (fun b hb => (cores_sum_bounds net (core_waiting_total net b) (hT0 b hb) j hj).2)
      exact wrap32_of_nonneg _ h0 (le_trans h1 hfit)
    · have hsum : ((List.range A).map (fun b => r.node_waiting_time b j)).sum = 0 := by
        rw [List.map_congr_left (fun b _ => i5 b j (Or.inr (by omega)))]
        exact List.sum_map_zero
      rw [hsum]
      exact wrap32_zero

/-- The two grand totals of the report agree in 32-bit arithmetic. -/
theorem grand_totals_wrap32 (net : WaitingNet) (A : Nat) (r : WaitingReport)
    (hinv : apps_effect net A r)
    (hnodup : (core_ids net).Nodup)
    (hrange : ∀ x ∈ core_ids net, 0 ≤ x ∧ x < net.m_num_core) :
    wrap32 (((List.range (Int.tdiv net.m_nodes 2).toNat).map
        (fun j => r.total_node_waiting_time j)).sum) =
      wrap32 (((List.range net.m_num_core.toNat).map
        (fun x : Nat => r.total_core_waiting_time (x : Int))).sum) := by
  obtain ⟨_, i2, i3, i4, _, i6⟩ := hinv
  apply wrap32_eq_of_modEq
  have h1 : ((List.range (Int.tdiv net.m_nodes 2).toNat).map
        (fun j => r.total_node_waiting_time j)).sum ≡
      ((List.range (Int.tdiv net.m_nodes 2).toNat).map (fun j =>
        ((List.range A).map (fun b =>
          ((cores_of net j).map (fun c => r.core_waiting_time b c.core_id)).sum)).sum)).sum
      [ZMOD 4294967296] := by
    refine sum_map_modEq _ _ _ (fun j hj => ?_)
    rw [i6 j]
    refine (wrap32_modEq _).trans (sum_map_modEq _ _ _ (fun b hb => ?_))
    rw [i4 b (List.mem_range.mp hb) j (List.mem_range.mp hj)]
    exact wrap32_modEq _
  have h2 : ((List.range net.m_num_core.toNat).map
        (fun x : Nat => r.total_core_waiting_time (x : Int))).sum ≡
      ((List.range net.m_num_core.toNat).map (fun x : Nat =>
        ((List.range A).map (fun b => r.core_waiting_time b (x : Int))).sum)).sum
      [ZMOD 4294967296] := by
    refine sum_map_modEq _ _ _ (fun x _ => ?_)
    rw [i3]
    exact wrap32_modEq _
  refine h1.trans (Int.ModEq.trans ?_ h2.symm)
  rw [grand_total_exchange net A r.core_waiting_time hnodup hrange
    (fun b x hx => i2 b x (Or.inr hx))]

/-- The two grand totals of the report are equal when every cell holds its
sum. -/
theorem grand_totals_exact (net : WaitingNet) (A : Nat) (r : WaitingReport)
    (hinv : apps_effect net A r)
    (hnodup : (core_ids net).Nodup)
    (hrange : ∀ x ∈ core_ids net, 0 ≤ x ∧ x < net.m_num_core)
    (e2 : ∀ b : Nat, b < A → ∀ j : Nat, j < (Int.tdiv net.m_nodes 2).toNat →
      r.node_waiting_time b j =
        ((cores_of net j).map (fun c => r.core_waiting_time b c.core_id)).sum)
    (e3 : ∀ x : Int, r.total_core_waiting_time x =
      ((List.range A).map (fun b => r.core_waiting_time b x)).sum)
    (e4 : ∀ j : Nat, r.total_node_waiting_time j =
      ((List.range A).map (fun b => r.node_waiting_time b j)).sum) :
    ((List.range (Int.tdiv net.m_nodes 2).toNat).map
        (fun j => r.total_node_waiting_time j)).sum =
      ((List.range net.m_num_core.toNat).map
        (fun x : Nat => r.total_core_waiting_time (x : Int))).sum := by
  obtain ⟨_, i2, _, _, _, _⟩ := hinv
  have h1 : (List.range (Int.tdiv net.m_nodes 2).toNat).map
        (fun j => r.total_node_waiting_time j) =
      (List.range (Int.tdiv net.m_nodes 2).toNat).map (fun j =>
        ((List.range A).map (fun b =>
          ((cores_of net j).map (fun c => r.core_waiting_time b c.core_id)).sum)).sum) := by
    refine List.map_congr_left (fun j hj => ?_)
    rw [e4 j]
    congr 1
    exact List.map_congr_left (fun b hb =>
      e2 b (List.mem_range.mp hb) j (List.mem_range.mp hj))
  have h2 : (List.range net.m_num_core.toNat).map
        (fun x : Nat => r.total_core_waiting_time (x : Int)) =
      (List.range net.m_num_core.toNat).map (fun x : Nat =>
        ((List.range A).map (fun b => r.core_waiting_time b (x : Int))).sum) :=
    List.map_congr_left (fun x _ => e3 (x : Int))
  rw [h1, h2]
  exact grand_total_exchange net A r.core_waiting_time hnodup hrange
    (fun b x hx => i2 b x (Or.inr hx))

/-! ## The ratio scheduler: claims C1 to C6 -/

/-- C1: for every non-empty list of positive iteration counts, get_ratio_token
returns the list whose i-th entry is iterations[i] / g, where g is the gcd of
all the counts (g is positive, divides every count, and is divided by every
common divisor of the counts); in particular the input [100,150,50] has
g = 50 and yields [2,3,1]. -/
theorem C1_get_ratio_token_quotients :
    (∀ iterations : List Int, iterations ≠ [] → (∀ x ∈ iterations, 0 < x) →
      ∃ g : Int, 0 < g ∧ (∀ x ∈ iterations, g ∣ x) ∧
        (∀ d : Int, (∀ x ∈ iterations, d ∣ x) → d ∣ g) ∧
        get_ratio_token iterations = some (iterations.map (fun x => x / g))) ∧
    gcd_of_all 100 [100, 150, 50] = 50 ∧
    get_ratio_token [100, 150, 50] = some [2, 3, 1] := by
  refine ⟨?_, by decide, by decide⟩
  intro iterations hne hpos
  obtain ⟨g, hg, hdvd, hres⟩ := get_ratio_token_spec iterations hne hpos
  exact ⟨g, hg, (hdvd g).1 (dvd_refl g), fun d hd => (hdvd d).2 hd, hres⟩

/-- Witness of C1 at the counts [4, 6]: the hypotheses hold there and the
general statement applies. -/
theorem C1_get_ratio_token_quotients_witness :
    ([4, 6] : List Int) ≠ [] ∧ (∀ x ∈ ([4, 6] : List Int), 0 < x) ∧
    ∃ g : Int, 0 < g ∧ (∀ x ∈ ([4, 6] : List Int), g ∣ x) ∧
      (∀ d : Int, (∀ x ∈ ([4, 6] : List Int), d ∣ x) → d ∣ g) ∧
      get_ratio_token [4, 6] = some (([4, 6] : List Int).map (fun x => x / g)) :=
  ⟨by decide, by decide,
    C1_get_ratio_token_quotients.1 [4, 6] (by decide) (by decide)⟩

/-- C2 as stated fails: the counts [2, 3] are non-empty and positive, and no
weight returned for them equals 1 (the weights are [2, 3]). -/
theorem C2_counterexample :
    ([2, 3] : List Int) ≠ [] ∧ (∀ x ∈ ([2, 3] : List Int), 0 < x) ∧
    get_ratio_token [2, 3] = some [2, 3] ∧
    ¬ ∃ out : List Int, get_ratio_token [2, 3] = some out ∧ (1 : Int) ∈ out := by
  refine ⟨by decide, by decide, by decide, ?_⟩
  rintro ⟨out, hout, h1⟩
  have h : get_ratio_token [2, 3] = some [2, 3] := by decide
  rw [h] at hout
  cases hout
  revert h1
  decide

/-- C2 amended: for every non-empty list of positive iteration counts, at
least one weight returned by get_ratio_token equals 1 if and only if some
count divides all the counts (that count is then the gcd). -/
theorem C2_weight_one_iff (iterations : List Int) (hne : iterations ≠ [])
    (hpos : ∀ x ∈ iterations, 0 < x) :
    ∃ out : List Int, get_ratio_token iterations = some out ∧
      ((1 : Int) ∈ out ↔ ∃ x ∈ iterations, ∀ y ∈ iterations, x ∣ y) := by
  obtain ⟨g, hg, hdvd, hres⟩ := get_ratio_token_spec iterations hne hpos
  refine ⟨_, hres, ?_⟩
  have hgx : ∀ x ∈ iterations, g ∣ x := (hdvd g).1 (dvd_refl g)
  simp only [List.mem_map]
  constructor
  · rintro ⟨x, hx, hx1⟩
    refine ⟨x, hx, ?_⟩
    have hxg : x = g := by
      have := (Int.ediv_eq_iff_eq_mul_left (ne_of_gt hg) (hgx x hx)).1 hx1
      simpa using this
    intro y hy
    rw [hxg]
    exact hgx y hy
  · rintro ⟨x, hx, hall⟩
    refine ⟨x, hx, ?_⟩
    have hxg : x = g :=
      Int.dvd_antisymm (le_of_lt (hpos x hx)) (le_of_lt hg) ((hdvd x).2 hall) (hgx x hx)
    rw [hxg]
    exact Int.ediv_self (ne_of_gt hg)

/-- Witness of the amended C2 at the counts [100, 150, 50]. -/
theorem C2_weight_one_iff_witness :
    ∃ out : List Int, get_ratio_token [100, 150, 50] = some out ∧
      ((1 : Int) ∈ out ↔
        ∃ x ∈ ([100, 150, 50] : List Int), ∀ y ∈ ([100, 150, 50] : List Int), x ∣ y) :=
  C2_weight_one_iff [100, 150, 50] (by decide) (by decide)

/-- C3: for every non-empty list of positive iteration counts and all
application indices i, j, the weights returned by get_ratio_token satisfy
weight[i] * iterations[j] = weight[j] * iterations[i]; the division by the
gcd loses no remainder: weight[i] * g = iterations[i]. -/
theorem C3_pairwise_proportional (iterations : List Int) (hne : iterations ≠ [])
    (hpos : ∀ x ∈ iterations, 0 < x) :
    ∃ out : List Int, get_ratio_token iterations = some out ∧
      out.length = iterations.length ∧
      (∀ i j : Nat, i < iterations.length → j < iterations.length →
        out.getD i 0 * iterations.getD j 0 = out.getD j 0 * iterations.getD i 0) ∧
      ∃ g : Int, ∀ i : Nat, i < iterations.length →
        out.getD i 0 * g = iterations.getD i 0 := by
  obtain ⟨g, hg, hdvd, hres⟩ := get_ratio_token_spec iterations hne hpos
  have hgx : ∀ x ∈ iterations, g ∣ x := (hdvd g).1 (dvd_refl g)
  have hex : ∀ i : Nat, i < iterations.length →
      (iterations.map (fun x => x / g)).getD i 0 * g = iterations.getD i 0 := by
    intro i hi
    rw [getD_map_div iterations g i hi]
    exact Int.ediv_mul_cancel (hgx _ (getD_mem iterations i hi))
  refine ⟨_, hres, by simp, ?_, g, hex⟩
  intro i j hi hj
  rw [← hex i hi, ← hex j hj]
  ring

/-- Witness of C3 at the counts [100, 150, 50]. -/
theorem C3_pairwise_proportional_witness :
    ∃ out : List Int, get_ratio_token [100, 150, 50] = some out ∧
      out.length = ([100, 150, 50] : List Int).length ∧
      (∀ i j : Nat, i < ([100, 150, 50] : List Int).length →
        j < ([100, 150, 50] : List Int).length →
        out.getD i 0 * ([100, 150, 50] : List Int).getD j 0
          = out.getD j 0 * ([100, 150, 50] : List Int).getD i 0) ∧
      ∃ g : Int, ∀ i : Nat, i < ([100, 150, 50] : List Int).length →
        out.getD i 0 * g = ([100, 150, 50] : List Int).getD i 0 :=
  C3_pairwise_proportional [100, 150, 50] (by decide) (by decide)

/-- C4: for every non-empty list of positive iteration counts the weights
returned by get_ratio_token have gcd 1 (their gcd fold is 1 and every common
divisor of the weights is 1 or -1), and no positive integer list proportional
to the counts is smaller: each such list is entrywise at least the weights. -/
theorem C4_minimal_ratio (iterations : List Int) (hne : iterations ≠ [])
    (hpos : ∀ x ∈ iterations, 0 < x) :
    ∃ out : List Int, get_ratio_token iterations = some out ∧
      out.length = iterations.length ∧
      out.foldl gcd 0 = 1 ∧
      (∀ d : Int, (∀ w ∈ out, d ∣ w) → d = 1 ∨ d = -1) ∧
      (∀ v : List Int, v.length = iterations.length → (∀ y ∈ v, 0 < y) →
        (∀ i j : Nat, i < iterations.length → j < iterations.length →
          v.getD i 0 * iterations.getD j 0 = v.getD j 0 * iterations.getD i 0) →
        ∀ i : Nat, i < iterations.length → out.getD i 0 ≤ v.getD i 0) := by
  obtain ⟨g, hg, hdvd, hres⟩ := get_ratio_token_spec iterations hne hpos
  have hgx : ∀ x ∈ iterations, g ∣ x := (hdvd g).1 (dvd_refl g)
  have hunit : ∀ d : Int, (∀ w ∈ iterations.map (fun x => x / g), d ∣ w) →
      d = 1 ∨ d = -1 := by
    intro d hd
    have hdg : d * g ∣ g := by
      apply (hdvd (d * g)).2
      intro x hx
      have hw : d ∣ x / g := hd _ (List.mem_map.2 ⟨x, hx, rfl⟩)
      have hxe : x / g * g = x := Int.ediv_mul_cancel (hgx x hx)
      rw [← hxe]
      exact mul_dvd_mul_right hw g
    have hd1 : d ∣ 1 := by
      have h' : d * g ∣ 1 * g := by simpa using hdg
      exact (mul_dvd_mul_iff_right (ne_of_gt hg)).1 h'
    exact Int.isUnit_iff.1 (isUnit_of_dvd_one hd1)
  refine ⟨_, hres, by simp, ?_, hunit, ?_⟩
  · have h0 : 0 ≤ (iterations.map (fun x => x / g)).foldl gcd 0 :=
      foldl_gcd_nonneg _ 0 (le_refl 0)
    have hall : ∀ w ∈ iterations.map (fun x => x / g),
        (iterations.map (fun x => x / g)).foldl gcd 0 ∣ w :=
      ((foldl_gcd_dvd_iff _ 0 _).1 (dvd_refl _)).2
    rcases hunit _ hall with h | h
    · exact h
    · omega
  · intro v hlen hv hprop i hi
    have hvi : 0 < v.getD i 0 := hv _ (getD_mem v i (by omega))
    have hxi : iterations.getD i 0 ∈ iterations := getD_mem iterations i hi
    have hxe : iterations.getD i 0 / g * g = iterations.getD i 0 :=
      Int.ediv_mul_cancel (hgx _ hxi)
    have hstep : iterations.getD i 0 ∣ v.getD i 0 * iterations.foldl gcd 0 := by
      rw [foldl_gcd_mul_dvd_iff]
      refine ⟨by simp, ?_⟩
      intro x hx
      obtain ⟨j, hj, hxj⟩ := List.mem_iff_getElem.1 hx
      have hxj' : iterations.getD j 0 = x := by
        rw [List.getD_eq_getElem _ _ hj]; exact hxj
      rw [← hxj', hprop i j hi hj]
      exact Dvd.intro_left _ rfl
    rw [← eq_foldl_gcd_of_divisors iterations g hg hdvd] at hstep
    have hw : iterations.getD i 0 / g ∣ v.getD i 0 := by
      have h' : iterations.getD i 0 / g * g ∣ v.getD i 0 * g := by
        rw [hxe]; exact hstep
      exact (mul_dvd_mul_iff_right (ne_of_gt hg)).1 h'
    rw [getD_map_div iterations g i hi]
    exact Int.le_of_dvd hvi hw

/-- Witness of C4 at the counts [100, 150, 50]. -/
theorem C4_minimal_ratio_witness :
    ∃ out : List Int, get_ratio_token [100, 150, 50] = some out ∧
      out.length = ([100, 150, 50] : List Int).length ∧
      out.foldl gcd 0 = 1 ∧
      (∀ d : Int, (∀ w ∈ out, d ∣ w) → d = 1 ∨ d = -1) ∧
      (∀ v : List Int, v.length = ([100, 150, 50] : List Int).length →
        (∀ y ∈ v, 0 < y) →
        (∀ i j : Nat, i < ([100, 150, 50] : List Int).length →
          j < ([100, 150, 50] : List Int).length →
          v.getD i 0 * ([100, 150, 50] : List Int).getD j 0
            = v.getD j 0 * ([100, 150, 50] : List Int).getD i 0) →
        ∀ i : Nat, i < ([100, 150, 50] : List Int).length →
          out.getD i 0 ≤ v.getD i 0) :=
  C4_minimal_ratio [100, 150, 50] (by decide) (by decide)

/-- C5: get_ratio_token is invariant to input permutation: for every non-empty
list of positive iteration counts and every permutation of it, both runs
return, the outputs are permutations of each other, and whenever position i of
the permuted input holds the application of position j of the original input,
the weight at position i of the new output is the weight at position j of the
old output. -/
theorem C5_permutation_invariant (iterations iterations' : List Int)
    (hne : iterations ≠ []) (hpos : ∀ x ∈ iterations, 0 < x)
    (hperm : iterations.Perm iterations') :
    ∃ out out' : List Int, get_ratio_token iterations = some out ∧
      get_ratio_token iterations' = some out' ∧
      out.length = iterations.length ∧ out'.length = iterations'.length ∧
      out.Perm out' ∧
      ∀ i j : Nat, i < iterations'.length → j < iterations.length →
        iterations'.getD i 0 = iterations.getD j 0 → out'.getD i 0 = out.getD j 0 := by
  have hne' : iterations' ≠ [] := by
    intro h
    rw [h] at hperm
    exact hne hperm.eq_nil
  have hpos' : ∀ x ∈ iterations', 0 < x := fun x hx => hpos x (hperm.mem_iff.2 hx)
  obtain ⟨g, hg, hdvd, hres⟩ := get_ratio_token_spec iterations hne hpos
  obtain ⟨g', hg', hdvd', hres'⟩ := get_ratio_token_spec iterations' hne' hpos'
  have hgg : g' = g := by
    apply eq_of_same_divisors g' g hg' hg
    intro d
    rw [hdvd d, hdvd' d]
    constructor
    · intro h x hx
      exact h x (hperm.mem_iff.1 hx)
    · intro h x hx
      exact h x (hperm.mem_iff.2 hx)
  rw [hgg] at hres'
  refine ⟨_, _, hres, hres', by simp, by simp, hperm.map _, ?_⟩
  intro i j hi hj hij
  rw [getD_map_div iterations' g i hi, getD_map_div iterations g j hj, hij]

/-- Witness of C5: the counts [100, 150, 50] and their rearrangement
[50, 100, 150]. -/
theorem C5_permutation_invariant_witness :
    ∃ out out' : List Int, get_ratio_token [100, 150, 50] = some out ∧
      get_ratio_token [50, 100, 150] = some out' ∧
      out.length = ([100, 150, 50] : List Int).length ∧
      out'.length = ([50, 100, 150] : List Int).length ∧
      out.Perm out' ∧
      ∀ i j : Nat, i < ([50, 100, 150] : List Int).length →
        j < ([100, 150, 50] : List Int).length →
        ([50, 100, 150] : List Int).getD i 0 = ([100, 150, 50] : List Int).getD j 0 →
        out'.getD i 0 = out.getD j 0 :=
  C5_permutation_invariant [100, 150, 50] [50, 100, 150] (by decide) (by decide)
    (by decide)

/-- C6: for every non-empty list of positive iteration counts of length n,
get_ratio_token returns a list of exactly n entries, every one of which is a
positive integer, and the divisor gcd_of_all is positive, so the division
never divides by zero. -/
theorem C6_length_and_positive (iterations : List Int) (hne : iterations ≠ [])
    (hpos : ∀ x ∈ iterations, 0 < x) :
    0 < gcd_of_all (iterations.headD 0) iterations ∧
    ∃ out : List Int, get_ratio_token iterations = some out ∧
      out.length = iterations.length ∧ ∀ w ∈ out, 0 < w := by
  constructor
  · cases iterations with
    | nil => exact absurd rfl hne
    | cons a t => exact gcd_of_all_pos a (a :: t) (List.mem_cons_self a t) hpos
  · obtain ⟨g, hg, hdvd, hres⟩ := get_ratio_token_spec iterations hne hpos
    refine ⟨_, hres, by simp, ?_⟩
    intro w hw
    obtain ⟨x, hx, rfl⟩ := List.mem_map.1 hw
    exact Int.ediv_pos_of_pos_of_dvd (hpos x hx) (le_of_lt hg)
      ((hdvd g).1 (dvd_refl g) x hx)

/-- Witness of C6 at the counts [100, 150, 50]. -/
theorem C6_length_and_positive_witness :
    0 < gcd_of_all (([100, 150, 50] : List Int).headD 0) [100, 150, 50] ∧
    ∃ out : List Int, get_ratio_token [100, 150, 50] = some out ∧
      out.length = ([100, 150, 50] : List Int).length ∧ ∀ w ∈ out, 0 < w :=
  C6_length_and_positive [100, 150, 50] (by decide) (by decide)

/-! ## The VC assignment policy: claims C7 to C10 -/

/-- C7 as stated fails: with the blank object name and budget 0, the edge from
node 3 to node 5 has dst >= src and is given class 1, not class 0; the edge
from node 5 to node 3 is given class 0, not class 1. -/
theorem C7_counterexample :
    ¬ ((0 : Int) > 0) ∧ (5 : Int) ≥ 3 ∧
    vc_choice " " 0 [] 3 5 = some 1 ∧
    ¬ (vc_choice " " 0 [] 3 5 = some (if (5 : Int) ≥ 3 then 0 else 1)) ∧
    ¬ (vc_choice " " 0 [] 5 3 = some (if (3 : Int) ≥ 5 then 0 else 1)) := by
  decide

/-- C7 amended (VC rule 1): when no object-affinity target is configured and
no allocation budget is requested, for every pair of source and destination
node ids the class assigned to the edge is 1 if dst >= src and 0 otherwise. -/
theorem C7_rule1_class (m_vcs_for_allocation : Int)
    (vc_allocation_object_position : List Int) (src_node_id dst_node_id : Int)
    (hbudget : ¬ m_vcs_for_allocation > 0) :
    vc_choice " " m_vcs_for_allocation vc_allocation_object_position
        src_node_id dst_node_id
      = some (if dst_node_id ≥ src_node_id then 1 else 0) :=
  vc_choice_no_budget " " m_vcs_for_allocation vc_allocation_object_position
    src_node_id dst_node_id hbudget

/-- Witness of the amended C7: budget 0, edge from node 3 to node 5. -/
theorem C7_rule1_class_witness :
    ¬ ((0 : Int) > 0) ∧
    vc_choice " " 0 [] 3 5 = some (if (5 : Int) ≥ 3 then 1 else 0) :=
  ⟨by decide, C7_rule1_class 0 [] 3 5 (by decide)⟩

/-- C8 as stated fails: with object name "GPU", budget 2 and hosting list [3],
the edge from node 3 to node 5 touches a hosting node, has dst >= src, and is
given class 1, not 0; with hosting list [1] the same edge touches no hosting
node and is given class 3, not 2. -/
theorem C8_counterexample :
    "GPU" ≠ " " ∧ (2 : Int) > 0 ∧ (5 : Int) ≥ 3 ∧
    (3 : Int) ∈ ([3] : List Int) ∧
    vc_choice "GPU" 2 [3] 3 5 = some 1 ∧
    ¬ (vc_choice "GPU" 2 [3] 3 5 = some 0) ∧
    (3 : Int) ∉ ([1] : List Int) ∧ (5 : Int) ∉ ([1] : List Int) ∧
    vc_choice "GPU" 2 [1] 3 5 = some 3 ∧
    ¬ (vc_choice "GPU" 2 [1] 3 5 = some 2) := by
  decide

/-- C8 amended (VC rule 3): when an object-affinity target is configured and
the allocation budget is > 0, for every source and destination node id and
every object-hosting node list: if src or dst is in the list the class is 1
when dst >= src and 0 otherwise; if neither is in the list the class is 3
when dst >= src and 2 otherwise. -/
theorem C8_rule3_class (m_vc_allocation_object : String)
    (m_vcs_for_allocation : Int) (vc_allocation_object_position : List Int)
    (src_node_id dst_node_id : Int)
    (hobject : m_vc_allocation_object ≠ " ") (hbudget : m_vcs_for_allocation > 0) :
    vc_choice m_vc_allocation_object m_vcs_for_allocation
        vc_allocation_object_position src_node_id dst_node_id
      = some (if src_node_id ∈ vc_allocation_object_position ∨
                dst_node_id ∈ vc_allocation_object_position
              then (if dst_node_id ≥ src_node_id then 1 else 0)
              else (if dst_node_id ≥ src_node_id then 3 else 2)) := by
  rw [vc_choice_object _ _ _ _ _ hobject hbudget]
  unfold geInt
  by_cases h : src_node_id ∈ vc_allocation_object_position ∨
      dst_node_id ∈ vc_allocation_object_position
  · rw [if_pos h, if_pos h]
  · rw [if_neg h, if_neg h]
    by_cases h2 : dst_node_id ≥ src_node_id
    · rw [if_pos h2, if_pos h2]; rfl
    · rw [if_neg h2, if_neg h2]; rfl

/-- Witness of the amended C8: object name "GPU", budget 2, hosting list
[1, 3], edge from node 5 to node 3. -/
theorem C8_rule3_class_witness :
    vc_choice "GPU" 2 [1, 3] 5 3
      = some (if (5 : Int) ∈ ([1, 3] : List Int) ∨ (3 : Int) ∈ ([1, 3] : List Int)
              then (if (3 : Int) ≥ 5 then 1 else 0)
              else (if (3 : Int) ≥ 5 then 3 else 2)) :=
  C8_rule3_class "GPU" 2 [1, 3] 5 3 (by decide) (by decide)

/-- C9 (VC rule 2): the VC policy fails fatally (produces no class) exactly
when the allocation budget m_vcs_for_allocation is positive and no
object-affinity target name is configured; for every other configuration it
returns a class for every source/destination pair. -/
theorem C9_fatal_iff (m_vc_allocation_object : String)
    (m_vcs_for_allocation : Int) (vc_allocation_object_position : List Int)
    (src_node_id dst_node_id : Int) :
    (vc_choice m_vc_allocation_object m_vcs_for_allocation
        vc_allocation_object_position src_node_id dst_node_id = none
      ↔ (m_vcs_for_allocation > 0 ∧ m_vc_allocation_object = " ")) ∧
    ((∃ c : Int, vc_choice m_vc_allocation_object m_vcs_for_allocation
        vc_allocation_object_position src_node_id dst_node_id = some c)
      ↔ ¬ (m_vcs_for_allocation > 0 ∧ m_vc_allocation_object = " ")) := by
  by_cases hv : m_vcs_for_allocation > 0
  · by_cases hobj : m_vc_allocation_object = " "
    · subst hobj
      rw [vc_choice_fatal _ _ _ _ hv]
      simp [hv]
    · rw [vc_choice_object _ _ _ _ _ hobj hv]
      simp [hobj]
  · rw [vc_choice_no_budget _ _ _ _ _ hv]
    simp [hv]

/-- C10: class ranges of the VC policy.  With no affinity configured (blank
object name) the set of classes reachable over all (src, dst) is exactly
{0,1}, for each budget that is not positive and also over all budgets (a
positive budget is fatal and yields no class).  With affinity configured and
budget > 0 the set reachable over all (src, dst, hosting list) is exactly
{0,1,2,3}, and an edge touching an object-hosting node gets a class in {0,1}
while an edge touching none gets a class in {2,3}, so the two never agree. -/
theorem C10_class_ranges :
    (∀ (vcs : Int) (pos : List Int), ¬ vcs > 0 →
      {c : Int | ∃ src dst : Int, vc_choice " " vcs pos src dst = some c}
        = ({0, 1} : Set Int)) ∧
    (∀ pos : List Int,
      {c : Int | ∃ vcs src dst : Int, vc_choice " " vcs pos src dst = some c}
        = ({0, 1} : Set Int)) ∧
    (∀ (obj : String) (vcs : Int), obj ≠ " " → vcs > 0 →
      {c : Int | ∃ (pos : List Int) (src dst : Int),
          vc_choice obj vcs pos src dst = some c}
        = ({0, 1, 2, 3} : Set Int)) ∧
    (∀ (obj : String) (vcs : Int) (pos : List Int) (src dst src' dst' : Int),
      obj ≠ " " → vcs > 0 → (src ∈ pos ∨ dst ∈ pos) → ¬ (src' ∈ pos ∨ dst' ∈ pos) →
      ∃ c c' : Int, vc_choice obj vcs pos src dst = some c ∧
        vc_choice obj vcs pos src' dst' = some c' ∧
        (c = 0 ∨ c = 1) ∧ (c' = 2 ∨ c' = 3) ∧ c ≠ c') := by
  have hge : ∀ a b : Int, geInt a b = 0 ∨ geInt a b = 1 := by
    intro a b
    unfold geInt
    by_cases h : a ≥ b
    · right; rw [if_pos h]
    · left; rw [if_neg h]
  have h01 : geInt 0 1 = 0 := by decide
  have h10 : geInt 1 0 = 1 := by decide
  refine ⟨?_, ?_, ?_, ?_⟩
  · intro vcs pos hv
    ext c
    simp only [Set.mem_setOf_eq, Set.mem_insert_iff, Set.mem_singleton_iff]
    constructor
    · rintro ⟨src, dst, h⟩
      rw [vc_choice_no_budget _ _ _ _ _ hv] at h
      cases h
      exact hge dst src
    · rintro (h | h)
      · exact ⟨1, 0, by rw [vc_choice_no_budget _ _ _ _ _ hv, h01, h]⟩
      · exact ⟨0, 1, by rw [vc_choice_no_budget _ _ _ _ _ hv, h10, h]⟩
  · intro pos
    ext c
    simp only [Set.mem_setOf_eq, Set.mem_insert_iff, Set.mem_singleton_iff]
    constructor
    · rintro ⟨vcs, src, dst, h⟩
      by_cases hv : vcs > 0
      · rw [vc_choice_fatal _ _ _ _ hv] at h
        cases h
      · rw [vc_choice_no_budget _ _ _ _ _ hv] at h
        cases h
        exact hge dst src
    · have hv : ¬ ((0 : Int) > 0) := by decide
      rintro (h | h)
      · exact ⟨0, 1, 0, by rw [vc_choice_no_budget _ _ _ _ _ hv, h01, h]⟩
      · exact ⟨0, 0, 1, by rw [vc_choice_no_budget _ _ _ _ _ hv, h10, h]⟩
  · intro obj vcs hobj hv
    ext c
    simp only [Set.mem_setOf_eq, Set.mem_insert_iff, Set.mem_singleton_iff]
    constructor
    · rintro ⟨pos, src, dst, h⟩
      rw [vc_choice_object _ _ _ _ _ hobj hv] at h
      by_cases hm : src ∈ pos ∨ dst ∈ pos
      · rw [if_pos hm] at h
        cases h
        rcases hge dst src with h' | h' <;> simp [h']
      · rw [if_neg hm] at h
        cases h
        rcases hge dst src with h' | h' <;> simp [h']
    · rintro (h | h | h | h)
      · exact ⟨[1], 1, 0, by rw [vc_choice_object _ _ _ _ _ hobj hv, h]; decide⟩
      · exact ⟨[1], 0, 1, by rw [vc_choice_object _ _ _ _ _ hobj hv, h]; decide⟩
      · exact ⟨[], 1, 0, by rw [vc_choice_object _ _ _ _ _ hobj hv, h]; decide⟩
      · exact ⟨[], 0, 1, by rw [vc_choice_object _ _ _ _ _ hobj hv, h]; decide⟩
  · intro obj vcs pos src dst src' dst' hobj hv hm hn
    refine ⟨geInt dst src, geInt dst' src' + 2, ?_, ?_, hge dst src, ?_, ?_⟩
    · rw [vc_choice_object _ _ _ _ _ hobj hv, if_pos hm]
    · rw [vc_choice_object _ _ _ _ _ hobj hv, if_neg hn]
    · rcases hge dst' src' with h' | h' <;> simp [h']
    · rcases hge dst src with h | h <;> rcases hge dst' src' with h' | h' <;>
        simp [h, h']

/-- Witness of C10: the blank name with budget 0, the name "GPU" with budget
2, and with hosting list [1] the edges 1 to 4 (touching) and 2 to 4 (not
touching). -/
theorem C10_class_ranges_witness :
    {c : Int | ∃ src dst : Int, vc_choice " " 0 [] src dst = some c}
        = ({0, 1} : Set Int) ∧
    {c : Int | ∃ (pos : List Int) (src dst : Int), vc_choice "GPU" 2 pos src dst = some c}
        = ({0, 1, 2, 3} : Set Int) ∧
    ∃ c c' : Int, vc_choice "GPU" 2 [1] 1 4 = some c ∧
        vc_choice "GPU" 2 [1] 2 4 = some c' ∧
        (c = 0 ∨ c = 1) ∧ (c' = 2 ∨ c' = 3) ∧ c ≠ c' :=
  ⟨C10_class_ranges.1 0 [] (by decide),
    C10_class_ranges.2.2.1 "GPU" 2 (by decide) (by decide),
    C10_class_ranges.2.2.2 "GPU" 2 [1] 1 4 2 4 (by decide) (by decide)
      (by decide) (by decide)⟩


/-! ## The completion tracker: claims C11 to C13 -/

/-- C11: checkApplicationFinish returns true if and only if, for every
application index i, current_execution_iterations[i] equals
m_applicaton_execution_iterations[i], and it returns the state it was given,
so it changes neither array; required [2,2,2] with completed [2,2,1] gives
false and with completed [2,2,2] gives true. -/
theorem C11_checkApplicationFinish :
    (∀ s : Tracker,
      s.current_execution_iterations.length = s.m_num_application →
      s.m_applicaton_execution_iterations.length = s.m_num_application →
      ∃ b : Bool, checkApplicationFinish s = some (b, s) ∧
        (b = true ↔ ∀ i : Nat, i < s.m_num_application →
          s.current_execution_iterations[i]? = s.m_applicaton_execution_iterations[i]?)) ∧
    checkApplicationFinish (tracker_222 [2, 2, 1]) = some (false, tracker_222 [2, 2, 1]) ∧
    checkApplicationFinish (tracker_222 [2, 2, 2]) = some (true, tracker_222 [2, 2, 2]) := by
  refine ⟨?_, by decide, by decide⟩
  intro s h1 h2
  obtain ⟨b, hb, hiff⟩ :=
    checkApplicationFinish_loop_spec s s.m_num_application 0 (by omega) (by omega)
  refine ⟨b, ?_, ?_⟩
  · unfold checkApplicationFinish
    rw [hb]
  · rw [hiff]
    constructor
    · intro h i hi
      exact h i (Nat.zero_le i) (by omega)
    · intro h j _ hj
      exact h j (by omega)

/-- Witness of C11 at three applications with required counts [2,2,2] and
completed counts [2,1,2]. -/
theorem C11_checkApplicationFinish_witness :
    ∃ b : Bool, checkApplicationFinish (tracker_222 [2, 1, 2])
        = some (b, tracker_222 [2, 1, 2]) ∧
      (b = true ↔ ∀ i : Nat, i < (tracker_222 [2, 1, 2]).m_num_application →
        (tracker_222 [2, 1, 2]).current_execution_iterations[i]?
          = (tracker_222 [2, 1, 2]).m_applicaton_execution_iterations[i]?) :=
  C11_checkApplicationFinish.1 (tracker_222 [2, 1, 2]) (by decide) (by decide)

/-- C12: for every (app, iter) inside the arrays, output_ete_delay sets
ETE_delay[app][iter] to the int difference task_end_time[app][iter] -
task_start_time[app][iter] (the exact difference whenever it fits an int),
appends exactly one line to the per-iteration delay log and exactly one line
to the network-performance log, and leaves the two time arrays as they were;
with start = 100 and end = 180 for (app 0, iter 3) the recorded delay is 80. -/
theorem C12_output_ete_delay :
    (∀ (s : Tracker) (app iter : Nat) (b e old : Int) (name : String),
      get2 s.task_start_time app iter = some b →
      get2 s.task_end_time app iter = some e →
      get2 s.ETE_delay app iter = some old →
      s.m_application_name[app]? = some name →
      ∃ s' : Tracker, output_ete_delay s app iter = some s' ∧
        get2 s'.ETE_delay app iter = some (wrap32 (e - b)) ∧
        (INT_MIN ≤ e - b → e - b ≤ INT_MAX →
          get2 s'.ETE_delay app iter = some (e - b)) ∧
        s'.app_delay_running_info =
          s.app_delay_running_info ++ [⟨name, iter, b, e, wrap32 (e - b)⟩] ∧
        s'.app_delay_running_info.length = s.app_delay_running_info.length + 1 ∧
        s'.network_performance_info =
          s.network_performance_info ++ [⟨name, iter, s.stats⟩] ∧
        s'.network_performance_info.length = s.network_performance_info.length + 1 ∧
        s'.task_start_time = s.task_start_time ∧
        s'.task_end_time = s.task_end_time) ∧
    (∃ s' : Tracker, output_ete_delay (tracker_iter3 100 180) 0 3 = some s' ∧
      get2 s'.ETE_delay 0 3 = some 80 ∧
      s'.app_delay_running_info = [⟨"app0", 3, 100, 180, 80⟩] ∧
      s'.network_performance_info.length = 1) := by
  constructor
  · intro s app iter b e old name hb he hold hname
    obtain ⟨s', hrun, hget, hlog, hperf, hst, hen⟩ :=
      output_ete_delay_spec s app iter b e old name hb he hold hname
    refine ⟨s', hrun, hget, ?_, hlog, ?_, hperf, ?_, hst, hen⟩
    · intro h1 h2
      rw [hget, wrap32_of_range _ h1 h2]
    · rw [hlog]
      simp
    · rw [hperf]
      simp
  · obtain ⟨s', hrun, hget, hlog, hperf, _, _⟩ :=
      output_ete_delay_spec (tracker_iter3 100 180) 0 3 100 180 0 "app0"
        (by decide) (by decide) (by decide) (by decide)
    refine ⟨s', hrun, ?_, ?_, ?_⟩
    · rw [hget]
      decide
    · rw [hlog]
      decide
    · rw [hperf]
      decide

/-- Witness of C12 at (app 0, iter 3) with start 100 and end 180. -/
theorem C12_output_ete_delay_witness :
    ∃ s' : Tracker, output_ete_delay (tracker_iter3 100 180) 0 3 = some s' ∧
      get2 s'.ETE_delay 0 3 = some (wrap32 (180 - 100)) ∧
      (INT_MIN ≤ (180 : Int) - 100 → (180 : Int) - 100 ≤ INT_MAX →
        get2 s'.ETE_delay 0 3 = some (180 - 100)) ∧
      s'.app_delay_running_info =
        (tracker_iter3 100 180).app_delay_running_info
          ++ [⟨"app0", 3, 100, 180, wrap32 (180 - 100)⟩] ∧
      s'.app_delay_running_info.length
        = (tracker_iter3 100 180).app_delay_running_info.length + 1 ∧
      s'.network_performance_info =
        (tracker_iter3 100 180).network_performance_info
          ++ [⟨"app0", 3, (tracker_iter3 100 180).stats⟩] ∧
      s'.network_performance_info.length
        = (tracker_iter3 100 180).network_performance_info.length + 1 ∧
      s'.task_start_time = (tracker_iter3 100 180).task_start_time ∧
      s'.task_end_time = (tracker_iter3 100 180).task_end_time :=
  C12_output_ete_delay.1 (tracker_iter3 100 180) 0 3 100 180 0 "app0"
    (by decide) (by decide) (by decide) (by decide)

/-- C13 as stated fails: iteration 0 of the example tracker still holds the
sentinels INT_MAX and INT_MIN, and output_ete_delay does not abort there: it
returns a state in which a delay is recorded and both logs have a new line. -/
theorem C13_counterexample :
    get2 (tracker_iter3 100 180).task_start_time 0 0 = some INT_MAX ∧
    get2 (tracker_iter3 100 180).task_end_time 0 0 = some INT_MIN ∧
    output_ete_delay (tracker_iter3 100 180) 0 0 ≠ none ∧
    ∃ s' : Tracker, output_ete_delay (tracker_iter3 100 180) 0 0 = some s' ∧
      (get2 s'.ETE_delay 0 0).isSome = true ∧
      s'.app_delay_running_info.length = 1 ∧
      s'.network_performance_info.length = 1 := by
  obtain ⟨s', hrun, hget, hlog, hperf, _, _⟩ :=
    output_ete_delay_spec (tracker_iter3 100 180) 0 0 INT_MAX INT_MIN 0 "app0"
      (by decide) (by decide) (by decide) (by decide)
  refine ⟨by decide, by decide, ?_, s', hrun, ?_, ?_, ?_⟩
  · rw [hrun]
    exact Option.some_ne_none s'
  · rw [hget]
    rfl
  · rw [hlog]
    decide
  · rw [hperf]
    decide

/-- C13 amended: output_ete_delay holds no sentinel check.  When
task_start_time[app][iter] is still INT_MAX or task_end_time[app][iter] is
still INT_MIN, the call does not abort: it records the 32-bit difference
end - start as the delay and appends one line to each of the two logs. -/
theorem C13_no_sentinel_check (s : Tracker) (app iter : Nat) (b e old : Int)
    (name : String)
    (hb : get2 s.task_start_time app iter = some b)
    (he : get2 s.task_end_time app iter = some e)
    (hold : get2 s.ETE_delay app iter = some old)
    (hname : s.m_application_name[app]? = some name)
    (_hsentinel : b = INT_MAX ∨ e = INT_MIN) :
    ∃ s' : Tracker, output_ete_delay s app iter = some s' ∧
      get2 s'.ETE_delay app iter = some (wrap32 (e - b)) ∧
      s'.app_delay_running_info.length = s.app_delay_running_info.length + 1 ∧
      s'.network_performance_info.length = s.network_performance_info.length + 1 := by
  obtain ⟨s', hrun, hget, hlog, hperf, _, _⟩ :=
    output_ete_delay_spec s app iter b e old name hb he hold hname
  refine ⟨s', hrun, hget, ?_, ?_⟩
  · rw [hlog]
    simp
  · rw [hperf]
    simp

/-- Witness of the amended C13: iteration 1 of the example tracker, whose
start and end time are the sentinels. -/
theorem C13_no_sentinel_check_witness :
    ∃ s' : Tracker, output_ete_delay (tracker_iter3 100 180) 0 1 = some s' ∧
      get2 s'.ETE_delay 0 1 = some (wrap32 (INT_MIN - INT_MAX)) ∧
      s'.app_delay_running_info.length
        = (tracker_iter3 100 180).app_delay_running_info.length + 1 ∧
      s'.network_performance_info.length
        = (tracker_iter3 100 180).network_performance_info.length + 1 :=
  C13_no_sentinel_check (tracker_iter3 100 180) 0 1 INT_MAX INT_MIN 0 "app0"
    (by decide) (by decide) (by decide) (by decide) (Or.inl rfl)


/-! ## The tick controller: claim C14 -/

/-- C14: the tick step (wakeup with the task graph enabled), in every shaped
tracker state.  (1) When checkApplicationFinish is false the step re-arms
exactly one tick, one cycle later, signals no exit and emits no final report.
(2) When it is true the step emits PrintAppDelay and PrintTaskWaitingInfo,
then closes the sinks, then signals exit exactly once, and schedules no tick:
the controller is left with no armed tick.  (3) Exit is signalled only when
every application is complete.  (4) With no armed tick the controller never
changes again: the terminated state is absorbing. -/
theorem C14_tick_step :
    (∀ (ω : Type) (cyc : Nat) (s : Tracker) (w : Option ω), s.shaped →
      checkApplicationFinish s = some (false, s) →
      ∃ acts : List (Action ω), wakeup true cyc s w = some acts ∧
        acts.countP Action.isSchedule = 1 ∧
        Action.scheduleEvent 1 ∈ acts ∧
        (∀ d : Nat, Action.scheduleEvent d ∈ acts → d = 1) ∧
        acts.countP Action.isExit = 0 ∧
        acts.countP Action.isReport = 0 ∧
        ∀ c : Controller, c.armed = some cyc →
          tick true s w c = some ⟨some (cyc + 1), c.exit_signals⟩) ∧
    (∀ (ω : Type) (cyc : Nat) (s : Tracker) (w : ω), s.shaped →
      checkApplicationFinish s = some (true, s) →
      ∃ (sample : List (Action ω)) (r : List AppDelayReport),
        throughput_sample cyc s = some sample ∧
        PrintAppDelay s = some r ∧
        wakeup true cyc s (some w)
          = some (sample ++ [Action.PrintAppDelay r, Action.PrintTaskWaitingInfo w]
              ++ closing_actions) ∧
        sample.countP Action.isExit = 0 ∧
        (closing_actions : List (Action ω)).countP Action.isExit = 1 ∧
        (sample ++ [Action.PrintAppDelay r, Action.PrintTaskWaitingInfo w]
            ++ closing_actions).countP Action.isExit = 1 ∧
        (sample ++ [Action.PrintAppDelay r, Action.PrintTaskWaitingInfo w]
            ++ closing_actions).countP Action.isSchedule = 0 ∧
        ∀ c : Controller, c.armed = some cyc →
          tick true s (some w) c = some ⟨none, c.exit_signals + 1⟩) ∧
    (∀ (ω : Type) (enabled : Bool) (cyc : Nat) (s : Tracker) (w : Option ω)
      (acts : List (Action ω)), wakeup enabled cyc s w = some acts →
      acts.countP Action.isExit ≠ 0 →
      ∀ i : Nat, i < s.m_num_application →
        ∃ v : Int, s.current_execution_iterations[i]? = some v ∧
          s.m_applicaton_execution_iterations[i]? = some v) ∧
    (∀ (ω : Type) (enabled : Bool) (s : Tracker) (w : Option ω) (c : Controller),
      c.armed = none → tick enabled s w c = some c) := by
  refine ⟨?_, ?_, ?_, ?_⟩
  · intro ω cyc s w hs hcheck
    obtain ⟨sample, hsample⟩ := throughput_sample_returns (ω := ω) cyc s hs
    have hw : wakeup true cyc s w = some (sample ++ [Action.scheduleEvent 1]) := by
      unfold wakeup
      simp only [if_true, hsample, hcheck]
    refine ⟨_, hw, ?_, ?_, ?_, ?_, ?_, ?_⟩
    · rcases throughput_sample_cases cyc s sample hsample with h | ⟨v, h⟩ <;>
        subst h <;> rfl
    · simp
    · intro d hd
      rcases throughput_sample_cases cyc s sample hsample with h | ⟨v, h⟩ <;>
        subst h <;> simpa using hd
    · rcases throughput_sample_cases cyc s sample hsample with h | ⟨v, h⟩ <;>
        subst h <;> rfl
    · rcases throughput_sample_cases cyc s sample hsample with h | ⟨v, h⟩ <;>
        subst h <;> rfl
    · intro c hc
      unfold tick
      rw [hc]
      simp only [hw]
      rcases throughput_sample_cases cyc s sample hsample with h | ⟨v, h⟩ <;>
        subst h <;> rfl
  · intro ω cyc s w hs hcheck
    obtain ⟨sample, hsample⟩ := throughput_sample_returns (ω := ω) cyc s hs
    obtain ⟨r, hr⟩ := PrintAppDelay_returns s hs
    have hw : wakeup true cyc s (some w)
        = some (sample ++ [Action.PrintAppDelay r, Action.PrintTaskWaitingInfo w]
            ++ closing_actions) := by
      unfold wakeup
      simp only [if_true, hsample, hcheck, hr]
    refine ⟨sample, r, hsample, hr, hw, ?_, rfl, ?_, ?_, ?_⟩
    · rcases throughput_sample_cases cyc s sample hsample with h | ⟨v, h⟩ <;>
        subst h <;> rfl
    · rcases throughput_sample_cases cyc s sample hsample with h | ⟨v, h⟩ <;>
        subst h <;> rfl
    · rcases throughput_sample_cases cyc s sample hsample with h | ⟨v, h⟩ <;>
        subst h <;> rfl
    · intro c hc
      unfold tick
      rw [hc]
      simp only [hw]
      rcases throughput_sample_cases cyc s sample hsample with h | ⟨v, h⟩ <;>
        subst h <;> rfl
  · intro ω enabled cyc s w acts hw hexit i hi
    unfold wakeup at hw
    cases enabled with
    | false =>
      simp only [Bool.false_eq_true, if_false, Option.some.injEq] at hw
      subst hw
      exact absurd rfl hexit
    | true =>
      simp only [if_true] at hw
      cases hsample : throughput_sample (ω := ω) cyc s with
      | none => rw [hsample] at hw; cases hw
      | some sample =>
        rw [hsample] at hw
        simp only at hw
        have hsx : sample.countP Action.isExit = 0 := by
          rcases throughput_sample_cases cyc s sample hsample with h | ⟨v, h⟩ <;>
            subst h <;> rfl
        cases hcheck : checkApplicationFinish s with
        | none => rw [hcheck] at hw; cases hw
        | some res =>
          obtain ⟨b, s1⟩ := res
          rw [hcheck] at hw
          cases b with
          | false =>
            simp only [Option.some.injEq] at hw
            subst hw
            exfalso
            apply hexit
            rw [List.countP_append, hsx]
            rfl
          | true =>
            unfold checkApplicationFinish at hcheck
            cases hloop : checkApplicationFinish_loop s s.m_num_application 0 with
            | none => rw [hloop] at hcheck; cases hcheck
            | some b' =>
              rw [hloop] at hcheck
              simp only [Option.some.injEq, Prod.mk.injEq] at hcheck
              rw [hcheck.1] at hloop
              exact checkApplicationFinish_loop_true s s.m_num_application 0 hloop i
                (Nat.zero_le i) (by omega)
  · intro ω enabled s w c hc
    unfold tick
    rw [hc]


/-- Witness of C14: at cycle 7, three applications with required counts
[2,2,2]; with completed counts [2,2,1] the step re-arms, with [2,2,2] it
reports and exits, and a controller without an armed tick stays as it is. -/
theorem C14_tick_step_witness :
    (∃ acts : List (Action Unit),
      wakeup true 7 (tracker_222 [2, 2, 1]) (some ()) = some acts ∧
        acts.countP Action.isSchedule = 1 ∧
        Action.scheduleEvent 1 ∈ acts ∧
        (∀ d : Nat, Action.scheduleEvent d ∈ acts → d = 1) ∧
        acts.countP Action.isExit = 0 ∧
        acts.countP Action.isReport = 0 ∧
        ∀ c : Controller, c.armed = some 7 →
          tick true (tracker_222 [2, 2, 1]) (some ()) c
            = some ⟨some (7 + 1), c.exit_signals⟩) ∧
    (∃ (sample : List (Action Unit)) (r : List AppDelayReport),
      throughput_sample 7 (tracker_222 [2, 2, 2]) = some sample ∧
        PrintAppDelay (tracker_222 [2, 2, 2]) = some r ∧
        wakeup true 7 (tracker_222 [2, 2, 2]) (some ())
          = some (sample ++ [Action.PrintAppDelay r, Action.PrintTaskWaitingInfo ()]
              ++ closing_actions) ∧
        sample.countP Action.isExit = 0 ∧
        (closing_actions : List (Action Unit)).countP Action.isExit = 1 ∧
        (sample ++ [Action.PrintAppDelay r, Action.PrintTaskWaitingInfo ()]
            ++ closing_actions).countP Action.isExit = 1 ∧
        (sample ++ [Action.PrintAppDelay r, Action.PrintTaskWaitingInfo ()]
            ++ closing_actions).countP Action.isSchedule = 0 ∧
        ∀ c : Controller, c.armed = some 7 →
          tick true (tracker_222 [2, 2, 2]) (some ()) c
            = some ⟨none, c.exit_signals + 1⟩) ∧
    tick true (tracker_222 [2, 2, 1]) (some ()) ⟨none, 1⟩ = some ⟨none, 1⟩ :=
  ⟨C14_tick_step.1 Unit 7 (tracker_222 [2, 2, 1]) (some ()) (by decide) (by decide),
    C14_tick_step.2.1 Unit 7 (tracker_222 [2, 2, 2]) () (by decide) (by decide),
    C14_tick_step.2.2.2 Unit true (tracker_222 [2, 2, 1]) (some ()) ⟨none, 1⟩ rfl⟩

/-! ## The architecture loader: claims C15, C19 and C20 -/

/-- C15 as stated fails: a file that declares 4 nodes passes the node-count
check against 9 endpoints, and constructArchitecture runs to a successful end
on it (its core names, of 2 and 3 characters, read into blocks of 24 bytes),
although 4 * 2 is not 9. -/
theorem C15_counterexample :
    node_count_check 4 9 = true ∧ (4 : Int) * 2 ≠ 9 ∧
    (constructArchitecture 9 " " 24 (fun _ => some true)
      (some (arch_file_example 4 4)) Arch.initial).2 = Status.ok ∧
    ¬ (node_count_check 4 9 = true ↔ (4 : Int) * 2 = 9) := by
  decide

/-- C15 amended: constructArchitecture enforces node_count == m_nodes / 2 with
the truncating integer division: for every declared node count and every
endpoint count m_nodes the descriptor passes the node-count check if and only
if node_count equals m_nodes / 2; node_count * 2 == m_nodes always passes, and
for an even m_nodes nothing else passes.  On mismatch (e.g. 5 nodes against 8
endpoints) it aborts in the state it was given: no node has been configured
and no core-id mapping inserted. -/
theorem C15_node_count_check :
    (∀ num_nodes m_nodes : Int,
      (node_count_check num_nodes m_nodes = true ↔ num_nodes = Int.tdiv m_nodes 2) ∧
      (num_nodes * 2 = m_nodes → node_count_check num_nodes m_nodes = true) ∧
      (m_nodes % 2 = 0 →
        (node_count_check num_nodes m_nodes = true ↔ num_nodes * 2 = m_nodes))) ∧
    (∀ (m_nodes : Int) (obj : String) (name_block : Nat) (cfg : NodeDesc → Option Bool)
      (f : ArchFile) (s : Arch), node_count_check f.num_nodes m_nodes = false →
      constructArchitecture m_nodes obj name_block cfg (some f) s
        = (s, Status.assert_failed)) ∧
    node_count_check 5 8 = false ∧
    constructArchitecture 8 " " 24 (fun _ => some true) (some (arch_file_example 5 5))
      Arch.initial = (Arch.initial, Status.assert_failed) := by
  refine ⟨?_, ?_, by decide, by decide⟩
  · intro num_nodes m_nodes
    have h1 : node_count_check num_nodes m_nodes = true ↔ num_nodes = Int.tdiv m_nodes 2 := by
      unfold node_count_check
      simp
    refine ⟨h1, ?_, ?_⟩
    · intro h
      rw [h1, ← h, Int.mul_tdiv_cancel _ (by decide)]
    · intro heven
      rw [h1]
      have hk : m_nodes = m_nodes / 2 * 2 := by omega
      have ht : Int.tdiv m_nodes 2 = m_nodes / 2 := by
        conv_lhs => rw [hk]
        exact Int.mul_tdiv_cancel _ (by decide)
      rw [ht]
      omega
  · intro m_nodes obj name_block cfg f s h
    unfold constructArchitecture
    simp [h]

/-- Witness of the amended C15: 5 declared nodes against 8 endpoints. -/
theorem C15_node_count_check_witness :
    constructArchitecture 8 "GPU" 24 (fun _ => some true) (some (arch_file_example 5 5))
      Arch.initial = (Arch.initial, Status.assert_failed) :=
  C15_node_count_check.2.1 8 "GPU" 24 (fun _ => some true) (arch_file_example 5 5)
    Arch.initial (by decide)

/-- C19: getNodeIdbyCoreId(core_id) returns the node id bound to core_id when
core_id is a key of the core-id-to-node-id map, and fails fatally when it is
not a key; in both cases the map is left unchanged, so a miss never inserts a
default entry. -/
theorem C19_getNodeIdbyCoreId (m : CoreMap) (core_id : Int) :
    (∀ node_id : Int, map_find m core_id = some node_id →
      getNodeIdbyCoreId m core_id = (some node_id, m)) ∧
    (map_find m core_id = none → getNodeIdbyCoreId m core_id = (none, m)) ∧
    (core_id ∈ m.map Prod.fst ↔ ∃ node_id : Int, map_find m core_id = some node_id) ∧
    (getNodeIdbyCoreId m core_id).2 = m := by
  refine ⟨?_, ?_, ?_, ?_⟩
  · intro node_id h
    unfold getNodeIdbyCoreId map_index
    simp [h]
  · intro h
    unfold getNodeIdbyCoreId
    simp [h]
  · constructor
    · intro h
      cases hf : map_find m core_id with
      | none => exact absurd h ((map_find_eq_none_iff m core_id).1 hf)
      | some v => exact ⟨v, rfl⟩
    · rintro ⟨v, hv⟩
      by_contra hcon
      rw [(map_find_eq_none_iff m core_id).2 hcon] at hv
      cases hv
  · unfold getNodeIdbyCoreId map_index
    cases hf : map_find m core_id with
    | none => rfl
    | some v => simp

/-- Witness of C19: core 2 is bound to node 1 and core 5 is not a key of the
map [(0,0), (1,0), (2,1)]. -/
theorem C19_getNodeIdbyCoreId_witness :
    getNodeIdbyCoreId [(0, 0), (1, 0), (2, 1)] 2 = (some 1, [(0, 0), (1, 0), (2, 1)]) ∧
    getNodeIdbyCoreId [(0, 0), (1, 0), (2, 1)] 5 = (none, [(0, 0), (1, 0), (2, 1)]) :=
  ⟨(C19_getNodeIdbyCoreId [(0, 0), (1, 0), (2, 1)] 2).1 1 (by decide),
    (C19_getNodeIdbyCoreId [(0, 0), (1, 0), (2, 1)] 5).2.1 (by decide)⟩

/-- C16: for every application trace whose trace_type field is not 0,
loadTraffic aborts on that trace, at the assert that precedes every add_task
and edge-linking call for that application: it ends with an assert failure in
the very state the earlier applications left, so no task is inserted and no
edge is linked for that application. -/
theorem C16_trace_type_rejected {F : Type} [Add F] [Mul F] [OfNat F 2]
    (cfg : LoadConfig) (pre post : List (Option (Trace F))) (tr : Trace F)
    (s s1 : Loader F)
    (htype : tr.trace_type ≠ 0)
    (hpre : pre.length < cfg.m_num_application)
    (hload : load_applications cfg 0 pre
      { s with
        m_num_task := List.replicate cfg.m_num_application 0
        m_num_edge := List.replicate cfg.m_num_application 0
        m_num_head_task := List.replicate cfg.m_num_application 0 } = Except.ok s1) :
    load_application cfg pre.length (some tr) s1
      = Except.error (s1, Status.assert_failed) ∧
    loadTraffic cfg (pre ++ some tr :: post) s = (s1, Status.assert_failed) := by
  have hbad := load_application_bad_type cfg pre.length tr s1 htype
  refine ⟨hbad, ?_⟩
  unfold loadTraffic
  simp only
  rw [take_split pre post (some tr) cfg.m_num_application hpre,
    load_applications_append, hload]
  simp only [Nat.zero_add]
  unfold load_applications
  rw [hbad]

/-- Witness of C16: the second of two applications has trace_type 1. -/
theorem C16_trace_type_rejected_witness :
    load_application config_example 1 (some (trace_example 1 4 2 1)) loader_after_first
      = Except.error (loader_after_first, Status.assert_failed) ∧
    loadTraffic config_example
        [some (trace_example 0 4 2 1), some (trace_example 1 4 2 1)] loader_example
      = (loader_after_first, Status.assert_failed) :=
  C16_trace_type_rejected config_example [some (trace_example 0 4 2 1)] []
    (trace_example 1 4 2 1) loader_example loader_after_first
    (by decide) (by decide) rfl

/-- C17: for every application trace, loadTraffic proceeds past the header to
the head-task, task and edge loops if and only if trace_type is 0 and the
processor count, task count, edge count and that application's
required-iteration count are all strictly positive; otherwise it ends with an
assert failure before inserting any task of that application (the task lists
and the head-task vectors are as they were). -/
theorem C17_header_checks {F : Type} [Add F] [Mul F] [OfNat F 2]
    (cfg : LoadConfig) (k : Nat) (tr : Trace F) (s : Loader F) (n : Int)
    (hiter : cfg.m_applicaton_execution_iterations[k]? = some n) :
    ((tr.trace_type = 0 ∧ tr.m_num_proc > 0 ∧ tr.m_num_task > 0 ∧ tr.m_num_edge > 0 ∧
        n > 0) →
      load_application cfg k (some tr) s =
        load_body cfg n k tr
          { s with
            m_num_proc := tr.m_num_proc
            m_num_task := s.m_num_task.set k tr.m_num_task
            m_num_edge := s.m_num_edge.set k tr.m_num_edge }) ∧
    ((∃ s' : Loader F,
        load_application cfg k (some tr) s = Except.error (s', Status.assert_failed)) ↔
      ¬ (tr.trace_type = 0 ∧ tr.m_num_proc > 0 ∧ tr.m_num_task > 0 ∧
        tr.m_num_edge > 0 ∧ n > 0)) ∧
    (¬ (tr.trace_type = 0 ∧ tr.m_num_proc > 0 ∧ tr.m_num_task > 0 ∧
        tr.m_num_edge > 0 ∧ n > 0) →
      ∃ s' : Loader F,
        load_application cfg k (some tr) s = Except.error (s', Status.assert_failed) ∧
        s'.tasks = s.tasks ∧ s'.head_task = s.head_task) := by
  have hgetD : cfg.m_applicaton_execution_iterations.getD k 0 = n := by
    rw [List.getD_eq_getElem?_getD, hiter]
    rfl
  have hpass : (tr.trace_type = 0 ∧ tr.m_num_proc > 0 ∧ tr.m_num_task > 0 ∧
        tr.m_num_edge > 0 ∧ n > 0) →
      load_application cfg k (some tr) s =
        load_body cfg n k tr
          { s with
            m_num_proc := tr.m_num_proc
            m_num_task := s.m_num_task.set k tr.m_num_task
            m_num_edge := s.m_num_edge.set k tr.m_num_edge } := by
    rintro ⟨h0, hp, ht, he, hn⟩
    unfold load_application trace_type_check counts_check
    simp [h0, hp, ht, he, hn, hiter, hgetD]
  have hfail : ¬ (tr.trace_type = 0 ∧ tr.m_num_proc > 0 ∧ tr.m_num_task > 0 ∧
        tr.m_num_edge > 0 ∧ n > 0) →
      ∃ s' : Loader F,
        load_application cfg k (some tr) s = Except.error (s', Status.assert_failed) ∧
        s'.tasks = s.tasks ∧ s'.head_task = s.head_task := by
    intro hnot
    by_cases h0 : tr.trace_type = 0
    · refine ⟨{ s with
          m_num_proc := tr.m_num_proc
          m_num_task := s.m_num_task.set k tr.m_num_task
          m_num_edge := s.m_num_edge.set k tr.m_num_edge }, ?_, rfl, rfl⟩
      unfold load_application trace_type_check counts_check
      by_cases h3 : tr.m_num_task > 0 ∧ tr.m_num_edge > 0 ∧ tr.m_num_proc > 0
      · have hn : ¬ n > 0 := fun hn => hnot ⟨h0, h3.2.2, h3.1, h3.2.1, hn⟩
        simp [h0, h3, hiter, hn]
      · simp [h0, h3]
    · exact ⟨s, load_application_bad_type cfg k tr s h0, rfl, rfl⟩
  refine ⟨hpass, ?_, hfail⟩
  constructor
  · rintro ⟨s', hs'⟩ hcond
    rw [hpass hcond] at hs'
    exact load_body_no_assert cfg n k tr _ s' hs'
  · intro hnot
    obtain ⟨s', hs', _, _⟩ := hfail hnot
    exact ⟨s', hs'⟩

/-- Witness of C17: application 1 of the example configuration, which
requires 2 iterations, with a trace that declares 0 tasks. -/
theorem C17_header_checks_witness :
    ∃ s' : Loader Int,
      load_application config_example 1 (some (trace_example 0 4 0 1)) loader_after_first
        = Except.error (s', Status.assert_failed) ∧
      s'.tasks = loader_after_first.tasks ∧
      s'.head_task = loader_after_first.head_task :=
  (C17_header_checks config_example 1 (trace_example 0 4 0 1) loader_after_first 2
    (by decide)).2.2 (by decide)

/-- C18: memory-window size override.  For every edge record the edge built by
loadTraffic has the out-memory window (trace out-address, m_out_mem_size) and
the in-memory window (trace in-address, m_in_mem_size); two edge records that
differ only in their trace-declared out-size and in-size fields produce
identical edges, and the whole pass of the edge loop on the one is the pass on
the other. -/
theorem C18_memory_window_sizes {F : Type} [Add F] [Mul F] [OfNat F 2] :
    (∀ (m_out_mem_size m_in_mem_size : Int) (k : Nat) (r : EdgeRecord F),
      (build_edge m_out_mem_size m_in_mem_size k r).out_memory
          = (r.out_memory_start_address, m_out_mem_size) ∧
      (build_edge m_out_mem_size m_in_mem_size k r).in_memory
          = (r.in_memory_start_address, m_in_mem_size)) ∧
    (∀ (m_out_mem_size m_in_mem_size : Int) (k : Nat) (r : EdgeRecord F)
      (out_size in_size : Int),
      build_edge m_out_mem_size m_in_mem_size k
          { r with out_memory_size := out_size, in_memory_size := in_size }
        = build_edge m_out_mem_size m_in_mem_size k r) ∧
    (∀ (cfg : LoadConfig) (k : Nat) (s : Loader F) (r : EdgeRecord F)
      (out_size in_size : Int),
      load_edge cfg k s { r with out_memory_size := out_size, in_memory_size := in_size }
        = load_edge cfg k s r) := by
  refine ⟨?_, ?_, ?_⟩
  · intro a b k r
    exact ⟨rfl, rfl⟩
  · intro a b k r x y
    rfl
  · intro cfg k s r x y
    rfl

/-! ## Re-running the loader and the class of the stored edges: claims C21 and C22 -/

/-- C22 fails on the code, at the example configuration and traces: the run
of loadTraffic succeeds, the VC policy gives the edge from node 0 to node 1
the class 1, and yet the copy of that edge in the source task's outgoing
collection and the copy in the destination task's incoming collection carry
no class.  In general a pass of the edge loop stores the edge as built, before
`set_vc_choice` is reached, and the built edge carries no class. -/
theorem C22_stored_edges_carry_no_class :
    (loadTraffic config_example traces_example loader_example).2 = Status.ok ∧
    vc_choice config_example.m_vc_allocation_object config_example.m_vcs_for_allocation
      config_example.vc_allocation_object_position 0 1 = some 1 ∧
    loader_after_run.tasks.map (fun p =>
        (p.node_id, p.task.id, p.task.app_idx,
          p.task.outgoing_edges.map (fun e => (e.id, e.vc_choice)),
          p.task.incoming_edges.map (fun e => (e.id, e.vc_choice))))
      = ([(0, 0, 0, [(0, none)], []), (0, 0, 1, [(0, none)], []),
         (1, 1, 0, [], [(0, none)]), (1, 1, 1, [], [(0, none)])] :
          List (Int × Int × Nat × List (Int × Option Int) × List (Int × Option Int))) ∧
    (∀ (cfg : LoadConfig) (k : Nat) (s s' : Loader Int) (r : EdgeRecord Int),
      load_edge cfg k s r = Except.ok s' →
      (build_edge cfg.m_out_mem_size cfg.m_in_mem_size k r).vc_choice = none ∧
      ∃ src_task dst_task : Nat,
        s'.tasks = modify_task (fun t => { t with incoming_edges := t.incoming_edges ++
              [build_edge cfg.m_out_mem_size cfg.m_in_mem_size k r] }) dst_task
            (modify_task (fun t => { t with outgoing_edges := t.outgoing_edges ++
              [build_edge cfg.m_out_mem_size cfg.m_in_mem_size k r] }) src_task s.tasks)) := by
  refine ⟨by decide, by decide, rfl, ?_⟩
  intro cfg k s s' r h
  refine ⟨rfl, ?_⟩
  unfold load_edge at h
  simp only at h
  split at h
  · cases h
  · split at h
    · cases h
    · rename_i src_task _
      split at h
      · cases h
      · split at h
        · cases h
        · rename_i dst_task _
          split at h
          · cases h
          · simp only [Except.ok.injEq] at h
            exact ⟨src_task, dst_task, by rw [← h]⟩

/-- C21 as stated fails: on the example the first run of loadTraffic succeeds;
the second run, on the state the first one left and with the same files,
stores the same head-task counts [1, 1] but leaves head_task[k] with 2
entries, and it does not complete: the task lists then hold 8 tasks against 4
declared ones and the assert of line 879 fails. -/
theorem C21_counterexample :
    loadTraffic config_example traces_example loader_example
      = (loader_after_run, Status.ok) ∧
    loader_after_run.m_num_head_task = [1, 1] ∧
    loader_after_run.head_task.map List.length = [1, 1] ∧
    (loadTraffic config_example traces_example loader_after_run).1.m_num_head_task
      = [1, 1] ∧
    (loadTraffic config_example traces_example loader_after_run).1.head_task.map
      List.length = [2, 2] ∧
    (loadTraffic config_example traces_example loader_after_run).2
      = Status.assert_failed ∧
    task_list_sum config_example
      (loadTraffic config_example traces_example loader_after_run).1.tasks = 8 ∧
    (loadTraffic config_example traces_example loader_after_run).1.m_num_task.sum = 4 := by
  decide

/-- C21 (amended): after a run of `loadTraffic` from a state with empty task
lists that ended with `ok`, a second run on the same roster and trace files
passes the loop over the applications again, with no fatal error and no
undefined step, and stores the same `m_num_task`, `m_num_edge` and
`m_num_head_task`.  Each run appends the head-task ids of application `j` to
`head_task[j]`, so after the second run `head_task[j]` holds them twice.  The
task lists then hold every task twice, and the second run ends at the assert
of line 879: it passes exactly when the declared task counts add up to 0. -/
theorem C21_second_run {F : Type} [Add F] [Mul F] [OfNat F 2] (cfg : LoadConfig)
    (traces : List (Option (Trace F))) (s s1 : Loader F)
    (hfresh : s.tasks = [])
    (hrun : loadTraffic cfg traces s = (s1, Status.ok)) :
    (loadTraffic cfg traces s1).2 =
      (if s1.m_num_task.sum = 0 then Status.ok else Status.assert_failed) ∧
    (loadTraffic cfg traces s1).1.m_num_task = s1.m_num_task ∧
    (loadTraffic cfg traces s1).1.m_num_edge = s1.m_num_edge ∧
    (loadTraffic cfg traces s1).1.m_num_head_task = s1.m_num_head_task ∧
    ∀ j : Nat,
      s1.head_task.getD j [] = s.head_task.getD j [] ++
        appended_heads (traces.take cfg.m_num_application) j ∧
      (loadTraffic cfg traces s1).1.head_task.getD j [] = s1.head_task.getD j [] ++
        appended_heads (traces.take cfg.m_num_application) j := by
  obtain ⟨hloop, hsum⟩ := loadTraffic_ok cfg traces s s1 hrun
  obtain ⟨hlen1, hget1⟩ := load_applications_heads cfg _ 0 _ s1 hloop
  have hrel : rerun_related (fresh_counts cfg s) (fresh_counts cfg s1) := by
    refine ⟨?_, hlen1.symm, rfl, rfl, rfl⟩
    intro q hq
    simp only [fresh_counts, hfresh, List.map_nil, List.not_mem_nil] at hq
  obtain ⟨s2, hloop2, hR⟩ := load_applications_rerun cfg _ 0 _ _ s1 hrel hloop
  obtain ⟨_, hget2⟩ := load_applications_heads cfg _ 0 _ s2 hloop2
  obtain ⟨K, hK⟩ := load_applications_placed cfg (traces.take cfg.m_num_application) 0
  have hK1 : task_list_sum cfg s1.tasks = task_list_sum cfg K := by
    have h := task_list_sum_perm cfg _ _ (hK _ s1 hloop)
    simp only [fresh_counts, hfresh, List.nil_append] at h
    exact h
  have hK2 : task_list_sum cfg s2.tasks = task_list_sum cfg s1.tasks + task_list_sum cfg K := by
    have h := task_list_sum_perm cfg _ _ (hK _ s2 hloop2)
    rw [task_list_sum_append] at h
    exact h
  rw [loadTraffic_of_loop cfg traces s1 s2 hloop2]
  obtain ⟨_, _, h3, h4, h5⟩ := hR
  refine ⟨?_, h3.symm, h4.symm, h5.symm, ?_⟩
  · simp only
    rw [← h3, hK2, ← hK1, ← hsum]
    by_cases h0 : task_list_sum cfg s1.tasks = 0
    · rw [h0]
      simp
    · have hne : ¬ ((task_list_sum cfg s1.tasks : Int) = 0) := by
        intro hc
        exact h0 (by exact_mod_cast hc)
      have hne2 : ¬ (((task_list_sum cfg s1.tasks + task_list_sum cfg s1.tasks : Nat) : Int) =
          (task_list_sum cfg s1.tasks : Int)) := by
        intro hc
        have : task_list_sum cfg s1.tasks + task_list_sum cfg s1.tasks =
            task_list_sum cfg s1.tasks := by exact_mod_cast hc
        omega
      rw [if_neg hne2, if_neg hne]
  · intro j
    have e1 := hget1 j
    have e2 := hget2 j
    simp only [Nat.zero_le, if_true, Nat.sub_zero, fresh_counts] at e1 e2
    exact ⟨e1, e2⟩

theorem C21_second_run_witness :
    loader_example.tasks = [] ∧
    loadTraffic config_example traces_example loader_example =
      (loader_after_run, Status.ok) ∧
    (loadTraffic config_example traces_example loader_after_run).2 = Status.assert_failed ∧
    (loadTraffic config_example traces_example loader_after_run).1.m_num_head_task =
      loader_after_run.m_num_head_task ∧
    (loadTraffic config_example traces_example loader_after_run).1.head_task.getD 0 [] =
      loader_after_run.head_task.getD 0 [] ++ appended_heads (traces_example.take 2) 0 :=
  have h := C21_second_run config_example traces_example loader_example loader_after_run
    rfl (by decide)
  ⟨rfl, by decide, h.1, h.2.2.2.1, (h.2.2.2.2 0).2⟩

/-! ## The waiting-time report: claim C23 -/

/-- C23: waiting-time accounting of `PrintTaskWaitingInfo`.  When the first
`m_nodes/2` interfaces exist, the iteration array has an entry for every
application and the core ids of those interfaces are distinct and inside
`[0, m_num_core)`, the computation is defined and, in the 32-bit arithmetic
of `int`: `core_waiting_time[a][c]` is the sum of the waiting times of the
tasks of `a` on `c` over the iterations of `a`; `node_waiting_time[a][n]` is
the sum of `core_waiting_time[a][c]` over the cores of `n`;
`total_core_waiting_time[c]` and `total_node_waiting_time[n]` are the sums
over the applications of their columns; and the grand total over the nodes
equals the grand total over the cores.  When no waiting time is negative and
the grand total fits an `int`, nothing wraps and all five hold as equalities
of integers. -/
theorem C23_waiting_time_accounting (net : WaitingNet)
    (hcore : 0 ≤ net.m_num_core) (hnodes : 0 ≤ net.m_nodes)
    (hnis : (Int.tdiv net.m_nodes 2).toNat ≤ net.m_nis.length)
    (hiter : net.m_num_application ≤ net.m_applicaton_execution_iterations.length)
    (hnodup : (core_ids net).Nodup)
    (hrange : ∀ x ∈ core_ids net, 0 ≤ x ∧ x < net.m_num_core) :
    ∃ r : WaitingReport, PrintTaskWaitingInfo net = some r ∧
      (∀ a : Nat, a < net.m_num_application → ∀ c ∈ visited_cores net,
        r.core_waiting_time a c.core_id = wrap32 (core_waiting_total net a c)) ∧
      (∀ a : Nat, a < net.m_num_application →
        ∀ j : Nat, j < (Int.tdiv net.m_nodes 2).toNat →
        r.node_waiting_time a j =
          wrap32 (((cores_of net j).map (fun c => r.core_waiting_time a c.core_id)).sum)) ∧
      (∀ x : Int, r.total_core_waiting_time x =
        wrap32 (((List.range net.m_num_application).map
          (fun a => r.core_waiting_time a x)).sum)) ∧
      (∀ j : Nat, r.total_node_waiting_time j =
        wrap32 (((List.range net.m_num_application).map
          (fun a => r.node_waiting_time a j)).sum)) ∧
      wrap32 (((List.range (Int.tdiv net.m_nodes 2).toNat).map
          (fun j => r.total_node_waiting_time j)).sum) =
        wrap32 (((List.range net.m_num_core.toNat).map
          (fun x : Nat => r.total_core_waiting_time (x : Int))).sum) ∧
      ((∀ a : Nat, a < net.m_num_application → ∀ c ∈ visited_cores net,
          ∀ t ∈ c.task_list a, ∀ m : Nat,
            m < (net.m_applicaton_execution_iterations.getD a 0).toNat → 0 ≤ t m) →
        ((List.range net.m_num_application).map (fun a =>
          ((visited_cores net).map (core_waiting_total net a)).sum)).sum ≤ INT_MAX →
        (∀ a : Nat, a < net.m_num_application → ∀ c ∈ visited_cores net,
          r.core_waiting_time a c.core_id = core_waiting_total net a c) ∧
        (∀ a : Nat, a < net.m_num_application →
          ∀ j : Nat, j < (Int.tdiv net.m_nodes 2).toNat →
          r.node_waiting_time a j =
            ((cores_of net j).map (fun c => r.core_waiting_time a c.core_id)).sum) ∧
        (∀ x : Int, r.total_core_waiting_time x =
          ((List.range net.m_num_application).map (fun a => r.core_waiting_time a x)).sum) ∧
        (∀ j : Nat, r.total_node_waiting_time j =
          ((List.range net.m_num_application).map (fun a => r.node_waiting_time a j)).sum) ∧
        ((List.range (Int.tdiv net.m_nodes 2).toNat).map
            (fun j => r.total_node_waiting_time j)).sum =
          ((List.range net.m_num_core.toNat).map
            (fun x : Nat => r.total_core_waiting_time (x : Int))).sum) := by
  obtain ⟨r, hr, hinv⟩ :=
    PrintTaskWaitingInfo_effect net hcore hnodes hnis hiter hnodup hrange
  refine ⟨r, hr, hinv.1, hinv.2.2.2.1, hinv.2.2.1, hinv.2.2.2.2.2,
    grand_totals_wrap32 net _ r hinv hnodup hrange, ?_⟩
  intro hnonneg hfit
  obtain ⟨e1, e2, e3, e4⟩ := apps_effect_exact net _ r hinv hnonneg hfit
  exact ⟨e1, e2, e3, e4, grand_totals_exact net _ r hinv hnodup hrange e2 e3 e4⟩

theorem C23_waiting_time_accounting_witness :
    (0 : Int) ≤ waiting_net_example.m_num_core ∧ (0 : Int) ≤ waiting_net_example.m_nodes ∧
    (Int.tdiv waiting_net_example.m_nodes 2).toNat ≤ waiting_net_example.m_nis.length ∧
    waiting_net_example.m_num_application ≤
      waiting_net_example.m_applicaton_execution_iterations.length ∧
    (core_ids waiting_net_example).Nodup ∧
    (∀ x ∈ core_ids waiting_net_example, 0 ≤ x ∧ x < waiting_net_example.m_num_core) ∧
    (PrintTaskWaitingInfo waiting_net_example).map (fun r =>
        ((List.range 2).map (fun a =>
            (List.range 4).map (fun x : Nat => r.core_waiting_time a (x : Int))),
          (List.range 2).map (fun a => (List.range 2).map (fun j => r.node_waiting_time a j)),
          (List.range 4).map (fun x : Nat => r.total_core_waiting_time (x : Int)),
          (List.range 2).map (fun j => r.total_node_waiting_time j))) =
      some ([[66, 0, 300, 6], [11, 8, 200, 0]], [[66, 306], [19, 200]],
        [77, 8, 500, 6], [85, 506]) ∧
    ∃ r : WaitingReport, PrintTaskWaitingInfo waiting_net_example = some r ∧
      (∀ j : Nat, r.total_node_waiting_time j =
        wrap32 (((List.range waiting_net_example.m_num_application).map
          (fun a => r.node_waiting_time a j)).sum)) ∧
      wrap32 (((List.range (Int.tdiv waiting_net_example.m_nodes 2).toNat).map
          (fun j => r.total_node_waiting_time j)).sum) =
        wrap32 (((List.range waiting_net_example.m_num_core.toNat).map
          (fun x : Nat => r.total_core_waiting_time (x : Int))).sum) ∧
      ((List.range (Int.tdiv waiting_net_example.m_nodes 2).toNat).map
          (fun j => r.total_node_waiting_time j)).sum =
        ((List.range waiting_net_example.m_num_core.toNat).map
          (fun x : Nat => r.total_core_waiting_time (x : Int))).sum :=
  ⟨by decide, by decide, by decide, by decide, by decide, by decide, by decide,
    match C23_waiting_time_accounting waiting_net_example (by decide) (by decide)
      (by decide) (by decide) (by decide) (by decide) with
    | ⟨r, hr, _, _, _, h4, h5, hex⟩ =>
      ⟨r, hr, h4, h5, (hex (by decide) (by decide)).2.2.2.2⟩⟩

/-! ## Implicit behaviour of the VC policy and of the delay record: claims C24 to C26 -/

/-- C24: with affinity configured and budget > 0, the VC class depends on the
object-hosting node list only through whether src or dst is a member of it.
Two lists with the same members give every edge the same class; so does a
reordering of the list, the removal of repeated entries, and pushing a node
that is already in the list once more; and whichever entry the first-match
scan stops at, the class it sets is the same. -/
theorem C24_membership_only (m_vc_allocation_object : String)
    (m_vcs_for_allocation : Int) (src_node_id dst_node_id : Int)
    (hobject : m_vc_allocation_object ≠ " ") (hbudget : m_vcs_for_allocation > 0) :
    (∀ pos pos' : List Int, (∀ x : Int, x ∈ pos ↔ x ∈ pos') →
      (∃ c : Int, vc_choice m_vc_allocation_object m_vcs_for_allocation pos
          src_node_id dst_node_id = some c) ∧
      vc_choice m_vc_allocation_object m_vcs_for_allocation pos src_node_id dst_node_id
        = vc_choice m_vc_allocation_object m_vcs_for_allocation pos'
            src_node_id dst_node_id) ∧
    (∀ pos pos' : List Int, pos.Perm pos' →
      vc_choice m_vc_allocation_object m_vcs_for_allocation pos src_node_id dst_node_id
        = vc_choice m_vc_allocation_object m_vcs_for_allocation pos'
            src_node_id dst_node_id) ∧
    (∀ pos : List Int,
      vc_choice m_vc_allocation_object m_vcs_for_allocation pos.dedup
          src_node_id dst_node_id
        = vc_choice m_vc_allocation_object m_vcs_for_allocation pos
            src_node_id dst_node_id) ∧
    (∀ (pos : List Int) (x : Int), x ∈ pos →
      vc_choice m_vc_allocation_object m_vcs_for_allocation (pos ++ [x])
          src_node_id dst_node_id
        = vc_choice m_vc_allocation_object m_vcs_for_allocation pos
            src_node_id dst_node_id) ∧
    (∀ (pos : List Int) (c : Int),
      scan_object_position src_node_id dst_node_id pos = some c →
      c = geInt dst_node_id src_node_id) := by
  have key : ∀ pos pos' : List Int, (∀ x : Int, x ∈ pos ↔ x ∈ pos') →
      vc_choice m_vc_allocation_object m_vcs_for_allocation pos src_node_id dst_node_id
        = vc_choice m_vc_allocation_object m_vcs_for_allocation pos'
            src_node_id dst_node_id := by
    intro pos pos' h
    rw [vc_choice_object _ _ _ _ _ hobject hbudget,
      vc_choice_object _ _ _ _ _ hobject hbudget]
    simp only [h src_node_id, h dst_node_id]
  refine ⟨?_, ?_, ?_, ?_, ?_⟩
  · intro pos pos' h
    exact ⟨⟨_, vc_choice_object _ _ _ _ _ hobject hbudget⟩, key pos pos' h⟩
  · intro pos pos' h
    exact key pos pos' (fun x => h.mem_iff)
  · intro pos
    exact key _ _ (fun x => List.mem_dedup)
  · intro pos x hx
    apply key
    intro y
    simp only [List.mem_append, List.mem_singleton]
    constructor
    · rintro (h | h)
      · exact h
      · rw [h]
        exact hx
    · intro h
      exact Or.inl h
  · intro pos c h
    rw [scan_object_position_eq] at h
    by_cases hm : src_node_id ∈ pos ∨ dst_node_id ∈ pos
    · rw [if_pos hm] at h
      exact (Option.some.inj h).symm
    · rw [if_neg hm] at h
      cases h

/-- Witness of C24: object name "GPU", budget 2, the edge from node 3 to
node 5, the lists [1, 3] and [3, 1, 3]. -/
theorem C24_membership_only_witness :
    (∃ c : Int, vc_choice "GPU" 2 [1, 3] 3 5 = some c) ∧
    vc_choice "GPU" 2 [1, 3] 3 5 = vc_choice "GPU" 2 [3, 1, 3] 3 5 :=
  (C24_membership_only "GPU" 2 3 5 (by decide) (by decide)).1 [1, 3] [3, 1, 3]
    (fun x => by
      simp only [List.mem_cons, List.mem_singleton, List.not_mem_nil, or_false]
      tauto)

/-- C25: when an object-affinity target name is configured but the allocation
budget m_vcs_for_allocation is zero or negative, the VC class of every edge is
1 if dst >= src and 0 otherwise, whatever the object-hosting node list holds:
classes 2 and 3 are never assigned and no fatal error is raised. -/
theorem C25_name_without_budget (m_vc_allocation_object : String)
    (m_vcs_for_allocation : Int) (vc_allocation_object_position : List Int)
    (src_node_id dst_node_id : Int)
    (_hobject : m_vc_allocation_object ≠ " ") (hbudget : m_vcs_for_allocation ≤ 0) :
    vc_choice m_vc_allocation_object m_vcs_for_allocation
        vc_allocation_object_position src_node_id dst_node_id
      = some (if dst_node_id ≥ src_node_id then 1 else 0) ∧
    vc_choice m_vc_allocation_object m_vcs_for_allocation
        vc_allocation_object_position src_node_id dst_node_id
      = vc_choice m_vc_allocation_object m_vcs_for_allocation [] src_node_id dst_node_id ∧
    vc_choice m_vc_allocation_object m_vcs_for_allocation
        vc_allocation_object_position src_node_id dst_node_id ≠ some 2 ∧
    vc_choice m_vc_allocation_object m_vcs_for_allocation
        vc_allocation_object_position src_node_id dst_node_id ≠ some 3 ∧
    vc_choice m_vc_allocation_object m_vcs_for_allocation
        vc_allocation_object_position src_node_id dst_node_id ≠ none := by
  have hv : ¬ m_vcs_for_allocation > 0 := by omega
  rw [vc_choice_no_budget _ _ _ _ _ hv, vc_choice_no_budget _ _ _ _ _ hv]
  unfold geInt
  refine ⟨rfl, rfl, ?_, ?_, ?_⟩
  · by_cases h : dst_node_id ≥ src_node_id
    · rw [if_pos h]
      decide
    · rw [if_neg h]
      decide
  · by_cases h : dst_node_id ≥ src_node_id
    · rw [if_pos h]
      decide
    · rw [if_neg h]
      decide
  · exact Option.some_ne_none _

/-- Witness of C25: object name "GPU", budget 0, hosting list [3], the edge
from node 3 to node 5, which touches the hosting node 3. -/
theorem C25_name_without_budget_witness :
    vc_choice "GPU" 0 [3] 3 5 = some (if (5 : Int) ≥ 3 then 1 else 0) ∧
    vc_choice "GPU" 0 [3] 3 5 = vc_choice "GPU" 0 [] 3 5 ∧
    vc_choice "GPU" 0 [3] 3 5 ≠ some 2 ∧
    vc_choice "GPU" 0 [3] 3 5 ≠ some 3 ∧
    vc_choice "GPU" 0 [3] 3 5 ≠ none :=
  C25_name_without_budget "GPU" 0 [3] 3 5 (by decide) (by decide)

/-- C26: for an (app, iter) whose start is still INT_MAX and whose end is
still INT_MIN, output_ete_delay records, under 32-bit wrap-around arithmetic,
ETE_delay = (INT_MIN - INT_MAX) mod 2^32 = 1, a small positive delay: neither
negative nor the exact difference, which does not fit an int. -/
theorem C26_sentinel_delay (s : Tracker) (app iter : Nat) (old : Int) (name : String)
    (hb : get2 s.task_start_time app iter = some INT_MAX)
    (he : get2 s.task_end_time app iter = some INT_MIN)
    (hold : get2 s.ETE_delay app iter = some old)
    (hname : s.m_application_name[app]? = some name) :
    ∃ s' : Tracker, output_ete_delay s app iter = some s' ∧
      get2 s'.ETE_delay app iter = some 1 ∧
      (INT_MIN - INT_MAX) % 2 ^ 32 = 1 ∧
      wrap32 (INT_MIN - INT_MAX) = 1 ∧
      INT_MIN - INT_MAX < INT_MIN ∧
      s'.app_delay_running_info =
        s.app_delay_running_info ++ [⟨name, iter, INT_MAX, INT_MIN, 1⟩] := by
  obtain ⟨s', hrun, hget, hlog, _, _, _⟩ :=
    output_ete_delay_spec s app iter INT_MAX INT_MIN old name hb he hold hname
  have hw : wrap32 (INT_MIN - INT_MAX) = 1 := by decide
  rw [hw] at hget hlog
  exact ⟨s', hrun, hget, by decide, hw, by decide, hlog⟩

/-- Witness of C26: iteration 2 of the example tracker, which still holds both
sentinels. -/
theorem C26_sentinel_delay_witness :
    ∃ s' : Tracker, output_ete_delay (tracker_iter3 100 180) 0 2 = some s' ∧
      get2 s'.ETE_delay 0 2 = some 1 ∧
      (INT_MIN - INT_MAX) % 2 ^ 32 = 1 ∧
      wrap32 (INT_MIN - INT_MAX) = 1 ∧
      INT_MIN - INT_MAX < INT_MIN ∧
      s'.app_delay_running_info =
        (tracker_iter3 100 180).app_delay_running_info
          ++ [⟨"app0", 2, INT_MAX, INT_MIN, 1⟩] :=
  C26_sentinel_delay (tracker_iter3 100 180) 0 2 0 "app0"
    (by decide) (by decide) (by decide) (by decide)

end GarnetNetwork
